import Mathlib

/-! hpcac-toolkit: fault-tolerant Jacobi/SOR drivers and the heat-equation driver.

A shallow embedding of the parts of `jacobi_scr.c`, `jacobi_ulfm.c`,
`jacobi_noft.c`, `main_scr.c`, `utils.c`, `jacobi.h`, `parallelHeatEq.c` and
`parallelHeatEqUtils.c` that decide the checkpoint, restart, repair and
termination behaviour of the drivers, their halo exchange and kernels, and the
shape of their output, followed by the theorems about them.

Conventions.
* C `int` values are `Int`, wrapped with `wrap32` where an increment or a
  product could leave the range of `int`; C truth values are `Int` (zero is
  false).
* The type `double` is `ℚ`: arithmetic is exact, rounding is not modelled.
* Buffers are lists; a read outside a buffer yields 0 and a write outside it is
  dropped (both are undefined in C and do not occur for the sizes the drivers
  allocate).
* Text files are `Option (List Char)`: `none` is a file that does not exist.
* Calls into libraries that are not part of the repository (MPI, ULFM, SCR,
  the C library) are recorded in traces, answered by explicit parameters, or
  given the outcome their standard defines.
* A world of processes is the list of their states in rank order, and a pass
  of the loop is taken by all ranks together.
-/

namespace Hpcac

/-! ## jacobi.h -/

/-- The constant `MAX_ITER` of `jacobi.h`. -/
def MAX_ITER : Int := 67

/-! ## utils.c: the terminated-instances side channel -/

/-- The constant `MAX_NAME_LEN` of `utils.c`. -/
def MAX_NAME_LEN : Nat := 63

/-- The C library predicate `isspace` in the C locale. -/
def isspace (c : Char) : Bool :=
  c = ' ' || c = '\t' || c = '\n' || c = '\x0b' || c = '\x0c' || c = '\r'

/-- Leading white space that a `%s` conversion skips. -/
def skip_ws : List Char → List Char
  | [] => []
  | c :: cs => if isspace c then skip_ws cs else c :: cs

/-- The maximal run of non-white-space characters a `%s` conversion stores,
together with the unread rest of the stream. -/
def take_token : List Char → List Char × List Char
  | [] => ([], [])
  | c :: cs =>
    if isspace c then ([], c :: cs)
    else ((c :: (take_token cs).1), (take_token cs).2)

/-- One call `fscanf(fd, "%s", instance_read)`: `none` is the return value
`EOF` (the stream ends before a token starts), otherwise the token stored and
the rest of the stream. -/
def fscanf_s (stream : List Char) : Option (List Char × List Char) :=
  match skip_ws stream with
  | [] => none
  | s => some (take_token s)

/-- The function `write_terminated_instances_file`: opens the file in append
mode (creating it when absent) and, if the open succeeded, prints the name
followed by a newline. -/
def write_terminated_instances_file (fopen_ok : Bool) (instance_name : List Char)
    (file : Option (List Char)) : Option (List Char) :=
  if fopen_ok then some (file.getD [] ++ instance_name ++ ['\n']) else file

/-- The `while (fscanf(...) != EOF)` loop of `was_instance_already_terminated`.
The outer `none` is undefined behaviour: a token longer than `MAX_NAME_LEN`
overruns `instance_read`. The fuel bounds the number of tokens. -/
def scan_loop (instance_name : List Char) : Nat → List Char → Option Int
  | 0, _ => some 0
  | fuel + 1, stream =>
    match fscanf_s stream with
    | none => some 0
    | some (instance_read, rest) =>
      if MAX_NAME_LEN < instance_read.length then none
      else if instance_read = instance_name then some 1
      else scan_loop instance_name fuel rest

/-- The function `was_instance_already_terminated`. -/
def was_instance_already_terminated (instance_name : List Char)
    (file : Option (List Char)) : Option Int :=
  match file with
  | none => some 0
  | some content => scan_loop instance_name (content.length + 1) content

/-- State of the side channel: the file `terminated_instances.txt` and the
termination requests (`aws ec2 terminate-instances`) issued so far. -/
structure TermState where
  terminated_file : Option (List Char)
  requests : List (List Char)
deriving DecidableEq

/-- The function `terminate_aws_instance`. The parameter `id_file` is the
content of `instance_id.txt` left by the `describe-instances` command (`none`
when the file could not be opened); the record is written before the request
is issued. -/
def terminate_aws_instance (id_file : Option (List Char)) (instance_name : List Char)
    (st : TermState) : TermState :=
  match id_file with
  | none => st
  | some content =>
    if content.length ≠ 0 then
      { terminated_file := write_terminated_instances_file true instance_name st.terminated_file,
        requests := st.requests ++ [instance_name] }
    else st

/-- The fault-injection block at the end of a pass of `jacobi_cpu` in
`jacobi_scr.c` (evaluated after `iteration++`). -/
def terminate_block (rank iteration : Int) (id_file : Option (List Char))
    (st : TermState) : Option TermState :=
  if rank = 0 then
    if Int.tdiv MAX_ITER 3 = iteration then
      match was_instance_already_terminated "Node 1".toList st.terminated_file with
      | none => none
      | some w =>
        if w = 0 then some (terminate_aws_instance id_file "Node 1".toList st)
        else if Int.tdiv (2 * MAX_ITER) 3 = iteration then
          match was_instance_already_terminated "Node 2".toList st.terminated_file with
          | none => none
          | some w2 =>
            if w2 = 0 then some (terminate_aws_instance id_file "Node 2".toList st)
            else some st
        else some st
    else if Int.tdiv (2 * MAX_ITER) 3 = iteration then
      match was_instance_already_terminated "Node 2".toList st.terminated_file with
      | none => none
      | some w2 =>
        if w2 = 0 then some (terminate_aws_instance id_file "Node 2".toList st)
        else some st
    else some st
  else some st

/-! ## jacobi_ulfm.c: iteration counters and `app_reload_ckpt` -/

/-- The constant `CKPT_STEP` of `jacobi_ulfm.c`. -/
def CKPT_STEP : Int := 10

/-- Control points of `jacobi_cpu` in `jacobi_ulfm.c`:
`entry` a spawned process before it has joined the repaired world,
`top` inside the loop body before the buddy-checkpoint block,
`sor` at or after the label `do_sor`, before `iteration++`,
`test` at the loop condition, `done` after the loop. -/
inductive Loc where
  | entry | top | sor | test | done
deriving DecidableEq, Repr

/-- The statics `iteration` and `ckpt_iteration` of one process, with its
control point. -/
structure Proc where
  loc : Loc
  iteration : Int
  ckpt_iteration : Int
deriving DecidableEq, Repr

/-- A process started by `mpirun`: statics as initialised, first pass of the
`do` loop ahead. -/
def Proc.fresh : Proc := { loc := .top, iteration := 0, ckpt_iteration := 0 }

/-- A process started by `MPI_Comm_spawn`: `jacobi_cpu` sets
`ckpt_iteration = MAX_ITER` before it calls `app_needs_repair`. -/
def Proc.spawnee : Proc := { loc := .entry, iteration := 0, ckpt_iteration := MAX_ITER }

/-- What a process does next. -/
inductive Event where
  /-- the block `if ((0 != iteration) && (0 == (iteration % CKPT_STEP)))` -/
  | ckpt_block
  /-- the statement `iteration++` at the end of the loop body -/
  | advance
  /-- the loop condition; the flag is `sqrt(diff_norm) > epsilon` -/
  | loop_test (above : Bool)
  /-- a repair: `app_reload_ckpt` stored `m + 1`, control resumes at `do_sor` -/
  | recover (m : Int)
deriving DecidableEq, Repr

/-- One step of a process. An event that does not apply at the control point
leaves the process as it is. -/
def Proc.step (p : Proc) : Event → Proc
  | .ckpt_block =>
    if p.loc = .top then
      { loc := .sor, iteration := p.iteration,
        ckpt_iteration :=
          if p.iteration ≠ 0 ∧ Int.tmod p.iteration CKPT_STEP = 0 then p.iteration
          else p.ckpt_iteration }
    else p
  | .advance =>
    if p.loc = .sor then { p with loc := .test, iteration := p.iteration + 1 } else p
  | .loop_test above =>
    if p.loc = .test then
      if p.iteration < MAX_ITER ∧ above = true then { p with loc := .top }
      else { p with loc := .done }
    else p
  | .recover m => { p with loc := .sor, iteration := m + 1 }

/-- The process reached from `p` by a history of events. -/
def Proc.run (p : Proc) (es : List Event) : Proc := es.foldl Proc.step p

/-- The result of `MPI_Allreduce` with `MPI_MIN` over the contributions of a communicator,
listed in rank order. -/
def allreduce_min : List Int → Int
  | [] => 0
  | x :: xs => xs.foldl min x

/-- The function `app_reload_ckpt` executed by every rank of `world`:
the all-reduce stores the minimum in `iteration`, then `iteration++`. -/
def app_reload_ckpt (world : List Proc) : List Proc :=
  world.map fun p =>
    { p with iteration := allreduce_min (world.map Proc.ckpt_iteration) + 1 }

/-- The restored world of size `N` at the call of `app_reload_ckpt`: rank `r`
is a new spawnee when `dead r`, otherwise the survivor with history `hist r`
(started by `mpirun`, or itself spawned in an earlier repair when
`spawned r`). -/
def restored_world (N : Nat) (dead spawned : Nat → Bool) (hist : Nat → List Event) :
    List Proc :=
  (List.range N).map fun r =>
    if dead r then Proc.spawnee
    else (if spawned r then Proc.spawnee else Proc.fresh).run (hist r)

/-- The contributions of the survivors alone, in rank order. -/
def survivor_ckpts (N : Nat) (dead spawned : Nat → Bool) (hist : Nat → List Event) :
    List Int :=
  ((List.range N).filter fun r => !dead r).map fun r =>
    ((if spawned r then Proc.spawnee else Proc.fresh).run (hist r)).ckpt_iteration

/-! ## jacobi_ulfm.c: `MPIX_Comm_replace` -/

/-- A process taking part in a repair of `comm`: a survivor, named by its rank
in `comm`, or a spawned process, named by its rank among the spawned ones
(its rank in the remote group of the spawn intercommunicator). -/
inductive Member where
  | survivor (rank_in_comm : Nat)
  | spawnee (i : Nat)
deriving DecidableEq, Repr

/-- The function `MPI_Group_difference`: the members of the first group that are not in the
second, in the order of the first group. -/
def MPI_Group_difference (g1 g2 : List Nat) : List Nat :=
  g1.filter fun r => !g2.contains r

/-- The group of `comm` (size `N`), as the list of its ranks. -/
def cgrp (N : Nat) : List Nat := List.range N

/-- The group of `scomm`, the result of `MPIX_Comm_shrink`: the ranks of `comm`
that are alive. -/
def sgrp (N : Nat) (dead : Nat → Bool) : List Nat :=
  (List.range N).filter fun r => !dead r

/-- The group `dgrp` computed by rank 0 of `scomm`, each member already
translated to its rank in `cgrp` (the values `drank` of the loop). -/
def dgrp (N : Nat) (dead : Nat → Bool) : List Nat :=
  MPI_Group_difference (cgrp N) (sgrp N dead)

/-- The value of `crank` a process holds when it reaches `MPI_Comm_split`: a
survivor its rank in `comm`, the spawned process `i` the `drank` sent to it. -/
def crank (N : Nat) (dead : Nat → Bool) : Member → Nat
  | .survivor r => r
  | .spawnee i => (dgrp N dead).getD i 0

instance crank_le_total (N : Nat) (dead : Nat → Bool) :
    IsTotal Member (fun a b => crank N dead a ≤ crank N dead b) :=
  ⟨fun _ _ => Nat.le_total _ _⟩

instance crank_le_trans (N : Nat) (dead : Nat → Bool) :
    IsTrans Member (fun a b => crank N dead a ≤ crank N dead b) :=
  ⟨fun _ _ _ h1 h2 => Nat.le_trans h1 h2⟩

/-- The processes of the merged communicator `mcomm`, survivors first. The
order in which `MPI_Intercomm_merge` really lists them is left open: the
theorems take any permutation of this list. -/
def merged (N : Nat) (dead : Nat → Bool) : List Member :=
  (sgrp N dead).map Member.survivor ++
    (List.range (N - (sgrp N dead).length)).map Member.spawnee

/-- The function `MPI_Comm_split` with one colour: the processes of the old communicator,
given in rank order, listed in the rank order of the new one, that is sorted by
key with ties kept in the old order. -/
def MPI_Comm_split {α : Type} (key : α → Nat) (old : List α) : List α :=
  old.insertionSort fun a b => key a ≤ key b

/-- The communicator `*newcomm` that `MPIX_Comm_replace` returns when no step
fails, as the list of its processes in rank order. With nobody dead it is
`comm` itself. -/
def MPIX_Comm_replace (N : Nat) (dead : Nat → Bool) (mcomm : List Member) : List Member :=
  if N - (sgrp N dead).length = 0 then (cgrp N).map Member.survivor
  else MPI_Comm_split (crank N dead) mcomm

/-! ## jacobi_ulfm.c: the two world slots, `app_needs_repair`, `errhandler_respawn` -/

/-- An MPI communicator handle; `none` is `MPI_COMM_NULL`. -/
abbrev MPI_Comm := Option Nat

/-- The null handle. -/
def MPI_COMM_NULL : MPI_Comm := none

/-- The statics of `jacobi_ulfm.c` that a repair touches: the slots
`worldc[0]`, `worldc[1]`, the index `worldi`, and the two counters. -/
structure Globals where
  worldc0 : MPI_Comm
  worldc1 : MPI_Comm
  worldi : Nat
  iteration : Int
  ckpt_iteration : Int
deriving DecidableEq, Repr

/-- The macro `world`, that is `worldc[worldi]`. -/
def Globals.world (g : Globals) : MPI_Comm :=
  if g.worldi = 0 then g.worldc0 else g.worldc1

/-- An assignment to `world`. -/
def Globals.set_world (g : Globals) (c : MPI_Comm) : Globals :=
  if g.worldi = 0 then { g with worldc0 := c } else { g with worldc1 := c }

/-- Calls that leave the function, in the order they are made. -/
inductive Call where
  | MPI_Abort (errcode : Int)
  | MPIX_Comm_revoke (comm : MPI_Comm)
  | app_needs_repair (comm : MPI_Comm)
  | MPI_Comm_free (comm : MPI_Comm)
  | MPIX_Comm_replace (comm : MPI_Comm)
  | app_reload_ckpt (comm : MPI_Comm)
  | longjmp
deriving DecidableEq, Repr

/-- How a call ended: with a return value, by `_longjmp` to the restart point,
or with the process aborted. -/
inductive Outcome where
  | returned (value : Bool)
  | jumped
  | aborted
deriving DecidableEq, Repr

/-- The function `app_needs_repair`. The parameter `newcomm` is the handle
`MPIX_Comm_replace` stores in `world`, and `m` the minimum that the all-reduce
of `app_reload_ckpt` delivers. -/
def app_needs_repair (newcomm : MPI_Comm) (m : Int) (comm : MPI_Comm) (g : Globals) :
    Globals × List Call × Outcome :=
  if comm = g.world then
    let g1 : Globals := { g with worldi := (g.worldi + 1) % 2 }
    let freed : List Call :=
      if MPI_COMM_NULL ≠ g1.world then [Call.MPI_Comm_free g1.world] else []
    let g2 : Globals := if MPI_COMM_NULL ≠ g1.world then g1.set_world MPI_COMM_NULL else g1
    let g3 : Globals := g2.set_world newcomm
    let g4 : Globals := { g3 with iteration := m + 1 }
    if MPI_COMM_NULL = comm then
      (g4, freed ++ [Call.MPIX_Comm_replace comm, Call.app_reload_ckpt newcomm],
        Outcome.returned false)
    else
      (g4, freed ++ [Call.MPIX_Comm_replace comm, Call.app_reload_ckpt newcomm, Call.longjmp],
        Outcome.jumped)
  else (g, [], Outcome.returned true)

/-- The function `errhandler_respawn`. The parameters `PROC_FAILED` and
`REVOKED` are the constants `MPIX_ERR_PROC_FAILED` and `MPIX_ERR_REVOKED` of
`mpi-ext.h`, `eclass` is what `MPI_Error_class` returns for `*errcode`, and
`pcomm` is the communicator the error was raised on. `MPI_Abort` does not
return. -/
def errhandler_respawn (PROC_FAILED REVOKED : Int) (newcomm : MPI_Comm) (m : Int)
    (_pcomm : MPI_Comm) (eclass errcode : Int) (g : Globals) :
    Globals × List Call × Outcome :=
  if PROC_FAILED ≠ eclass ∧ REVOKED ≠ eclass then
    (g, [Call.MPI_Abort errcode], Outcome.aborted)
  else
    ((app_needs_repair newcomm m g.world g).1,
      [Call.MPIX_Comm_revoke g.world, Call.app_needs_repair g.world] ++
        (app_needs_repair newcomm m g.world g).2.1,
      (app_needs_repair newcomm m g.world g).2.2)

/-! ## jacobi_scr.c: dataset names, `read_ch`, `try_restart` -/

/-- The macro `TYPE` of `jacobi.h` is `double`; values are kept exact. -/
abbrev TYPE := ℚ

/-- Wrap-around of a C `int` (32 bits, two's complement). -/
def wrap32 (x : Int) : Int := (x + 2147483648) % 4294967296 - 2147483648

/-- The C library predicate `isdigit`. -/
def isdigit (c : Char) : Bool := '0' ≤ c && c ≤ '9'

/-- The `for` loop of `extract_final_number`, scanning the reversed string
from its first character, with the running `number` and `multiplier`. -/
def extract_loop : List Char → Int → Int → Int
  | [], number, _ => number
  | c :: cs, number, multiplier =>
    if isdigit c then
      extract_loop cs (wrap32 (number + wrap32 (((c.toNat : Int) - 48) * multiplier)))
        (wrap32 (multiplier * 10))
    else number

/-- The function `extract_final_number`. -/
def extract_final_number (str : List Char) : Int :=
  extract_loop str.reverse 0 1

/-- Decimal digits of a natural number, most significant first; the fuel is
an upper bound on their number. -/
def dec_digits : Nat → Nat → List Char
  | 0, _ => []
  | fuel + 1, n =>
    if n < 10 then [Char.ofNat (48 + n)]
    else dec_digits fuel (n / 10) ++ [Char.ofNat (48 + n % 10)]

/-- The text `snprintf` produces for `%d`. -/
def print_d (i : Int) : List Char :=
  if i < 0 then '-' :: dec_digits (i.natAbs + 1) i.natAbs else dec_digits (i.natAbs + 1) i.natAbs

/-- The dataset name `snprintf(dirname, ..., "timestep.%d", iteration)`. -/
def timestep_name (iteration : Int) : List Char := "timestep.".toList ++ print_d iteration

/-- Calls of the external-store driver into the SCR library and into its own
file routines, in the order they are made. Return codes are kept as flags:
`true` is `SCR_SUCCESS`. -/
inductive ScrCall where
  | SCR_Have_restart
  | SCR_Start_restart (dset : List Char)
  | SCR_Route_file (dset : List Char)
  | read_ch
  | SCR_Complete_restart (valid : Int)
  | SCR_Need_checkpoint
  | SCR_Start_output (dirname : List Char)
  | write_ch
  | SCR_Complete_output (valid : Int)
deriving DecidableEq, Repr

/-- How a routine of the driver ended: `returned v`, or `trapped` when it ran
into undefined behaviour that stops the process (a null stream handed to the C
library, a division by zero), or `pending` when the fuel of the model ran
out. -/
inductive Ended (α : Type) where
  | returned (value : α)
  | trapped
  | pending
deriving DecidableEq, Repr

/-- The function `read_ch`. `malloc_ok` tells whether `read_buf` was
allocated, `pFile` is the content of the file when `fopen` succeeded, `rc` the
return value of `fclose`. The result is `valid` and the buffer after `fread`;
`none` is a null stream handed to `fread` or `fclose`. The ten timer values
read in debug mode do not touch the buffer and are left out. -/
def read_ch (verbose : Int) (malloc_ok : Bool) (pFile : Option (List TYPE)) (rc : Int)
    (buf : List TYPE) (length : Nat) : Option (Int × List TYPE) :=
  let valid0 : Int := if verbose ≠ 0 ∧ malloc_ok = false then 0 else 1
  let valid1 : Int := if verbose ≠ 0 ∧ pFile = none then 0 else valid0
  match pFile with
  | none => none
  | some content =>
    let buf1 : List TYPE :=
      if valid1 ≠ 0 then content.take length ++ buf.drop (min length content.length) else buf
    some (if verbose ≠ 0 ∧ 0 ≠ rc then 0 else valid1, buf1)

/-- What the store and the file system answer during attempt `k` of
`try_restart`. -/
structure RestartEnv where
  /-- the flag `SCR_Have_restart` stores in `have_restart` -/
  have_restart : Nat → Int
  /-- the dataset name it stores in `dset` -/
  dset : Nat → List Char
  /-- whether `SCR_Route_file` returns `SCR_SUCCESS` -/
  route_ok : Nat → Bool
  /-- whether `SCR_Complete_restart(valid)` returns `SCR_SUCCESS` -/
  complete_ok : Nat → Int → Bool
  malloc_ok : Nat → Bool
  pFile : Nat → Option (List TYPE)
  fclose_rc : Nat → Int

/-- The locals and statics `try_restart` leaves behind. -/
structure Restart where
  restarted : Int
  iteration : Int
  buf : List TYPE
deriving DecidableEq, Repr

/-- The `do ... while (have_restart && !restarted)` loop of `try_restart`,
from attempt `k` on, with the current `found_checkpoint`, `iteration` and
buffer. -/
def try_restart_loop (verbose : Int) (env : RestartEnv) (length : Nat) :
    Nat → Nat → Int → Int → List TYPE → List ScrCall × Ended Restart
  | 0, _, _, _, _ => ([], Ended.pending)
  | fuel + 1, k, found_checkpoint, iteration, buf =>
    if env.have_restart k ≠ 0 then
      let pre : List ScrCall :=
        [ScrCall.SCR_Have_restart, ScrCall.SCR_Start_restart (env.dset k),
          ScrCall.SCR_Route_file (env.dset k)]
      let read : Option (Int × List TYPE × List ScrCall) :=
        if verbose ≠ 0 ∧ env.route_ok k = false then some (found_checkpoint, buf, [])
        else
          match read_ch verbose (env.malloc_ok k) (env.pFile k) (env.fclose_rc k) buf length with
          | none => none
          | some (valid, buf1) => some (if valid ≠ 0 then 1 else 0, buf1, [ScrCall.read_ch])
      match read with
      | none => (pre ++ [ScrCall.read_ch], Ended.trapped)
      | some (found, buf1, rd) =>
        let calls : List ScrCall := pre ++ rd ++ [ScrCall.SCR_Complete_restart found]
        if verbose ≠ 0 ∧ env.complete_ok k found = false then
          ((calls ++ (try_restart_loop verbose env length fuel (k + 1) found iteration buf1).1),
            (try_restart_loop verbose env length fuel (k + 1) found iteration buf1).2)
        else
          (calls, Ended.returned
            { restarted := 1, iteration := wrap32 (extract_final_number (env.dset k) + 1),
              buf := buf1 })
    else
      ([ScrCall.SCR_Have_restart],
        Ended.returned { restarted := 0, iteration := iteration, buf := buf })

/-- The function `try_restart`, with `iteration` and the buffer as they are at
the call. -/
def try_restart (verbose : Int) (env : RestartEnv) (fuel : Nat) (iteration : Int)
    (buf : List TYPE) (length : Nat) : List ScrCall × Ended Restart :=
  try_restart_loop verbose env length fuel 0 0 iteration buf

/-! ## jacobi_scr.c: `write_ch`, `write_checkpoint` and the driver loop -/

/-- The function `write_ch`, as far as its result goes. `fopen_ok` tells
whether the file could be opened, `return_value` is what `fwrite` returned for
the buffer, `rc` what `fclose` returned. `none` is a null stream handed to
`fwrite`. -/
def write_ch (verbose : Int) (fopen_ok : Bool) (return_value : Int) (rc : Int)
    (length : Int) : Option Int :=
  if verbose ≠ 0 ∧ fopen_ok = false then some 0
  else if fopen_ok = false then none
  else
    let valid1 : Int := if verbose ≠ 0 ∧ length ≠ return_value then 0 else 1
    some (if 0 ≠ rc then 0 else valid1)

/-- What the store and the file system answer during one call of
`write_checkpoint`. -/
structure OutputEnv where
  /-- the flag `SCR_Need_checkpoint` stores in `need_checkpoint` -/
  need_checkpoint : Int
  fopen_ok : Bool
  return_value : Int
  fclose_rc : Int

/-- The decision `need_checkpoint = (iteration % step == 0)`; `none` when the
remainder is undefined (`step` is zero, or `INT_MIN % -1`). -/
def modulo_rule (iteration step : Int) : Option Int :=
  if step = 0 ∨ (iteration = -2147483648 ∧ step = -1) then none
  else some (if Int.tmod iteration step = 0 then 1 else 0)

/-- The function `write_checkpoint`, called with the statics `iteration` and
`step` as they are. -/
def write_checkpoint (verbose use_scr_need_checkpoint step iteration : Int)
    (env : OutputEnv) (length : Int) : List ScrCall × Ended Unit :=
  let asked : List ScrCall :=
    if use_scr_need_checkpoint ≠ 0 then [ScrCall.SCR_Need_checkpoint] else []
  let decided : Option Int :=
    if use_scr_need_checkpoint ≠ 0 then some env.need_checkpoint
    else modulo_rule iteration step
  match decided with
  | none => (asked, Ended.trapped)
  | some need0 =>
    let need_checkpoint : Int := if need0 ≠ 0 ∧ iteration = MAX_ITER - 1 then 0 else need0
    if need_checkpoint ≠ 0 then
      let pre : List ScrCall :=
        asked ++ [ScrCall.SCR_Start_output (timestep_name iteration),
          ScrCall.SCR_Route_file (timestep_name iteration), ScrCall.write_ch]
      match write_ch verbose env.fopen_ok env.return_value env.fclose_rc length with
      | none => (pre, Ended.trapped)
      | some valid => (pre ++ [ScrCall.SCR_Complete_output valid], Ended.returned ())
    else (asked, Ended.returned ())

/-- What the surroundings answer during the pass that starts with a given
value of `iteration`. -/
structure PassEnv where
  output : OutputEnv
  /-- the outcome of `sqrt(diff_norm) > epsilon` after the all-reduce -/
  above : Bool
  /-- the file `instance_id.txt` as left by `describe-instances` -/
  id_file : Option (List Char)

/-- The `do ... while` loop of `jacobi_cpu` in `jacobi_scr.c`, reduced to what
decides checkpoints, fault injection and termination: the halo exchange, the
SOR sweep and the all-reduce of a pass enter only through `above`. The result
is the final `iteration` and the side-channel state. -/
def Scr.loop (verbose use_scr_need_checkpoint step rank : Int) (env : Int → PassEnv)
    (length : Int) : Nat → Int → TermState → List ScrCall × Ended (Int × TermState)
  | 0, _, _ => ([], Ended.pending)
  | fuel + 1, iteration, st =>
    match write_checkpoint verbose use_scr_need_checkpoint step iteration
        (env iteration).output length with
    | (calls, Ended.returned _) =>
      match terminate_block rank (wrap32 (iteration + 1)) (env iteration).id_file st with
      | none => (calls, Ended.trapped)
      | some st1 =>
        if wrap32 (iteration + 1) < MAX_ITER ∧ (env iteration).above = true then
          (calls ++ (Scr.loop verbose use_scr_need_checkpoint step rank env length fuel
              (wrap32 (iteration + 1)) st1).1,
            (Scr.loop verbose use_scr_need_checkpoint step rank env length fuel
              (wrap32 (iteration + 1)) st1).2)
        else (calls, Ended.returned (wrap32 (iteration + 1), st1))
    | (calls, Ended.trapped) => (calls, Ended.trapped)
    | (calls, Ended.pending) => (calls, Ended.pending)

/-- The dataset names for which an output was started, in order. -/
def started_outputs : List ScrCall → List (List Char)
  | [] => []
  | ScrCall.SCR_Start_output d :: cs => d :: started_outputs cs
  | _ :: cs => started_outputs cs

/-- The calls that belong to the output of a checkpoint. -/
def is_output_call : ScrCall → Bool
  | ScrCall.SCR_Start_output _ => true
  | ScrCall.write_ch => true
  | ScrCall.SCR_Complete_output _ => true
  | _ => false

/-! ## jacobi_ulfm.c: tiles, the SOR pass and the buddy ring -/

/-- The constant `M_PI` of `math.h`, as the double it denotes. -/
def M_PI : TYPE := 884279719003555 / 281474976710656

/-- Read of `buf[k]`. -/
def rd (buf : List TYPE) (k : Nat) : TYPE := buf.getD k 0

/-- The payload of a send of `count` elements starting at `buf + off`. -/
def payload (buf : List TYPE) (off count : Nat) : List TYPE := (buf.drop off).take count

/-- A completed receive into `buf + off`: the message replaces the elements it
covers, the rest of the buffer stays. -/
def deliver (buf : List TYPE) (off : Nat) (msg : List TYPE) : List TYPE :=
  buf.take off ++ msg ++ buf.drop (off + msg.length)

/-- Offset of the macro `RECV_NORTH`. -/
def RECV_NORTH (NB : Nat) : Nat := (NB + 2) * 0 + 1

/-- Offset of the macro `SEND_NORTH`. -/
def SEND_NORTH (NB : Nat) : Nat := (NB + 2) * 1 + 1

/-- Offset of the macro `RECV_SOUTH`. -/
def RECV_SOUTH (NB MB : Nat) : Nat := (NB + 2) * (MB + 1) + 1

/-- Offset of the macro `SEND_SOUTH`. -/
def SEND_SOUTH (NB MB : Nat) : Nat := (NB + 2) * MB + 1

/-- The staging buffer `send_west` after the packing loop. -/
def pack_west (NB MB : Nat) (old_matrix : List TYPE) : List TYPE :=
  (List.range MB).map fun i => rd old_matrix ((i + 1) * (NB + 2) + 1)

/-- The staging buffer `send_east` after the packing loop. -/
def pack_east (NB MB : Nat) (old_matrix : List TYPE) : List TYPE :=
  (List.range MB).map fun i => rd old_matrix ((i + 1) * (NB + 2) + NB + 0)

/-- The loop after `MPI_Waitall` that copies `recv_west` and `recv_east` into
the ghost columns of `old_matrix`. -/
def unpack (NB MB : Nat) (old_matrix recv_west recv_east : List TYPE) : List TYPE :=
  (List.range MB).foldl
    (fun m i => (m.set ((i + 1) * (NB + 2)) (rd recv_west i)).set
      ((i + 1) * (NB + 2) + NB + 1) (rd recv_east i))
    old_matrix

/-- The two loops under `do_sor` that copy the ghost columns and rows of
`old_matrix` into `new_matrix`. -/
def replicate_ghosts (NB MB : Nat) (new_matrix old_matrix : List TYPE) : List TYPE :=
  (List.range NB).foldl
    (fun m i => (m.set (i + 1) (rd old_matrix (i + 1))).set
      ((NB + 2) * (MB + 1) + i + 1) (rd old_matrix ((NB + 2) * (MB + 1) + i + 1)))
    ((List.range MB).foldl
      (fun m i => (m.set ((i + 1) * (NB + 2)) (rd old_matrix ((i + 1) * (NB + 2)))).set
        ((i + 1) * (NB + 2) + NB + 1) (rd old_matrix ((i + 1) * (NB + 2) + NB + 1)))
      new_matrix)

/-- The body of the inner loop of `SOR1` at column `i` of row `j`, on the pair
(`nm`, `norm`). -/
def SOR1_cell (om : List TYPE) (nb : Nat) (j : Nat) (acc : List TYPE × TYPE) (i : Nat) :
    List TYPE × TYPE :=
  let W : TYPE := 2 / (1 + M_PI / (nb : TYPE))
  let pos : Nat := 1 + i + (j + 1) * (nb + 2)
  let v : TYPE := (1 - W) * rd om pos +
    W / 4 * (rd acc.1 (pos - 1) + rd om (pos + 1) + rd acc.1 (pos - (nb + 2)) +
      rd om (pos + (nb + 2)))
  (acc.1.set pos v, acc.2 + (v - rd om pos) * (v - rd om pos))

/-- The function `SOR1`: the matrix `nm` after the sweep and the returned
`norm`. -/
def SOR1 (nm om : List TYPE) (nb mb : Nat) : List TYPE × TYPE :=
  (List.range mb).foldl
    (fun acc j => (List.range nb).foldl (SOR1_cell om nb j) acc)
    (nm, 0)

/-- The statics and locals of one process of `jacobi_cpu` in `jacobi_ulfm.c`.
`last_dead` is `none` for `MPI_PROC_NULL`; `spawned` tells whether the process
has a parent. -/
structure RankState where
  old_matrix : List TYPE
  new_matrix : List TYPE
  recv_east : List TYPE
  recv_west : List TYPE
  bckpt : List TYPE
  iteration : Int
  ckpt_iteration : Int
  last_dead : Option Nat
  spawned : Bool
deriving DecidableEq, Repr

/-- A placeholder for a rank outside the world. -/
def RankState.blank : RankState :=
  { old_matrix := [], new_matrix := [], recv_east := [], recv_west := [], bckpt := [],
    iteration := 0, ckpt_iteration := 0, last_dead := none, spawned := false }

/-- The process at rank `r` of a world listed in rank order. -/
def at_rank (w : List RankState) (r : Nat) : RankState := w.getD r RankState.blank

/-- The members of the communicator a process of world rank `r` gets from
`MPI_Comm_split(world, color, rank, ...)`, as world ranks in the rank order of
the new communicator. -/
def split_members (N : Nat) (color : Nat → Nat) (r : Nat) : List Nat :=
  MPI_Comm_split (fun x => x) ((List.range N).filter fun x => color x = color r)

/-- One halo round of the world (the receives, sends, `MPI_Waitall` and the
unpacking loop), for the process at world rank `r`. -/
def halo_rank (NB MB P : Nat) (w : List RankState) (r : Nat) : RankState :=
  let me : RankState := at_rank w r
  let ns : List Nat := split_members w.length (fun x => x % P) r
  let ew : List Nat := split_members w.length (fun x => x / P) r
  let ns_rank : Nat := ns.indexOf r
  let ew_rank : Nat := ew.indexOf r
  let m1 : List TYPE :=
    if 0 ≠ ns_rank then
      deliver me.old_matrix (RECV_NORTH NB)
        (payload (at_rank w (ns.getD (ns_rank - 1) 0)).old_matrix (SEND_SOUTH NB MB) NB)
    else me.old_matrix
  let m2 : List TYPE :=
    if ns.length - 1 ≠ ns_rank then
      deliver m1 (RECV_SOUTH NB MB)
        (payload (at_rank w (ns.getD (ns_rank + 1) 0)).old_matrix (SEND_NORTH NB) NB)
    else m1
  let recv_east : List TYPE :=
    if ew.length - 1 ≠ ew_rank then
      deliver me.recv_east 0
        (payload (pack_west NB MB (at_rank w (ew.getD (ew_rank + 1) 0)).old_matrix) 0 MB)
    else me.recv_east
  let recv_west : List TYPE :=
    if 0 ≠ ew_rank then
      deliver me.recv_west 0
        (payload (pack_east NB MB (at_rank w (ew.getD (ew_rank - 1) 0)).old_matrix) 0 MB)
    else me.recv_west
  { me with old_matrix := unpack NB MB m2 recv_west recv_east,
            recv_east := recv_east, recv_west := recv_west }

/-- The halo round of the whole world. -/
def halo_round (NB MB P : Nat) (w : List RankState) : List RankState :=
  (List.range w.length).map (halo_rank NB MB P w)

/-- The circular buddy checkpoint of the whole world, entered when
`(0 != iteration) && (0 == (iteration % CKPT_STEP))`: every rank receives the
tile of its ring predecessor into `bckpt` and records the iteration. -/
def buddy_checkpoint (NB MB : Nat) (w : List RankState) : List RankState :=
  (List.range w.length).map fun r =>
    let me : RankState := at_rank w r
    if 0 ≠ me.iteration ∧ 0 = Int.tmod me.iteration CKPT_STEP then
      { me with
          bckpt := deliver me.bckpt 0
            (payload (at_rank w ((r + w.length - 1) % w.length)).old_matrix 0
              ((NB + 2) * (MB + 2))),
          ckpt_iteration := me.iteration }
    else me

/-- The code from the label `do_sor` to `iteration++`, for one process, given
the all-reduced norm is computed by the caller: ghost replication, `SOR1`, the
swap of the two matrices and the increment. The second component is the local
`diff_norm`. -/
def do_sor (NB MB : Nat) (me : RankState) : RankState × TYPE :=
  let swept : List TYPE × TYPE :=
    SOR1 (replicate_ghosts NB MB me.new_matrix me.old_matrix) me.old_matrix NB MB
  ({ me with old_matrix := swept.1, new_matrix := me.old_matrix,
             iteration := wrap32 (me.iteration + 1) }, swept.2)

/-- The all-reduced `diff_norm` of a world whose ranks are about to run
`do_sor`. -/
def allreduce_sum (NB MB : Nat) (w : List RankState) : TYPE :=
  (w.map fun me => (do_sor NB MB me).2).sum

/-- One fault-free pass of the `do` loop for the whole world. -/
def pass (NB MB P : Nat) (w : List RankState) : List RankState :=
  (buddy_checkpoint NB MB (halo_round NB MB P w)).map fun me => (do_sor NB MB me).1

/-- The world after `k` fault-free passes. -/
def passes (NB MB P : Nat) : Nat → List RankState → List RankState
  | 0, w => w
  | k + 1, w => passes NB MB P k (pass NB MB P w)

/-- A single failure and its repair: rank `d` is replaced by a spawned process
whose buffers hold whatever `malloc` returned (`junk`; `new_matrix` comes from
`calloc`), rank `leader` (rank 0 of the shrunken communicator) records
`last_dead`, and every rank runs `app_reload_ckpt`. -/
def respawn (NB MB : Nat) (d leader : Nat) (junk : RankState) (w : List RankState) :
    List RankState :=
  let replaced : List RankState := (List.range w.length).map fun r =>
    if r = d then
      { junk with new_matrix := List.replicate ((NB + 2) * (MB + 2)) 0,
                  iteration := 0, ckpt_iteration := MAX_ITER, last_dead := none,
                  spawned := true }
    else if r = leader then { at_rank w r with last_dead := some d }
    else at_rank w r
  replaced.map fun me =>
    { me with iteration :=
        wrap32 (allreduce_min (replaced.map RankState.ckpt_iteration) + 1) }

/-- The restore round entered when `do_recover || (MPI_COMM_NULL != parent)`:
every rank receives into `old_matrix` what its ring successor sends, which is
the successor's `bckpt`, of length zero when the successor's rank equals its
`last_dead`. -/
def buddy_restore (NB MB : Nat) (w : List RankState) : List RankState :=
  (List.range w.length).map fun r =>
    let me : RankState := at_rank w r
    let s : Nat := (r + 1) % w.length
    let sender : RankState := at_rank w s
    let count : Nat := if sender.last_dead = some s then 0 else (NB + 2) * (MB + 2)
    { me with old_matrix := deliver me.old_matrix 0 (payload sender.bckpt 0 count) }

/-- The pass a repaired world runs first: the restore round, then `do_sor`
without halo exchange and without checkpoint. -/
def recovery_pass (NB MB : Nat) (w : List RankState) : List RankState :=
  (buddy_restore NB MB w).map fun me => (do_sor NB MB me).1

/-- The buffers of a process have the sizes `jacobi_cpu` allocates for them. -/
def sized (NB MB : Nat) (me : RankState) : Prop :=
  me.old_matrix.length = (NB + 2) * (MB + 2) ∧ me.new_matrix.length = (NB + 2) * (MB + 2) ∧
    me.bckpt.length = (NB + 2) * (MB + 2)

instance sized_decidable (NB MB : Nat) (me : RankState) : Decidable (sized NB MB me) := by
  unfold sized
  infer_instance

/-- The outcome of `sqrt(diff_norm) > epsilon` for a sum of squares
`diff_norm`. -/
def sqrt_above (diff_norm epsilon : TYPE) : Bool :=
  decide (epsilon < 0 ∨ epsilon * epsilon < diff_norm)

/-! ### Sample inputs for `NB = MB = 1` -/

/-- A process as `main` and `jacobi_cpu` leave it before the first pass of a
fresh run: `old_matrix` is the initialised matrix, `new_matrix` comes from
`calloc`, the other buffers hold what `malloc` returned, here the value `u`. -/
def sample_rank (matrix : List TYPE) (u : TYPE) : RankState :=
  { old_matrix := matrix, new_matrix := List.replicate 9 0, recv_east := [u],
    recv_west := [u], bckpt := List.replicate 9 u, iteration := 0, ckpt_iteration := 0,
    last_dead := none, spawned := false }

/-- A fresh world of two ranks side by side (`P = 2`, `Q = 1`), borders 1/2
and -1/4, interiors zero. -/
def sample_world : List RankState :=
  [sample_rank [1/2, 1/2, 1/2, 1/2, 0, 1/2, 1/2, 1/2, 1/2] 0,
   sample_rank [-1/4, -1/4, -1/4, -1/4, 0, -1/4, -1/4, -1/4, -1/4] 0]

/-- The buffers of a newly spawned process: every uninitialised cell holds 7. -/
def sample_junk : RankState :=
  { old_matrix := List.replicate 9 7, new_matrix := List.replicate 9 0, recv_east := [7],
    recv_west := [7], bckpt := List.replicate 9 7, iteration := 0, ckpt_iteration := 0,
    last_dead := none, spawned := true }

/-- A world in which every rank is at iteration `k` of a run without repair so
far, with buffers of the allocated sizes. -/
def lockstep (NB MB : Nat) (k : Int) (w : List RankState) : Prop :=
  ∀ q, q < w.length →
    (at_rank w q).iteration = k ∧ (at_rank w q).last_dead = none ∧ sized NB MB (at_rank w q)

instance lockstep_decidable (NB MB : Nat) (k : Int) (w : List RankState) :
    Decidable (lockstep NB MB k w) := by
  unfold lockstep
  infer_instance

/-! ## jacobi_scr.c: what a checkpoint file holds -/

/-- The doubles `write_ch` leaves in the file it opened. `return_value` is the
number of elements the `fwrite` of the buffer stored (`length` when nothing
failed); in debug mode the array `data` of the ten timers follows, of which
the second `fwrite` stored `data_value`. -/
def write_ch_file (debug : Int) (data : List TYPE) (buf : List TYPE)
    (length return_value data_value : Nat) : List TYPE :=
  (payload buf 0 length).take return_value
    ++ (if debug ≠ 0 then (payload data 0 10).take data_value else [])

/-- The ten timers after `read_ch`, in the order of the array `data`
(`total_wf_time` first, `t_complete_output` last). `stack` is what the local
array `data` holds before the `fread`, which stores the doubles the file has
after the first `length`, at most ten; the sizes are not checked. `none` is a
null stream handed to `fread`. -/
def read_ch_timers (verbose debug : Int) (malloc_ok : Bool) (pFile : Option (List TYPE))
    (timers stack : List TYPE) (length : Nat) : Option (List TYPE) :=
  let valid0 : Int := if verbose ≠ 0 ∧ malloc_ok = false then 0 else 1
  let valid1 : Int := if verbose ≠ 0 ∧ pFile = none then 0 else valid0
  match pFile with
  | none => none
  | some content =>
    if valid1 ≠ 0 ∧ debug ≠ 0 then
      some (List.zipWith (fun t d => t + d) timers
        (deliver (payload stack 0 10) 0 (payload content length 10)))
    else some timers

/-! ## The iteration loops of the three drivers -/

/-- The test `(iteration < MAX_ITER) && (sqrt(diff_norm) > epsilon)` that
closes the `do ... while` loop of `jacobi_cpu` in the three drivers. -/
def loop_test (iteration : Int) (diff_norm epsilon : TYPE) : Bool :=
  decide (iteration < MAX_ITER) && sqrt_above diff_norm epsilon

/-- A `do ... while` loop closed by `loop_test`. `body` is one pass: it returns
the state after the pass and the all-reduced `diff_norm`; `counter` reads the
iteration counter the test looks at. `none` is a loop that outlives the fuel. -/
def do_while {W : Type} (body : W → W × TYPE) (counter : W → Int) (epsilon : TYPE) :
    Nat → W → Option W
  | 0, _ => none
  | fuel + 1, w =>
    if loop_test (counter (body w).1) (body w).2 epsilon = true then
      do_while body counter epsilon fuel (body w).1
    else some (body w).1

/-- The all-reduced `diff_norm` of pass `j` (counted from 0) of a loop whose
body is `body`, started in `w`. -/
def norm_of_pass {W : Type} (body : W → W × TYPE) : Nat → W → TYPE
  | 0, w => (body w).2
  | j + 1, w => norm_of_pass body j (body w).1

/-- One pass of the loop of `jacobi_cpu` in `jacobi_noft.c` for the whole
world, on the local counter `iter` and the buffers of the ranks: the halo
round, `SOR1(nm, om, NB, MB)` (this driver does not replicate the ghost cells
into `nm`), the all-reduce, the swap and `iter++`. -/
def Noft.pass (NB MB P : Nat) (s : Int × List RankState) : (Int × List RankState) × TYPE :=
  ((wrap32 (s.1 + 1),
    (halo_round NB MB P s.2).map fun me =>
      { me with old_matrix := (SOR1 me.new_matrix me.old_matrix NB MB).1,
                new_matrix := me.old_matrix }),
   ((halo_round NB MB P s.2).map fun me => (SOR1 me.new_matrix me.old_matrix NB MB).2).sum)

/-- The value `jacobi_cpu` of `jacobi_noft.c` returns, for a world whose ranks
enter with the buffers of `w`. -/
def Noft.jacobi_cpu (NB MB P : Nat) (epsilon : TYPE) (fuel : Nat) (w : List RankState) :
    Option Int :=
  (do_while (Noft.pass NB MB P) (fun s => s.1) epsilon fuel (0, w)).map fun s => s.1

/-- One fault-free pass of the loop of `jacobi_cpu` in `jacobi_ulfm.c` for the
whole world, with the all-reduced `diff_norm`. -/
def Ulfm.body (NB MB P : Nat) (w : List RankState) : List RankState × TYPE :=
  (pass NB MB P w, allreduce_sum NB MB (buddy_checkpoint NB MB (halo_round NB MB P w)))

/-- The value `jacobi_cpu` of `jacobi_ulfm.c` returns on rank `rank` of a first
run (`MPI_COMM_NULL == parent`) in which no process fails. -/
def Ulfm.jacobi_cpu (NB MB P : Nat) (epsilon : TYPE) (fuel rank : Nat) (w : List RankState) :
    Option Int :=
  (do_while (Ulfm.body NB MB P) (fun v => (at_rank v rank).iteration) epsilon fuel w).map
    fun v => (at_rank v rank).iteration

/-- The function `jacobi_cpu` of `jacobi_scr.c` from the call of `SCR_Init` on,
with the static `iteration` as it is at the call: the calls it makes and the
value it returns, with the side-channel state. When `SCR_Init` fails the
process ends in `MPI_Abort`. -/
def Scr.jacobi_cpu (verbose use_scr_need_checkpoint step rank : Int) (scr_init_ok : Bool)
    (renv : RestartEnv) (env : Int → PassEnv) (buf : List TYPE) (length : Nat) (fuel : Nat)
    (iteration : Int) (st : TermState) : List ScrCall × Ended (Int × TermState) :=
  if scr_init_ok = false then ([], Ended.trapped)
  else
    match try_restart verbose renv fuel iteration buf length with
    | (calls, Ended.returned r) =>
      (calls ++ (Scr.loop verbose use_scr_need_checkpoint step rank env (length : Int) fuel
          r.iteration st).1,
        (Scr.loop verbose use_scr_need_checkpoint step rank env (length : Int) fuel
          r.iteration st).2)
    | (calls, Ended.trapped) => (calls, Ended.trapped)
    | (calls, Ended.pending) => (calls, Ended.pending)

/-- A world of one rank (`P = Q = 1`, `NB = MB = 1`) whose tile and buffers
are all zero. -/
def zero_world : List RankState :=
  [{ old_matrix := List.replicate 9 0, new_matrix := List.replicate 9 0, recv_east := [0],
     recv_west := [0], bckpt := List.replicate 9 0, iteration := 0, ckpt_iteration := 0,
     last_dead := none, spawned := false }]

/-! ## main_scr.c: the SOR driver -/

/-- How `main` of `main_scr.c` ends: by `exit(code)` after a message, before
`MPI_Init`, or by `return code` after the call
`jacobi_cpu(om, NB, MB, P, Q, MPI_COMM_WORLD, 0)`. -/
inductive MainOutcome where
  | exited (message : String) (code : Int)
  | ran_jacobi_cpu (NB MB P Q : Int) (code : Int)
deriving DecidableEq, Repr

/-- The function `main` of `main_scr.c` from the end of the argument loop on.
`P`, `Q`, `NB`, `MB` are the variables as the loop left them (`-1` when the
option was absent), `size` is what `MPI_Comm_size` stores and `rc` what
`jacobi_cpu` returns; neither changes the way `main` ends. -/
def Scr.main (P Q NB MB : Int) (_size : Int) (_rc : Int) : MainOutcome :=
  if P < 1 then MainOutcome.exited "Missing number of processes per row (-p #)\n" (-1)
  else if Q < 1 then
    MainOutcome.exited "Missing number of processes per column (-q #)\n" (-1)
  else if NB = -1 then
    MainOutcome.exited "Missing the first dimension of the matrix (-NB #)\n" (-1)
  else MainOutcome.ran_jacobi_cpu NB (if MB = -1 then NB else MB) P Q 0

/-! ## parallelHeatEq.c: the heat-equation driver -/

/-- The main loop `while(!converged)` of the heat-equation driver, reduced to
its counter: `converged` is never assigned, so the loop is left only by the
`break` under `step > maxSteps`. Every pass of the loop makes one call of
`computeNext`. The result is `step` when the loop is left. -/
def Heat.loop (maxSteps : Int) : Nat → Int → Option Int
  | 0, _ => none
  | fuel + 1, step =>
    if wrap32 (step + 1) > maxSteps then some (wrap32 (step + 1))
    else Heat.loop maxSteps fuel (wrap32 (step + 1))

/-- The MPI calls of `main` of `parallelHeatEq.c` whose outcome depends on the
number of processes in the world. -/
inductive HeatCall where
  | MPI_Cart_create
  | MPI_Cart_shift
  | MPI_Allreduce
deriving DecidableEq, Repr

/-- How `main` of `parallelHeatEq.c` ends for one process: it returns `value`
after `step` steps of its main loop; or it does not get past an MPI call,
having made `calls` calls of `computeNext` (the call is erroneous, which under
the default error handler `MPI_ERRORS_ARE_FATAL` ends the job, the driver
installing no handler of its own; or the call waits for processes that never
enter it); or the fuel of the model ran out. -/
inductive HeatEnd where
  | returned (step value : Int)
  | stopped (call : HeatCall) (calls : Int)
  | pending
deriving DecidableEq, Repr

/-- The outcome of `MPI_Cart_create(comm, 2, domains, ...)` with
`domains = {y_domains, x_domains}` for the process of rank `local_rank` in a
world of `nMpiRanks` processes, as the MPI standard defines it: `none` when
the call is erroneous (a dimension below 1, or a grid with more positions than
the world has processes), `some false` when the process gets `MPI_COMM_NULL`
(its rank is not in the grid), `some true` when it gets the grid
communicator. -/
def Heat.MPI_Cart_create (nMpiRanks local_rank y_domains x_domains : Int) : Option Bool :=
  if y_domains < 1 ∨ x_domains < 1 ∨ nMpiRanks < y_domains * x_domains then none
  else some (decide (local_rank < y_domains * x_domains))

/-- The function `main` of `parallelHeatEq.c` as far as its control goes, for
the process of rank `local_rank` in a world of `nMpiRanks` processes. The
first component tells whether the message "Number of processes not equal to
Number of subdomains" was printed; no exit follows the message. The second is
how the process ends. An erroneous `MPI_Cart_create` stops it there. With
`MPI_COMM_NULL` in `comm2d` it stops in `MPI_Cart_shift`, for which the null
handle is erroneous. With a grid communicator in a world larger than the grid
it runs `updateBoundaries`, enters the main loop, calls `computeNext` once and
stops in `MPI_Allreduce` over `MPI_COMM_WORLD`, which the processes outside
the grid never enter. Else it runs the main loop and returns 0, the only
`return` of `main`. -/
def Heat.main (local_rank nMpiRanks x_domains y_domains maxSteps : Int) (fuel : Nat) :
    Bool × HeatEnd :=
  (decide (local_rank = 0 ∧ nMpiRanks ≠ x_domains * y_domains),
    match Heat.MPI_Cart_create nMpiRanks local_rank y_domains x_domains with
    | none => HeatEnd.stopped HeatCall.MPI_Cart_create 0
    | some false => HeatEnd.stopped HeatCall.MPI_Cart_shift 0
    | some true =>
      if y_domains * x_domains < nMpiRanks then HeatEnd.stopped HeatCall.MPI_Allreduce 1
      else
        match Heat.loop maxSteps fuel 0 with
        | none => HeatEnd.pending
        | some step => HeatEnd.returned step 0)

/-- The lines `main` of `parallelHeatEq.c` prints to `output.dat` on rank 0,
each line as the list of the values on it: a line of `temp1_init`, then for
every row of subdomains and every `j < yCell` a line with `temp1_init`, the
gathered values of that line and `temp1_init`, then a last line of
`temp1_init`. -/
def Heat.output_lines (size_x x_domains y_domains xCell yCell : Nat) (temp1_init : TYPE)
    (xTempFinal : List TYPE) : List (List TYPE) :=
  [(List.range (size_x + 1)).map (fun _ => temp1_init) ++ [temp1_init]]
    ++ ((List.range y_domains).flatMap fun i =>
        (List.range yCell).map fun j =>
          [temp1_init]
            ++ ((List.range x_domains).flatMap fun k =>
                (List.range xCell).map fun l =>
                  rd xTempFinal (i * x_domains * xCell * yCell + k * xCell * yCell
                    + l * yCell + j))
            ++ [temp1_init])
    ++ [(List.range (size_x + 1)).map (fun _ => temp1_init) ++ [temp1_init]]

/-- The content of `output.dat` for the sizes `main` computes:
`xCell = size_x/x_domains` and `yCell = size_y/y_domains`; `none` is a
division by zero. -/
def Heat.output (size_x size_y x_domains y_domains : Nat) (temp1_init : TYPE)
    (xTempFinal : List TYPE) : Option (List (List TYPE)) :=
  if x_domains = 0 ∨ y_domains = 0 then none
  else some (Heat.output_lines size_x x_domains y_domains (size_x / x_domains)
    (size_y / y_domains) temp1_init xTempFinal)

/-! ## jacobi_scr.c: the configured checkpoint interval -/

/-- The digits loop of the C library function `atoi`, with the value read so
far. -/
def atoi_digits : List Char → Int → Int
  | [], value => value
  | c :: cs, value =>
    if isdigit c then atoi_digits cs (value * 10 + ((c.toNat : Int) - 48)) else value

/-- The C library function `atoi`: leading white space is skipped, an optional
sign is read, then decimal digits up to the first other character; a text
without digits there gives 0. The value is wrapped to `int`. -/
def atoi (text : List Char) : Int :=
  match skip_ws text with
  | '-' :: cs => wrap32 (-(atoi_digits cs 0))
  | '+' :: cs => wrap32 (atoi_digits cs 0)
  | cs => wrap32 (atoi_digits cs 0)

/-- The count of the `MPI_Send` of `bckpt` a process of rank `s` makes in the
restore round of `jacobi_cpu` in `jacobi_ulfm.c`: 0 under `rank == last_dead`,
else the full tile. -/
def restore_send_count (NB MB : Nat) (w : List RankState) (s : Nat) : Nat :=
  if (at_rank w s).last_dead = some s then 0 else (NB + 2) * (MB + 2)

/-! ## parallelHeatEqUtils.c: grids, `computeNext`, `initValues`, `processToMap` -/

/-- The distance of `x[i][j]` from `x[0]` in the contiguous block allocated by
`main`, whose rows have `size_total_y` cells. -/
def Heat.idx (size_total_y : Nat) (i j : Int) : Int := i * size_total_y + j

/-- Read of `x[i][j]`. -/
def Heat.get (size_total_y : Nat) (x : List TYPE) (i j : Int) : TYPE :=
  if Heat.idx size_total_y i j < 0 then 0 else rd x (Heat.idx size_total_y i j).toNat

/-- The assignment `x[i][j] = v`. -/
def Heat.put (size_total_y : Nat) (x : List TYPE) (i j : Int) (v : TYPE) : List TYPE :=
  if Heat.idx size_total_y i j < 0 then x else x.set (Heat.idx size_total_y i j).toNat v

/-- The values a loop `for (i=lo;i<=hi;i++)` runs through. -/
def Heat.span (lo hi : Int) : List Int :=
  (List.range (hi + 1 - lo).toNat).map fun (t : Nat) => lo + (t : Int)

/-- The cells `(i, j)` the nested loops of `computeNext` visit, in their
order: `i` from `xs` to `xe`, and for each `i`, `j` from `ys` to `ye`. -/
def Heat.cells (xs ys xe ye : Int) : List (Int × Int) :=
  (Heat.span xs xe).flatMap fun i => (Heat.span ys ye).map fun j => (i, j)

/-- The right-hand side of the assignment to `x[i][j]` in the first loop nest
of `computeNext`. -/
def Heat.stencil (size_total_y : Nat) (x0 : List TYPE) (dt hx hy k0 : TYPE) (i j : Int) :
    TYPE :=
  let xDiag : TYPE := -2 + hx * hx / (2 * k0 * dt)
  let yDiag : TYPE := -2 + hy * hy / (2 * k0 * dt)
  let xWeight : TYPE := k0 * dt / (hx * hx)
  let yWeight : TYPE := k0 * dt / (hy * hy)
  xWeight * (Heat.get size_total_y x0 (i - 1) j + Heat.get size_total_y x0 (i + 1) j
      + Heat.get size_total_y x0 i j * xDiag)
    + yWeight * (Heat.get size_total_y x0 i (j - 1) + Heat.get size_total_y x0 i (j + 1)
      + Heat.get size_total_y x0 i j * yDiag)

/-- The function `computeNext` for the bounds `xs[localRank]`, `ys[localRank]`,
`xe[localRank]`, `ye[localRank]`: the arrays `x0` and `x` after the call and
the value stored in `*diff`. -/
def Heat.computeNext (size_total_y : Nat) (x0 x : List TYPE) (dt hx hy : TYPE)
    (xs ys xe ye : Int) (k0 : TYPE) : List TYPE × List TYPE × TYPE :=
  let x1 : List TYPE := (Heat.cells xs ys xe ye).foldl
    (fun x c => Heat.put size_total_y x c.1 c.2
      (Heat.stencil size_total_y x0 dt hx hy k0 c.1 c.2)) x
  let swept : List TYPE × TYPE := (Heat.cells xs ys xe ye).foldl
    (fun acc c =>
      (Heat.put size_total_y acc.1 c.1 c.2 (Heat.get size_total_y x1 c.1 c.2),
        acc.2 + (Heat.get size_total_y acc.1 c.1 c.2 - Heat.get size_total_y x1 c.1 c.2)
          * (Heat.get size_total_y acc.1 c.1 c.2 - Heat.get size_total_y x1 c.1 c.2)))
    (x0, 0)
  (swept.1, x1, swept.2)

/-- The function `initValues`. -/
def Heat.initValues (x0 : List TYPE) (size_total_x size_total_y : Nat)
    (temp1_init temp2_init : TYPE) : List TYPE :=
  let stx : Int := size_total_x
  let sty : Int := size_total_y
  let a : List TYPE := (Heat.span 0 (stx - 1)).foldl
    (fun x i => Heat.put size_total_y (Heat.put size_total_y x i 0 temp1_init) i (sty - 1)
      temp1_init) x0
  let b : List TYPE := (Heat.span 0 (sty - 1)).foldl
    (fun x j => Heat.put size_total_y (Heat.put size_total_y x 0 j temp1_init) (stx - 1) j
      temp1_init) a
  let c : List TYPE := (Heat.span 0 (stx - 2)).foldl
    (fun x i => Heat.put size_total_y (Heat.put size_total_y x i 1 temp1_init) i (sty - 2)
      temp1_init) b
  let d : List TYPE := (Heat.span 1 (sty - 2)).foldl
    (fun x j => Heat.put size_total_y (Heat.put size_total_y x 1 j temp1_init) (stx - 2) j
      temp1_init) c
  (Heat.cells 2 2 (stx - 3) (sty - 3)).foldl
    (fun x c => Heat.put size_total_y x c.1 c.2 temp2_init) d

/-- The four arrays `xs`, `ys`, `xe`, `ye` of `main`, indexed by rank. -/
structure Heat.Map where
  xs : List Int
  ys : List Int
  xe : List Int
  ye : List Int
deriving DecidableEq, Repr

/-- Read of `a[k]` in an array of `int`. -/
def Heat.geti (a : List Int) (k : Nat) : Int := a.getD k 0

/-- The pair of assignments `ys[k] = v; ye[k] = ys[k]+yCell-1;`. -/
def Heat.set_y (m : Heat.Map) (k : Nat) (v yCell : Int) : Heat.Map :=
  { m with ys := m.ys.set k v, ye := m.ye.set k (Heat.geti (m.ys.set k v) k + yCell - 1) }

/-- The pair of assignments `xs[k] = v; xe[k] = xs[k]+xCell-1;`. -/
def Heat.set_x (m : Heat.Map) (k : Nat) (v xCell : Int) : Heat.Map :=
  { m with xs := m.xs.set k v, xe := m.xe.set k (Heat.geti (m.xs.set k v) k + xCell - 1) }

/-- The function `processToMap`, on the arrays as they are at the call. The
domain counts are natural numbers; in the loops that start at 1 the index is
written `t + 1`. -/
def Heat.processToMap (m : Heat.Map) (xCell yCell : Int) (x_domains y_domains : Nat) :
    Heat.Map :=
  let m1 : Heat.Map := (List.range x_domains).foldl (fun m i => Heat.set_y m i 2 yCell) m
  let m2 : Heat.Map := (List.range (y_domains - 1)).foldl
    (fun m t => (List.range x_domains).foldl
      (fun m j => Heat.set_y m ((t + 1) * x_domains + j)
        (Heat.geti m.ys ((t + 1 - 1) * x_domains + j) + yCell + 2) yCell) m) m1
  let m3 : Heat.Map := (List.range y_domains).foldl
    (fun m i => Heat.set_x m (i * x_domains) 2 xCell) m2
  (List.range y_domains).foldl
    (fun m t => (List.range (x_domains - 1)).foldl
      (fun m u => Heat.set_x m ((t + 1 - 1) * x_domains + (u + 1))
        (Heat.geti m.xs ((t + 1 - 1) * x_domains + (u + 1 - 1)) + xCell + 2) xCell) m) m3

/-! ## parallelHeatEqUtils.c and parallelHeatEq.c: the exchange and the run -/

/-- The ranks `MPI_Cart_shift` stores in `neighbors[W]`, `neighbors[E]`
(direction 0) and `neighbors[S]`, `neighbors[N]` (direction 1) for rank `r` of
the grid created with `domains = {y_domains, x_domains}`, not periodic, ranks
in row-major order; `none` is `MPI_PROC_NULL`. The result is listed in the
order of the indices `S = 0, E = 1, N = 2, W = 3`. -/
def Heat.neighbors (x_domains y_domains r : Nat) : List (Option Nat) :=
  [if 1 ≤ r % x_domains then some (r - 1) else none,
   if r / x_domains + 1 < y_domains then some (r + x_domains) else none,
   if r % x_domains + 1 < x_domains then some (r + 1) else none,
   if 1 ≤ r / x_domains then some (r - x_domains) else none]

/-- The neighbour of `r` stored under index `k` of `neighbors`. -/
def Heat.neighbor (x_domains y_domains r k : Nat) : Option Nat :=
  (Heat.neighbors x_domains y_domains r).getD k none

/-- The `count` doubles starting at `&x[i][j]`. -/
def Heat.row (size_total_y : Nat) (x : List TYPE) (i j : Int) (count : Nat) : List TYPE :=
  (List.range count).map fun (t : Nat) => Heat.get size_total_y x i (j + (t : Int))

/-- The `count` doubles of `column_type` starting at `&x[i][j]`: one per row. -/
def Heat.column (size_total_y : Nat) (x : List TYPE) (i j : Int) (count : Nat) : List TYPE :=
  (List.range count).map fun (t : Nat) => Heat.get size_total_y x (i + (t : Int)) j

/-- A message of `count` doubles received at `&x[i][j]`. -/
def Heat.recv_row (size_total_y : Nat) (x : List TYPE) (i j : Int) (count : Nat)
    (msg : List TYPE) : List TYPE :=
  (List.range count).foldl (fun g (t : Nat) => Heat.put size_total_y g i (j + (t : Int)) (rd msg t)) x

/-- A message of one `column_type` received at `&x[i][j]`. -/
def Heat.recv_column (size_total_y : Nat) (x : List TYPE) (i j : Int) (count : Nat)
    (msg : List TYPE) : List TYPE :=
  (List.range count).foldl (fun g (t : Nat) => Heat.put size_total_y g (i + (t : Int)) j (rd msg t)) x

/-- One `MPI_Sendrecv` made by every rank of the world `w` (the array `x` of
each rank, in rank order): rank `r` receives what its `source` sends;
`MPI_PROC_NULL` as source leaves the array as it is. -/
def Heat.sendrecv (w : List (List TYPE)) (source : Nat → Option Nat)
    (send : Nat → List TYPE → List TYPE) (recv : Nat → List TYPE → List TYPE → List TYPE) :
    List (List TYPE) :=
  (List.range w.length).map fun r =>
    match source r with
    | none => w.getD r []
    | some s => recv r (w.getD r []) (send s (w.getD s []))

/-- The function `updateBoundaries`, called by every rank of the world. -/
def Heat.updateBoundaries (size_total_y x_domains y_domains : Nat) (m : Heat.Map)
    (xCell yCell : Nat) (w : List (List TYPE)) : List (List TYPE) :=
  let xs : Nat → Int := Heat.geti m.xs
  let ys : Nat → Int := Heat.geti m.ys
  let xe : Nat → Int := Heat.geti m.xe
  let ye : Nat → Int := Heat.geti m.ye
  let w1 := Heat.sendrecv w (fun r => Heat.neighbor x_domains y_domains r 0)
    (fun s x => Heat.row size_total_y x (xe s) (ys s) yCell)
    (fun r x msg => Heat.recv_row size_total_y x (xs r - 1) (ys r) yCell msg)
  let w2 := Heat.sendrecv w1 (fun r => Heat.neighbor x_domains y_domains r 2)
    (fun s x => Heat.row size_total_y x (xs s) (ys s) yCell)
    (fun r x msg => Heat.recv_row size_total_y x (xe r + 1) (ys r) yCell msg)
  let w3 := Heat.sendrecv w2 (fun r => Heat.neighbor x_domains y_domains r 3)
    (fun s x => Heat.column size_total_y x (xs s) (ye s) xCell)
    (fun r x msg => Heat.recv_column size_total_y x (xs r) (ys r - 1) xCell msg)
  Heat.sendrecv w3 (fun r => Heat.neighbor x_domains y_domains r 1)
    (fun s x => Heat.column size_total_y x (xs s) (ys s) xCell)
    (fun r x msg => Heat.recv_column size_total_y x (xs r) (ye r + 1) xCell msg)

/-- The macro `min` of `parallelHeatEq.c`. -/
def Heat.min (a b : TYPE) : TYPE := if a ≤ b then a else b

/-- The time step `main` passes to `computeNext`: both branches of the test
`dt1>=dt2` assign `dt1`. -/
def Heat.time_step (dt1 hx hy k0 : TYPE) : TYPE :=
  if dt1 ≥ 1 / 4 * (Heat.min hx hy * Heat.min hx hy) / k0 then dt1 else dt1

/-- The main loop `while(!converged)` with its body: `pass` is what one pass
does to the state of the run (`computeNext`, `updateBoundaries` and the
all-reduce). `converged` is never assigned; the loop is left by the `break`
under `step > maxSteps`, tested after the pass. The result is `step` and the
state when the loop is left. -/
def Heat.main_loop {W : Type} (pass : W → W) (maxSteps : Int) : Nat → Int → W → Option (Int × W)
  | 0, _, _ => none
  | fuel + 1, step, w =>
    if wrap32 (step + 1) > maxSteps then some (wrap32 (step + 1), pass w)
    else Heat.main_loop pass maxSteps fuel (wrap32 (step + 1)) (pass w)

/-- One pass of the main loop for the whole world: `computeNext` on every
rank, then `updateBoundaries`. -/
def Heat.pass (size_total_y x_domains y_domains : Nat) (m : Heat.Map) (xCell yCell : Nat)
    (dt hx hy k0 : TYPE) (w : List (List TYPE)) : List (List TYPE) :=
  Heat.updateBoundaries size_total_y x_domains y_domains m xCell yCell
    ((List.range w.length).map fun r =>
      (Heat.computeNext size_total_y (w.getD r []) (w.getD r []) dt hx hy
        (Heat.geti m.xs r) (Heat.geti m.ys r) (Heat.geti m.xe r) (Heat.geti m.ye r) k0).1)

/-- The arrays `x0` of the ranks when `main` of `parallelHeatEq.c` leaves its
main loop, with the final `step`, for a world of `x_domains*y_domains` ranks
and the parameters `main` assigns at its start. The memory `malloc` returns
holds `junk`. -/
def Heat.run (size_x size_y x_domains y_domains : Nat) (maxSteps : Int)
    (dt1 temp1_init temp2_init k0 junk : TYPE) (fuel : Nat) : Option (Int × List (List TYPE)) :=
  let hx : TYPE := 1 / ((size_x + 2 : Nat) : TYPE)
  let hy : TYPE := 1 / ((size_y + 2 : Nat) : TYPE)
  let size_total_x : Nat := size_x + 2 * x_domains + 2
  let size_total_y : Nat := size_y + 2 * y_domains + 2
  let xCell : Nat := size_x / x_domains
  let yCell : Nat := size_y / y_domains
  let n : Nat := x_domains * y_domains
  let m : Heat.Map := Heat.processToMap
    ⟨List.replicate n 0, List.replicate n 0, List.replicate n 0, List.replicate n 0⟩
    xCell yCell x_domains y_domains
  let x0 : List TYPE := Heat.initValues (List.replicate (size_total_x * size_total_y) junk)
    size_total_x size_total_y temp1_init temp2_init
  Heat.main_loop
    (Heat.pass size_total_y x_domains y_domains m xCell yCell
      (Heat.time_step dt1 hx hy k0) hx hy k0)
    maxSteps fuel 0
    (Heat.updateBoundaries size_total_y x_domains y_domains m xCell yCell
      (List.replicate n x0))

/-! ## jacobi.h and the halo round: which cells are touched -/

/-- The row of cell `k` in a tile whose rows have `NB + 2` cells. -/
def tile_row (NB k : Nat) : Nat := k / (NB + 2)

/-- The column of cell `k` in a tile whose rows have `NB + 2` cells. -/
def tile_col (NB k : Nat) : Nat := k % (NB + 2)

/-- Cell `k` is an interior cell of the `(NB+2) x (MB+2)` tile. -/
def interior_cell (NB MB k : Nat) : Prop :=
  1 ≤ tile_row NB k ∧ tile_row NB k ≤ MB ∧ 1 ≤ tile_col NB k ∧ tile_col NB k ≤ NB

/-- Cell `k` is a cell of the ghost ring of the tile other than its four
corners. -/
def ghost_cell (NB MB k : Nat) : Prop :=
  ((tile_row NB k = 0 ∨ tile_row NB k = MB + 1) ∧ 1 ≤ tile_col NB k ∧ tile_col NB k ≤ NB) ∨
  ((tile_col NB k = 0 ∨ tile_col NB k = NB + 1) ∧ 1 ≤ tile_row NB k ∧ tile_row NB k ≤ MB)

/-- The indices of `old_matrix` a halo round can assign: the `NB` cells from
`RECV_NORTH`, the `NB` cells from `RECV_SOUTH`, and the two cells of each row
the loop after `MPI_Waitall` assigns. -/
def halo_written (NB MB : Nat) : List Nat :=
  (List.range NB).map (fun t => RECV_NORTH NB + t)
    ++ (List.range NB).map (fun t => RECV_SOUTH NB MB + t)
    ++ (List.range MB).flatMap fun i => [(i + 1) * (NB + 2), (i + 1) * (NB + 2) + NB + 1]

/-- The indices of `old_matrix` a halo round can read for its sends: the `NB`
cells from `SEND_NORTH`, the `NB` cells from `SEND_SOUTH`, and the two cells
of each row the packing loop copies. -/
def halo_read (NB MB : Nat) : List Nat :=
  (List.range NB).map (fun t => SEND_NORTH NB + t)
    ++ (List.range NB).map (fun t => SEND_SOUTH NB MB + t)
    ++ (List.range MB).flatMap fun i => [(i + 1) * (NB + 2) + 1, (i + 1) * (NB + 2) + NB + 0]

/-- Cell `k` of `nm` holds a value settled before `SOR1` reaches the loop
indices `j`, `i` (the cell of row `j + 1` and column `i + 1`): a cell of the
ghost ring other than a corner, or an interior cell of an earlier row, or of
the same row at an earlier column. -/
def settled (NB MB j i k : Nat) : Prop :=
  ghost_cell NB MB k ∨
    (interior_cell NB MB k ∧
      (tile_row NB k < j + 1 ∨ (tile_row NB k = j + 1 ∧ tile_col NB k < i + 1)))

/-! ## parallelHeatEq.c: arrays with values in a range -/

/-- The array `x` has `n` cells and each of its values lies in `[lo, hi]`. -/
def Heat.within (n : Nat) (lo hi : TYPE) (x : List TYPE) : Prop :=
  x.length = n ∧ ∀ v ∈ x, lo ≤ v ∧ v ≤ hi

/-! ## Theorems -/

theorem take_token_no_space (s : List Char) :
    ∀ c ∈ (take_token s).1, isspace c = false := by
  induction s with
  | nil => simp [take_token]
  | cons a s ih =>
    unfold take_token
    by_cases ha : isspace a = true
    · simp [ha]
    · simp only [ha, Bool.false_eq_true, if_false]
      intro c hc
      rcases List.mem_cons.mp hc with rfl | hc
      · simpa using ha
      · exact ih c hc

theorem scan_loop_ne_one (instance_name : List Char)
    (hname : ∃ c ∈ instance_name, isspace c = true) (fuel : Nat) (stream : List Char) :
    scan_loop instance_name fuel stream ≠ some 1 := by
  induction fuel generalizing stream with
  | zero => simp [scan_loop]
  | succ fuel ih =>
    unfold scan_loop
    cases hf : fscanf_s stream with
    | none => simp
    | some tr =>
      obtain ⟨instance_read, rest⟩ := tr
      simp only []
      split_ifs with h1 h2
      · simp
      · exfalso
        obtain ⟨c, hc, hsp⟩ := hname
        unfold fscanf_s at hf
        split at hf
        · cases hf
        · injection hf with hf
          have htok : instance_read = (take_token (skip_ws stream)).1 := by
            rw [hf]
          have := take_token_no_space (skip_ws stream) c (by rw [← htok, h2]; exact hc)
          rw [hsp] at this
          cases this
      · exact ih rest

/-- C1 (evaluation of the code): after `write_terminated_instances_file` has
appended "Node 1" (or "Node 2") to an absent file,
`was_instance_already_terminated` still returns 0 for that name, because `%s`
reads the record back as the two tokens "Node" and "1"; so rank 0 running the
termination block twice at iteration `MAX_ITER / 3` issues two requests for
"Node 1". Whatever the file holds, the function never returns 1 for either
name. -/
theorem node_termination_repeated :
    was_instance_already_terminated "Node 1".toList
        (write_terminated_instances_file true "Node 1".toList none) = some 0 ∧
    was_instance_already_terminated "Node 2".toList
        (write_terminated_instances_file true "Node 2".toList none) = some 0 ∧
    ((terminate_block 0 22 (some "i-0abc".toList) ⟨none, []⟩).bind
        (terminate_block 0 22 (some "i-0abc".toList))).map TermState.requests
      = some ["Node 1".toList, "Node 1".toList] ∧
    (∀ file, was_instance_already_terminated "Node 1".toList file ≠ some 1) ∧
    (∀ file, was_instance_already_terminated "Node 2".toList file ≠ some 1) := by
  refine ⟨by decide, by decide, by decide, ?_, ?_⟩
  · intro file
    cases file with
    | none => simp [was_instance_already_terminated]
    | some content =>
      exact scan_loop_ne_one _ ⟨' ', by decide, by decide⟩ _ _
  · intro file
    cases file with
    | none => simp [was_instance_already_terminated]
    | some content =>
      exact scan_loop_ne_one _ ⟨' ', by decide, by decide⟩ _ _

/-! ### Iteration after a repair -/

theorem foldl_min_le (xs : List Int) (x : Int) :
    xs.foldl min x ≤ x ∧ ∀ c ∈ xs, xs.foldl min x ≤ c := by
  induction xs generalizing x with
  | nil => simp
  | cons y ys ih =>
    obtain ⟨h1, h2⟩ := ih (min x y)
    refine ⟨le_trans h1 (min_le_left _ _), ?_⟩
    intro c hc
    rcases List.mem_cons.mp hc with rfl | hc
    · exact le_trans h1 (min_le_right _ _)
    · exact h2 c hc

theorem foldl_min_mem (xs : List Int) (x : Int) :
    xs.foldl min x = x ∨ xs.foldl min x ∈ xs := by
  induction xs generalizing x with
  | nil => simp
  | cons y ys ih =>
    rcases ih (min x y) with h | h
    · rcases min_choice x y with hm | hm
      · left
        show ys.foldl min (min x y) = x
        rw [h, hm]
      · right
        show ys.foldl min (min x y) ∈ y :: ys
        rw [h, hm]
        exact List.mem_cons_self _ _
    · right; exact List.mem_cons_of_mem _ h

theorem allreduce_min_mem (l : List Int) (h : l ≠ []) : allreduce_min l ∈ l := by
  cases l with
  | nil => exact absurd rfl h
  | cons x xs =>
    rcases foldl_min_mem xs x with h1 | h1
    · simp [allreduce_min, h1]
    · exact List.mem_cons_of_mem _ h1

theorem allreduce_min_le (l : List Int) : ∀ c ∈ l, allreduce_min l ≤ c := by
  cases l with
  | nil => simp
  | cons x xs =>
    intro c hc
    rcases List.mem_cons.mp hc with rfl | hc
    · exact (foldl_min_le xs c).1
    · exact (foldl_min_le xs x).2 c hc

/-- The checkpoint block is entered only below `MAX_ITER`, so no process ever
holds a `ckpt_iteration` above `MAX_ITER`. -/
theorem run_inv (p : Proc) (es : List Event)
    (h : p.ckpt_iteration ≤ MAX_ITER ∧ (p.loc = .top → p.iteration < MAX_ITER)) :
    (p.run es).ckpt_iteration ≤ MAX_ITER ∧
      ((p.run es).loc = .top → (p.run es).iteration < MAX_ITER) := by
  induction es generalizing p with
  | nil => exact h
  | cons e es ih =>
    have hs : (p.step e).ckpt_iteration ≤ MAX_ITER ∧
        ((p.step e).loc = .top → (p.step e).iteration < MAX_ITER) := by
      obtain ⟨h1, h2⟩ := h
      cases e with
      | ckpt_block =>
        simp only [Proc.step]
        split_ifs with a b
        · exact ⟨le_of_lt (h2 a), by simp⟩
        · exact ⟨h1, by simp⟩
        · exact ⟨h1, h2⟩
      | advance =>
        simp only [Proc.step]
        split_ifs with a
        · exact ⟨h1, by simp⟩
        · exact ⟨h1, h2⟩
      | loop_test above =>
        simp only [Proc.step]
        split_ifs with a b
        · exact ⟨h1, fun _ => b.1⟩
        · exact ⟨h1, by simp⟩
        · exact ⟨h1, h2⟩
      | recover m =>
        simp only [Proc.step]
        exact ⟨h1, by simp⟩
    exact ih (p.step e) hs

theorem survivor_ckpt_le (spawned : Bool) (es : List Event) :
    ((if spawned then Proc.spawnee else Proc.fresh).run es).ckpt_iteration ≤ MAX_ITER := by
  apply (run_inv _ es _).1
  cases spawned <;> simp [Proc.spawnee, Proc.fresh, MAX_ITER]

theorem mem_world_ckpts (N : Nat) (dead spawned : Nat → Bool) (hist : Nat → List Event)
    (c : Int) :
    c ∈ (restored_world N dead spawned hist).map Proc.ckpt_iteration ↔
      ∃ r, r < N ∧ c = (if dead r then Proc.spawnee
        else (if spawned r then Proc.spawnee else Proc.fresh).run (hist r)).ckpt_iteration := by
  simp only [restored_world, List.map_map, List.mem_map, List.mem_range, Function.comp]
  constructor
  · rintro ⟨r, hr, rfl⟩; exact ⟨r, hr, rfl⟩
  · rintro ⟨r, hr, rfl⟩; exact ⟨r, hr, rfl⟩

theorem mem_survivor_ckpts (N : Nat) (dead spawned : Nat → Bool) (hist : Nat → List Event)
    (c : Int) :
    c ∈ survivor_ckpts N dead spawned hist ↔
      ∃ r, r < N ∧ dead r = false ∧
        c = ((if spawned r then Proc.spawnee else Proc.fresh).run (hist r)).ckpt_iteration := by
  simp only [survivor_ckpts, List.mem_map, List.mem_filter, List.mem_range,
    Bool.not_eq_true']
  constructor
  · rintro ⟨r, ⟨hr, hd⟩, rfl⟩; exact ⟨r, hr, hd, rfl⟩
  · rintro ⟨r, hr, hd, rfl⟩; exact ⟨r, ⟨hr, hd⟩, rfl⟩

/-- C2: in a restored world of `N` ranks, where rank `r` is a new spawnee
(contributing `ckpt_iteration = MAX_ITER`) when `dead r` and otherwise a
survivor with an arbitrary history, `app_reload_ckpt` sets `iteration` on
every rank to `m + 1` with `m` the minimum of `ckpt_iteration` over all ranks;
so all ranks hold the same value, and when a survivor exists `m` is also the
minimum over the survivors alone. -/
theorem app_reload_ckpt_iteration (N : Nat) (hN : 0 < N) (dead spawned : Nat → Bool)
    (hist : Nat → List Event) :
    (allreduce_min ((restored_world N dead spawned hist).map Proc.ckpt_iteration)
        ∈ (restored_world N dead spawned hist).map Proc.ckpt_iteration ∧
      ∀ c ∈ (restored_world N dead spawned hist).map Proc.ckpt_iteration,
        allreduce_min ((restored_world N dead spawned hist).map Proc.ckpt_iteration) ≤ c) ∧
    (∀ r, r < N → dead r = true →
      ((restored_world N dead spawned hist).map Proc.ckpt_iteration)[r]? = some MAX_ITER) ∧
    (app_reload_ckpt (restored_world N dead spawned hist)).length = N ∧
    (∀ p ∈ app_reload_ckpt (restored_world N dead spawned hist),
      p.iteration =
        allreduce_min ((restored_world N dead spawned hist).map Proc.ckpt_iteration) + 1) ∧
    (∀ p ∈ app_reload_ckpt (restored_world N dead spawned hist),
      ∀ q ∈ app_reload_ckpt (restored_world N dead spawned hist),
        p.iteration = q.iteration) ∧
    ((∃ r, r < N ∧ dead r = false) →
      allreduce_min (survivor_ckpts N dead spawned hist)
          ∈ survivor_ckpts N dead spawned hist ∧
        (∀ c ∈ survivor_ckpts N dead spawned hist,
          allreduce_min (survivor_ckpts N dead spawned hist) ≤ c) ∧
        ∀ p ∈ app_reload_ckpt (restored_world N dead spawned hist),
          p.iteration = allreduce_min (survivor_ckpts N dead spawned hist) + 1) := by
  have hne : (restored_world N dead spawned hist).map Proc.ckpt_iteration ≠ [] := by
    intro h
    have hl := congrArg List.length h
    simp [restored_world] at hl
    omega
  have hall : ∀ p ∈ app_reload_ckpt (restored_world N dead spawned hist),
      p.iteration =
        allreduce_min ((restored_world N dead spawned hist).map Proc.ckpt_iteration) + 1 := by
    intro p hp
    simp only [app_reload_ckpt, List.mem_map] at hp
    obtain ⟨q, _, rfl⟩ := hp
    rfl
  refine ⟨⟨allreduce_min_mem _ hne, allreduce_min_le _⟩, ?_, ?_, hall, ?_, ?_⟩
  · intro r hr hd
    simp [restored_world, hr, hd, Proc.spawnee]
  · simp [app_reload_ckpt, restored_world]
  · intro p hp q hq
    rw [hall p hp, hall q hq]
  · rintro ⟨s, hs, hds⟩
    have hsne : survivor_ckpts N dead spawned hist ≠ [] := by
      intro h
      have : ((if spawned s then Proc.spawnee else Proc.fresh).run (hist s)).ckpt_iteration
          ∈ survivor_ckpts N dead spawned hist :=
        (mem_survivor_ckpts N dead spawned hist _).2 ⟨s, hs, hds, rfl⟩
      rw [h] at this
      exact absurd this (List.not_mem_nil _)
    have hms_mem := allreduce_min_mem _ hsne
    have hms_le := allreduce_min_le (survivor_ckpts N dead spawned hist)
    refine ⟨hms_mem, hms_le, ?_⟩
    intro p hp
    rw [hall p hp]
    congr 1
    apply le_antisymm
    · apply allreduce_min_le
      obtain ⟨r, hr, hd, hc⟩ := (mem_survivor_ckpts N dead spawned hist _).1 hms_mem
      exact (mem_world_ckpts N dead spawned hist _).2 ⟨r, hr, by simp [hd, hc]⟩
    · obtain ⟨r, hr, hc⟩ := (mem_world_ckpts N dead spawned hist _).1 (allreduce_min_mem _ hne)
      cases hd : dead r with
      | true =>
        rw [hd] at hc
        have h1 : allreduce_min (survivor_ckpts N dead spawned hist) ≤ MAX_ITER := by
          obtain ⟨r2, _, _, hc2⟩ := (mem_survivor_ckpts N dead spawned hist _).1 hms_mem
          rw [hc2]
          exact survivor_ckpt_le _ _
        rw [hc]
        simpa [Proc.spawnee] using h1
      | false =>
        rw [hd] at hc
        apply hms_le
        exact (mem_survivor_ckpts N dead spawned hist _).2 ⟨r, hr, hd, by simpa using hc⟩

/-- C2 at a world of two ranks in which rank 1 was replaced and rank 0 took
its last buddy checkpoint at iteration 10. -/
theorem app_reload_ckpt_iteration_witness :
    (0 : Nat) < 2 ∧
    ∀ p ∈ app_reload_ckpt (restored_world 2 (fun r => r == 1) (fun _ => false)
        (fun _ => [.ckpt_block, .advance, .loop_test true, .recover 8, .advance,
          .loop_test true, .ckpt_block])),
      p.iteration = allreduce_min ((restored_world 2 (fun r => r == 1) (fun _ => false)
        (fun _ => [.ckpt_block, .advance, .loop_test true, .recover 8, .advance,
          .loop_test true, .ckpt_block])).map Proc.ckpt_iteration) + 1 :=
  ⟨by decide, (app_reload_ckpt_iteration 2 (by decide) (fun r => r == 1) (fun _ => false)
    (fun _ => [.ckpt_block, .advance, .loop_test true, .recover 8, .advance,
      .loop_test true, .ckpt_block])).2.2.2.1⟩

/-! ### World repair -/

theorem dgrp_eq_filter (N : Nat) (dead : Nat → Bool) :
    dgrp N dead = (List.range N).filter dead := by
  unfold dgrp MPI_Group_difference cgrp sgrp
  apply List.filter_congr
  intro r hr
  cases hd : dead r <;> simp [hd, List.mem_range.mp hr]

theorem dgrp_length (N : Nat) (dead : Nat → Bool) :
    (dgrp N dead).length = N - (sgrp N dead).length := by
  have h := (List.filter_append_perm dead (List.range N)).length_eq
  rw [List.length_append, List.length_range] at h
  have h2 : (List.filter (fun x => !dead x) (List.range N)) = sgrp N dead := rfl
  rw [h2] at h
  rw [dgrp_eq_filter]
  omega

theorem map_getD_range (l : List Nat) :
    (List.range l.length).map (fun i => l.getD i 0) = l := by
  apply List.ext_getElem
  · simp
  · intro n h1 h2
    simp [List.getD, List.getElem?_eq_getElem h2]

theorem merged_cranks_perm (N : Nat) (dead : Nat → Bool) :
    ((merged N dead).map (crank N dead)).Perm (List.range N) := by
  have h1 : (merged N dead).map (crank N dead) = sgrp N dead ++ dgrp N dead := by
    unfold merged
    rw [List.map_append, List.map_map, List.map_map, ← dgrp_length]
    have ha : (crank N dead ∘ Member.survivor) = id := by
      funext r; rfl
    have hb : (crank N dead ∘ Member.spawnee) = fun i => (dgrp N dead).getD i 0 := by
      funext i; rfl
    rw [ha, hb, List.map_id, map_getD_range]
  rw [h1, dgrp_eq_filter]
  exact List.perm_append_comm.trans (List.filter_append_perm dead (List.range N))

theorem split_cranks (N : Nat) (dead : Nat → Bool) (mcomm : List Member)
    (hm : mcomm.Perm (merged N dead)) :
    (MPI_Comm_split (crank N dead) mcomm).map (crank N dead) = List.range N := by
  apply List.eq_of_perm_of_sorted (r := (· ≤ ·))
  · exact ((List.perm_insertionSort _ mcomm).map _).trans
      ((hm.map _).trans (merged_cranks_perm N dead))
  · have hs := List.sorted_insertionSort (fun a b => crank N dead a ≤ crank N dead b) mcomm
    exact List.pairwise_map.mpr hs
  · exact List.sorted_le_range N

/-- C3: a world of size `N` in which the ranks `D = {r | dead r}` failed,
`0 < |D| < N`, repaired by `MPIX_Comm_replace` with the merged communicator in
any order (nothing is asked of the number of survivors): the i-th spawned
process is assigned the i-th smallest rank of `D`,
a survivor keeps its former rank as key, the process at rank `k` of the
restored world is the one whose key is `k`, hence every survivor is at its
original rank and the ranks in `D` are held by the spawned processes. -/
theorem comm_replace_restores_ranks (N : Nat) (dead : Nat → Bool) (mcomm : List Member)
    (h0 : 0 < (dgrp N dead).length) (hm : mcomm.Perm (merged N dead)) :
    dgrp N dead = (List.range N).filter dead ∧
    (∀ i, i < (dgrp N dead).length →
      ((List.range N).filter dead)[i]? = some (crank N dead (.spawnee i))) ∧
    (∀ r, crank N dead (.survivor r) = r) ∧
    (MPIX_Comm_replace N dead mcomm).map (crank N dead) = List.range N ∧
    ∀ k, k < N →
      (dead k = false → (MPIX_Comm_replace N dead mcomm)[k]? = some (.survivor k)) ∧
      (dead k = true → ∃ i, (MPIX_Comm_replace N dead mcomm)[k]? = some (.spawnee i) ∧
        (dgrp N dead)[i]? = some k) := by
  have hnd : ¬ (N - (sgrp N dead).length = 0) := by
    rw [← dgrp_length]; omega
  have hsplit : MPIX_Comm_replace N dead mcomm = MPI_Comm_split (crank N dead) mcomm := by
    simp [MPIX_Comm_replace, hnd]
  have hkeys := split_cranks N dead mcomm hm
  rw [← hsplit] at hkeys
  refine ⟨dgrp_eq_filter N dead, ?_, fun _ => rfl, hkeys, ?_⟩
  · intro i hi
    rw [← dgrp_eq_filter]
    simp [crank, List.getD, List.getElem?_eq_getElem hi]
  · intro k hk
    have hlen : (MPIX_Comm_replace N dead mcomm).length = N := by
      have := congrArg List.length hkeys
      simpa using this
    have hk2 : k < (MPIX_Comm_replace N dead mcomm).length := by omega
    have hget : (MPIX_Comm_replace N dead mcomm)[k]? =
        some ((MPIX_Comm_replace N dead mcomm)[k]) := List.getElem?_eq_getElem hk2
    have hkey : crank N dead ((MPIX_Comm_replace N dead mcomm)[k]) = k := by
      have h3 : ((MPIX_Comm_replace N dead mcomm).map (crank N dead))[k]? = some k := by
        rw [hkeys]; simp [hk]
      rw [List.getElem?_map, hget] at h3
      simpa using h3
    have hmem : (MPIX_Comm_replace N dead mcomm)[k] ∈ merged N dead := by
      have h4 : (MPIX_Comm_replace N dead mcomm)[k] ∈ MPIX_Comm_replace N dead mcomm :=
        List.getElem_mem hk2
      have h6 : ∀ q, q ∈ MPIX_Comm_replace N dead mcomm → q ∈ merged N dead := by
        intro q hq
        rw [hsplit] at hq
        exact hm.subset ((List.perm_insertionSort _ mcomm).subset hq)
      exact h6 _ h4
    generalize (MPIX_Comm_replace N dead mcomm)[k] = p at hget hkey hmem
    unfold merged at hmem
    rcases List.mem_append.mp hmem with hs | hs
    · obtain ⟨r, hr, rfl⟩ := List.mem_map.mp hs
      have hrk : r = k := hkey
      subst hrk
      have hdr : dead r = false := by
        have := (List.mem_filter.mp hr).2
        simpa using this
      exact ⟨fun _ => hget, fun hd => by rw [hdr] at hd; exact absurd hd (by decide)⟩
    · obtain ⟨i, hi, rfl⟩ := List.mem_map.mp hs
      rw [List.mem_range, ← dgrp_length] at hi
      have hgi : (dgrp N dead)[i]? = some k := by
        have : (dgrp N dead).getD i 0 = k := hkey
        rw [List.getElem?_eq_getElem hi]
        simpa [List.getD, List.getElem?_eq_getElem hi] using this
      have hdk : dead k = true := by
        have h5 : k ∈ dgrp N dead := List.mem_iff_getElem?.mpr ⟨i, hgi⟩
        rw [dgrp_eq_filter] at h5
        exact (List.mem_filter.mp h5).2
      exact ⟨fun hd => by rw [hdk] at hd; exact absurd hd (by decide), fun _ => ⟨i, hget, hgi⟩⟩

/-- C3 at a world of five ranks that lost ranks 1 and 3, merged in a scrambled
order. -/
theorem comm_replace_restores_ranks_witness :
    0 < (dgrp 5 (fun r => r == 1 || r == 3)).length ∧
    [Member.spawnee 1, .survivor 4, .survivor 0, .spawnee 0, .survivor 2].Perm
      (merged 5 (fun r => r == 1 || r == 3)) ∧
    (MPIX_Comm_replace 5 (fun r => r == 1 || r == 3)
      [.spawnee 1, .survivor 4, .survivor 0, .spawnee 0, .survivor 2]).map
        (crank 5 (fun r => r == 1 || r == 3)) = List.range 5 :=
  ⟨by decide, by decide,
    (comm_replace_restores_ranks 5 (fun r => r == 1 || r == 3)
      [.spawnee 1, .survivor 4, .survivor 0, .spawnee 0, .survivor 2]
      (by decide) (by decide)).2.2.2.1⟩

/-! ### The error handler -/

theorem app_needs_repair_calls (newcomm : MPI_Comm) (m : Int) (comm : MPI_Comm)
    (g : Globals) (c : Call) (hc : c ∈ (app_needs_repair newcomm m comm g).2.1) :
    c = Call.MPI_Comm_free ({ g with worldi := (g.worldi + 1) % 2 } : Globals).world ∨
      c = Call.MPIX_Comm_replace comm ∨ c = Call.app_reload_ckpt newcomm ∨
      c = Call.longjmp := by
  unfold app_needs_repair at hc
  split_ifs at hc <;> simp at hc <;> tauto

/-- C4: `errhandler_respawn` revokes the current world and calls
`app_needs_repair` exactly when the error class is `MPIX_ERR_PROC_FAILED` or
`MPIX_ERR_REVOKED` (the revoke first, the repair right after it); for every
other class its only call is `MPI_Abort` with the error code, nothing is
revoked or repaired, and the statics are untouched. -/
theorem errhandler_respawn_classes (PROC_FAILED REVOKED : Int) (newcomm : MPI_Comm)
    (m : Int) (pcomm : MPI_Comm) (eclass errcode : Int) (g : Globals) :
    ((eclass = PROC_FAILED ∨ eclass = REVOKED) ↔
      (errhandler_respawn PROC_FAILED REVOKED newcomm m pcomm eclass errcode g).2.1.take 2
        = [Call.MPIX_Comm_revoke g.world, Call.app_needs_repair g.world]) ∧
    ((eclass = PROC_FAILED ∨ eclass = REVOKED) ↔
      ∀ e, Call.MPI_Abort e ∉
        (errhandler_respawn PROC_FAILED REVOKED newcomm m pcomm eclass errcode g).2.1) ∧
    (¬ (eclass = PROC_FAILED ∨ eclass = REVOKED) ↔
      errhandler_respawn PROC_FAILED REVOKED newcomm m pcomm eclass errcode g
        = (g, [Call.MPI_Abort errcode], Outcome.aborted)) ∧
    (¬ (eclass = PROC_FAILED ∨ eclass = REVOKED) ↔
      ∀ c, Call.MPIX_Comm_revoke c ∉
          (errhandler_respawn PROC_FAILED REVOKED newcomm m pcomm eclass errcode g).2.1 ∧
        Call.app_needs_repair c ∉
          (errhandler_respawn PROC_FAILED REVOKED newcomm m pcomm eclass errcode g).2.1 ∧
        Call.MPIX_Comm_replace c ∉
          (errhandler_respawn PROC_FAILED REVOKED newcomm m pcomm eclass errcode g).2.1) := by
  by_cases h : eclass = PROC_FAILED ∨ eclass = REVOKED
  · have hc : ¬ (PROC_FAILED ≠ eclass ∧ REVOKED ≠ eclass) := by
      rintro ⟨h1, h2⟩
      rcases h with h | h
      · exact h1 h.symm
      · exact h2 h.symm
    have hno : ∀ e, Call.MPI_Abort e ∉ (app_needs_repair newcomm m g.world g).2.1 := by
      intro e he
      rcases app_needs_repair_calls _ _ _ _ _ he with h1 | h1 | h1 | h1 <;> cases h1
    simp only [errhandler_respawn, if_neg hc, h, true_iff, not_true_eq_false, false_iff]
    refine ⟨by simp, ?_, by simp, ?_⟩
    · intro e he
      simp at he
      exact hno e he
    · intro hall
      exact (hall g.world).1 (by simp)
  · have hc : PROC_FAILED ≠ eclass ∧ REVOKED ≠ eclass := by
      constructor
      · intro h1; exact h (Or.inl h1.symm)
      · intro h1; exact h (Or.inr h1.symm)
    simp only [errhandler_respawn, if_pos hc, h, false_iff, not_false_eq_true, true_iff]
    refine ⟨by simp, ?_, trivial, by simp⟩
    intro hall
    exact hall errcode (by simp)

/-! ### A second entry into the repair path -/

/-- C7 (failing input): a process whose world 1 failed at iteration 15 with
its last checkpoint at 10 repairs it (first line: the state after that repair,
world 2 in slot 1, `iteration = 11`). Two passes later the handler is entered
again for an error raised on the old world 1: it revokes the current world 2,
swaps the slots back, frees world 1, replaces world 2 by world 3, resets
`iteration` from 13 to 11 and leaves by `_longjmp`. -/
theorem second_repair_not_noop :
    errhandler_respawn 75 77 (some 2) 10 (some 1) 75 75
        { worldc0 := some 1, worldc1 := none, worldi := 0, iteration := 15,
          ckpt_iteration := 10 }
      = ({ worldc0 := some 1, worldc1 := some 2, worldi := 1, iteration := 11,
           ckpt_iteration := 10 },
         [Call.MPIX_Comm_revoke (some 1), Call.app_needs_repair (some 1),
          Call.MPIX_Comm_replace (some 1), Call.app_reload_ckpt (some 2), Call.longjmp],
         Outcome.jumped) ∧
    errhandler_respawn 75 77 (some 3) 10 (some 1) 77 77
        { worldc0 := some 1, worldc1 := some 2, worldi := 1, iteration := 13,
          ckpt_iteration := 10 }
      = ({ worldc0 := some 3, worldc1 := some 2, worldi := 0, iteration := 11,
           ckpt_iteration := 10 },
         [Call.MPIX_Comm_revoke (some 2), Call.app_needs_repair (some 2),
          Call.MPI_Comm_free (some 1), Call.MPIX_Comm_replace (some 2),
          Call.app_reload_ckpt (some 3), Call.longjmp],
         Outcome.jumped) := by
  decide

/-! ### Checkpoint output of the external-store driver -/

/-- C8: at `iteration == MAX_ITER - 1` the function `write_checkpoint` makes no
call of `SCR_Start_output`, `write_ch` or `SCR_Complete_output`, for every
interval `step` (zero included, where the modulo rule traps before any call),
every answer of `SCR_Need_checkpoint` and either way of deciding; its only
possible call is `SCR_Need_checkpoint`. -/
theorem write_checkpoint_last_iteration (verbose use_scr_need_checkpoint step : Int)
    (env : OutputEnv) (length : Int) :
    (write_checkpoint verbose use_scr_need_checkpoint step (MAX_ITER - 1) env length).1
      = (if use_scr_need_checkpoint ≠ 0 then [ScrCall.SCR_Need_checkpoint] else []) ∧
    (write_checkpoint verbose use_scr_need_checkpoint step (MAX_ITER - 1) env length).1.filter
      is_output_call = [] ∧
    started_outputs
      (write_checkpoint verbose use_scr_need_checkpoint step (MAX_ITER - 1) env length).1 = [] := by
  have h : (write_checkpoint verbose use_scr_need_checkpoint step (MAX_ITER - 1) env length).1
      = (if use_scr_need_checkpoint ≠ 0 then [ScrCall.SCR_Need_checkpoint] else []) := by
    unfold write_checkpoint
    by_cases hu : use_scr_need_checkpoint = 0
    · subst hu
      cases modulo_rule (MAX_ITER - 1) step with
      | none => simp
      | some need0 => by_cases hn : need0 = 0 <;> simp [hn]
    · by_cases hn : env.need_checkpoint = 0 <;> simp [hu, hn]
  rw [h]
  by_cases hu : use_scr_need_checkpoint ≠ 0 <;> simp [hu, is_output_call, started_outputs]

theorem write_checkpoint_skips (verbose step iteration : Int) (env : OutputEnv)
    (length : Int) (h1 : 0 < iteration) (h2 : iteration < step) :
    write_checkpoint verbose 0 step iteration env length = ([], Ended.returned ()) := by
  have hm : modulo_rule iteration step = some 0 := by
    unfold modulo_rule
    have ht : Int.tmod iteration step = iteration :=
      Int.tmod_eq_of_lt (le_of_lt h1) h2
    have hs : ¬ (step = 0 ∨ (iteration = -2147483648 ∧ step = -1)) := by omega
    rw [if_neg hs, ht]
    have : ¬ iteration = 0 := by omega
    simp [this]
  unfold write_checkpoint
  simp [hm]

theorem wrap32_small (i : Int) (h1 : 0 ≤ i) (h2 : i < 67) : wrap32 (i + 1) = i + 1 := by
  unfold wrap32
  omega

theorem loop_no_output (verbose rank : Int) (env : Int → PassEnv) (length : Int)
    (fuel : Nat) (iteration : Int) (st : TermState) (h1 : 0 < iteration)
    (h2 : iteration < MAX_ITER) :
    started_outputs (Scr.loop verbose 0 MAX_ITER rank env length fuel iteration st).1 = [] := by
  induction fuel generalizing iteration st with
  | zero => rfl
  | succ fuel ih =>
    have h2b : iteration < 67 := h2
    have hw : wrap32 (iteration + 1) = iteration + 1 :=
      wrap32_small iteration (le_of_lt h1) h2b
    unfold Scr.loop
    rw [write_checkpoint_skips verbose MAX_ITER iteration _ length h1 h2, hw]
    simp only []
    cases terminate_block rank (iteration + 1) (env iteration).id_file st with
    | none => rfl
    | some st1 =>
      simp only []
      split_ifs with hc
      · rw [List.nil_append]
        exact ih (iteration + 1) st1 (by omega) hc.1
      · rfl

theorem write_checkpoint_not_pending (verbose use_scr_need_checkpoint step iteration : Int)
    (env : OutputEnv) (length : Int) :
    (write_checkpoint verbose use_scr_need_checkpoint step iteration env length).2
      ≠ Ended.pending := by
  unfold write_checkpoint
  simp only []
  generalize (if use_scr_need_checkpoint ≠ 0 then some env.need_checkpoint
    else modulo_rule iteration step) = decided
  cases decided with
  | none => simp
  | some need0 =>
    cases write_ch verbose env.fopen_ok env.return_value env.fclose_rc length <;>
      (simp only []; split_ifs <;> simp)

theorem loop_not_pending (verbose use_scr_need_checkpoint step rank : Int)
    (env : Int → PassEnv) (length : Int) (fuel : Nat) (iteration : Int) (st : TermState)
    (h1 : 0 ≤ iteration) (h2 : iteration < MAX_ITER) (h3 : MAX_ITER ≤ iteration + fuel) :
    (Scr.loop verbose use_scr_need_checkpoint step rank env length fuel iteration st).2
      ≠ Ended.pending := by
  induction fuel generalizing iteration st with
  | zero =>
    have h2b : iteration < 67 := h2
    have h3b : (67 : Int) ≤ iteration + (0 : Nat) := h3
    omega
  | succ fuel ih =>
    have h2b : iteration < 67 := h2
    have h3b : (67 : Int) ≤ iteration + ((fuel + 1 : Nat) : Int) := h3
    have hw : wrap32 (iteration + 1) = iteration + 1 := wrap32_small iteration h1 h2b
    unfold Scr.loop
    rw [hw]
    have hp := write_checkpoint_not_pending verbose use_scr_need_checkpoint step iteration
      (env iteration).output length
    split
    · split
      · simp
      · split_ifs with hc
        · have hc1 : iteration + 1 < 67 := hc.1
          apply ih (iteration + 1) _ (by omega) hc.1
          show (67 : Int) ≤ iteration + 1 + (fuel : Int)
          push_cast at h3b
          omega
        · simp
    · simp
    · rename_i heq
      rw [heq] at hp
      exact absurd rfl hp

/-- C9 (what the code does): with the modulo rule and the interval equal to
`MAX_ITER`, a fresh run (no restart, `iteration` 0 at the first pass) starts
exactly one checkpoint output, the dataset `timestep.0` of its first pass, and
none in a later pass, whatever the surroundings answer; and `MAX_ITER` passes
are enough for the loop to end. -/
theorem fresh_run_interval_max_iter (verbose rank : Int) (env : Int → PassEnv)
    (length : Int) (fuel : Nat) (st : TermState) :
    started_outputs (Scr.loop verbose 0 MAX_ITER rank env length (fuel + 1) 0 st).1
      = [timestep_name 0] ∧
    (Scr.loop verbose 0 MAX_ITER rank env length 67 0 st).2 ≠ Ended.pending := by
  refine ⟨?_, loop_not_pending verbose 0 MAX_ITER rank env length 67 0 st (le_refl _)
    (by decide) (by decide)⟩
  have hw1 : wrap32 ((0 : Int) + 1) = 1 := by decide
  unfold Scr.loop
  have hm : modulo_rule 0 MAX_ITER = some 1 := by decide
  have hw : write_checkpoint verbose 0 MAX_ITER 0 (env 0).output length
      = (match write_ch verbose (env 0).output.fopen_ok (env 0).output.return_value
            (env 0).output.fclose_rc length with
          | none => ([ScrCall.SCR_Start_output (timestep_name 0),
              ScrCall.SCR_Route_file (timestep_name 0), ScrCall.write_ch], Ended.trapped)
          | some valid => ([ScrCall.SCR_Start_output (timestep_name 0),
              ScrCall.SCR_Route_file (timestep_name 0), ScrCall.write_ch,
              ScrCall.SCR_Complete_output valid], Ended.returned ())) := by
    unfold write_checkpoint
    simp only [hm]
    have h66 : ¬ ((0 : Int) = MAX_ITER - 1) := by decide
    simp [h66]
  rw [hw, hw1]
  cases write_ch verbose (env 0).output.fopen_ok (env 0).output.return_value
      (env 0).output.fclose_rc length with
  | none => rfl
  | some valid =>
    simp only []
    cases terminate_block rank 1 (env 0).id_file st with
    | none => rfl
    | some st1 =>
      simp only []
      split_ifs with hc
      · have h1 := loop_no_output verbose rank env length fuel 1 st1
          (by decide) (by decide)
        simp [started_outputs, h1]
      · rfl

/-- C9 (counterexample): rank 0 of a fresh run with the modulo rule, interval
`MAX_ITER` and tiles of 9 values, every write succeeding and the norm never
below `epsilon`: the loop runs until `iteration` is `MAX_ITER` and the run has
written one checkpoint, `timestep.0`, not zero. -/
theorem fresh_run_writes_timestep_0 :
    (Scr.loop 0 0 MAX_ITER 0 (fun _ => ⟨⟨0, true, 9, 0⟩, true, none⟩) 9 67 0 ⟨none, []⟩).2
      = Ended.returned (MAX_ITER, ⟨none, []⟩) ∧
    (Scr.loop 0 0 MAX_ITER 0 (fun _ => ⟨⟨0, true, 9, 0⟩, true, none⟩) 9 67 0 ⟨none, []⟩).1
      = [ScrCall.SCR_Start_output "timestep.0".toList,
         ScrCall.SCR_Route_file "timestep.0".toList, ScrCall.write_ch,
         ScrCall.SCR_Complete_output 1] ∧
    (started_outputs
      (Scr.loop 0 0 MAX_ITER 0 (fun _ => ⟨⟨0, true, 9, 0⟩, true, none⟩) 9 67 0
        ⟨none, []⟩).1).length ≠ 0 := by
  decide

/-! ### Restart of the external-store driver -/

theorem read_ch_quiet (malloc_ok : Bool) (pFile : Option (List TYPE)) (rc : Int)
    (buf : List TYPE) (length : Nat) (valid : Int) (buf1 : List TYPE)
    (h : read_ch 0 malloc_ok pFile rc buf length = some (valid, buf1)) : valid = 1 := by
  unfold read_ch at h
  cases pFile with
  | none => simp at h
  | some content =>
    simp at h
    exact h.1.symm

/-- C10 (evaluation of the code, `verbose` being 0 as in the source).
In general: whatever the store and the file system answer, `try_restart` asks
`SCR_Have_restart` once, and its calls are that query alone, or the query,
`SCR_Start_restart`, `SCR_Route_file` and a `read_ch` that traps, or these
followed by `SCR_Complete_restart(1)`; it never calls
`SCR_Complete_restart(0)`.
At the sample input, the store reporting the dataset `timestep.10`:
(1) The routed file cannot be opened: `read_ch` hands the null stream to
`fread`; no `SCR_Complete_restart` follows and the store is not asked again.
(2) The file holds one value instead of three, `read_buf` could not be
allocated and `fclose` fails: `read_ch` still returns 1, so
`SCR_Complete_restart(1)` is called, the store is asked once, and
`try_restart` returns 1 with `iteration = 11`, even though the store reports
the failure of `SCR_Complete_restart`.
(3) Only with `verbose` set does the failed `fclose` give
`SCR_Complete_restart(0)` and a second `SCR_Have_restart`. -/
theorem try_restart_read_failure :
    (∀ (env : RestartEnv) (fuel : Nat) (iteration : Int) (buf : List TYPE) (length : Nat),
      (try_restart 0 env (fuel + 1) iteration buf length).1 = [ScrCall.SCR_Have_restart] ∨
      (try_restart 0 env (fuel + 1) iteration buf length).1
        = [ScrCall.SCR_Have_restart, ScrCall.SCR_Start_restart (env.dset 0),
            ScrCall.SCR_Route_file (env.dset 0), ScrCall.read_ch] ∨
      (try_restart 0 env (fuel + 1) iteration buf length).1
        = [ScrCall.SCR_Have_restart, ScrCall.SCR_Start_restart (env.dset 0),
            ScrCall.SCR_Route_file (env.dset 0), ScrCall.read_ch,
            ScrCall.SCR_Complete_restart 1]) ∧
    try_restart 0
        { have_restart := fun _ => 1, dset := fun _ => "timestep.10".toList,
          route_ok := fun _ => true, complete_ok := fun _ v => v != 0,
          malloc_ok := fun _ => true, pFile := fun _ => none, fclose_rc := fun _ => 0 }
        5 0 [] 0
      = ([ScrCall.SCR_Have_restart, ScrCall.SCR_Start_restart "timestep.10".toList,
          ScrCall.SCR_Route_file "timestep.10".toList, ScrCall.read_ch], Ended.trapped) ∧
    (try_restart 0
        { have_restart := fun _ => 1, dset := fun _ => "timestep.10".toList,
          route_ok := fun _ => true, complete_ok := fun _ _ => false,
          malloc_ok := fun _ => false, pFile := fun _ => some [1],
          fclose_rc := fun _ => -1 }
        5 0 [0, 0, 0] 3).1
      = [ScrCall.SCR_Have_restart, ScrCall.SCR_Start_restart "timestep.10".toList,
          ScrCall.SCR_Route_file "timestep.10".toList, ScrCall.read_ch,
          ScrCall.SCR_Complete_restart 1] ∧
    ((try_restart 0
        { have_restart := fun _ => 1, dset := fun _ => "timestep.10".toList,
          route_ok := fun _ => true, complete_ok := fun _ _ => false,
          malloc_ok := fun _ => false, pFile := fun _ => some [1],
          fclose_rc := fun _ => -1 }
        5 0 [0, 0, 0] 3).2
      = Ended.returned { restarted := 1, iteration := 11, buf := [1, 0, 0] }) ∧
    (try_restart 1
        { have_restart := fun k => if k = 0 then 1 else 0,
          dset := fun _ => "timestep.10".toList,
          route_ok := fun _ => true, complete_ok := fun _ v => v != 0,
          malloc_ok := fun _ => true, pFile := fun _ => some [1, 2, 3],
          fclose_rc := fun _ => -1 }
        5 0 [0, 0, 0] 3).1
      = [ScrCall.SCR_Have_restart, ScrCall.SCR_Start_restart "timestep.10".toList,
          ScrCall.SCR_Route_file "timestep.10".toList, ScrCall.read_ch,
          ScrCall.SCR_Complete_restart 0, ScrCall.SCR_Have_restart] := by
  refine ⟨?_, by decide, by decide, by decide, by decide⟩
  intro env fuel iteration buf length
  unfold try_restart try_restart_loop
  by_cases hh : env.have_restart 0 ≠ 0
  · rw [if_pos hh]
    simp only [ne_eq, not_true_eq_false, false_and, if_false]
    cases hr : read_ch 0 (env.malloc_ok 0) (env.pFile 0) (env.fclose_rc 0) buf length with
    | none => right; left; rfl
    | some vb =>
      obtain ⟨valid, buf1⟩ := vb
      have hv := read_ch_quiet _ _ _ _ _ _ _ hr
      subst hv
      right; right
      simp
  · rw [if_neg hh]
    left; rfl

/-! ### The buddy ring -/

theorem at_rank_map_range (n r : Nat) (f : Nat → RankState) (hr : r < n) :
    at_rank ((List.range n).map f) r = f r := by
  simp [at_rank, List.getD, List.getElem?_map, List.getElem?_range hr]

theorem at_rank_map (w : List RankState) (f : RankState → RankState) (r : Nat)
    (hr : r < w.length) : at_rank (w.map f) r = f (at_rank w r) := by
  simp [at_rank, List.getD, List.getElem?_map, List.getElem?_eq_getElem hr]

theorem deliver_full (buf msg : List TYPE) (h : buf.length ≤ msg.length) :
    deliver buf 0 msg = msg := by
  simp [deliver, List.drop_eq_nil_of_le h]

theorem payload_full (buf : List TYPE) (count : Nat) (h : buf.length = count) :
    payload buf 0 count = buf := by
  simp [payload, ← h]

theorem ring_succ_pred (N r : Nat) (hN : 2 ≤ N) (hr : r < N) :
    ((r + 1) % N + N - 1) % N = r := by
  by_cases h : r + 1 < N
  · rw [Nat.mod_eq_of_lt h]
    have : r + 1 + N - 1 = r + N := by omega
    rw [this, Nat.add_mod_right, Nat.mod_eq_of_lt hr]
  · have h1 : r + 1 = N := by omega
    rw [h1, Nat.mod_self]
    have : 0 + N - 1 = r := by omega
    rw [this, Nat.mod_eq_of_lt hr]

theorem ring_succ_lt (N r : Nat) (hN : 2 ≤ N) : (r + 1) % N < N :=
  Nat.mod_lt _ (by omega)

theorem ring_succ_ne (N r d : Nat) (hN : 2 ≤ N) (hr : r < N)
    (hrd : r ≠ (d + N - 1) % N) : (r + 1) % N ≠ d := by
  intro h
  apply hrd
  rw [← h]
  exact (ring_succ_pred N r hN hr).symm

theorem buddy_checkpoint_length (NB MB : Nat) (w : List RankState) :
    (buddy_checkpoint NB MB w).length = w.length := by
  simp [buddy_checkpoint]

theorem respawn_length (NB MB d leader : Nat) (junk : RankState) (w : List RankState) :
    (respawn NB MB d leader junk w).length = w.length := by
  simp [respawn]

theorem buddy_restore_length (NB MB : Nat) (w : List RankState) :
    (buddy_restore NB MB w).length = w.length := by
  simp [buddy_restore]

/-- After the checkpoint round, `bckpt` of rank `s` is the tile of its ring
predecessor. -/
theorem buddy_checkpoint_bckpt (NB MB : Nat) (w : List RankState) (s : Nat)
    (hs : s < w.length)
    (hit : 0 ≠ (at_rank w s).iteration ∧ 0 = Int.tmod (at_rank w s).iteration CKPT_STEP)
    (hb : (at_rank w s).bckpt.length = (NB + 2) * (MB + 2))
    (ho : (at_rank w ((s + w.length - 1) % w.length)).old_matrix.length
      = (NB + 2) * (MB + 2)) :
    (at_rank (buddy_checkpoint NB MB w) s).bckpt
      = (at_rank w ((s + w.length - 1) % w.length)).old_matrix := by
  unfold buddy_checkpoint
  rw [at_rank_map_range _ _ _ hs]
  simp only []
  rw [if_pos hit]
  simp only []
  rw [payload_full _ _ ho, deliver_full _ _ (by rw [hb, ho])]

/-- What a survivor or the spawned process looks like after `respawn`, apart
from `iteration`. -/
theorem respawn_at (NB MB d leader : Nat) (junk : RankState) (w : List RankState)
    (q : Nat) (hq : q < w.length) :
    (at_rank (respawn NB MB d leader junk w) q).old_matrix
        = (if q = d then junk.old_matrix else (at_rank w q).old_matrix) ∧
    (at_rank (respawn NB MB d leader junk w) q).bckpt
        = (if q = d then junk.bckpt else (at_rank w q).bckpt) ∧
    (at_rank (respawn NB MB d leader junk w) q).last_dead
        = (if q = d then none else if q = leader then some d else (at_rank w q).last_dead) := by
  unfold respawn
  simp only []
  rw [at_rank_map _ _ _ (by simpa using hq), at_rank_map_range _ _ _ hq]
  by_cases h1 : q = d
  · simp [h1]
  · by_cases h2 : q = leader
    · subst h2
      simp [h1]
    · simp [h1, h2]

/-- The restore round hands rank `r` the `bckpt` of its ring successor, when
that successor is not the spawned process. -/
theorem restore_core (NB MB : Nat) (w2 : List RankState) (d leader r : Nat)
    (junk : RankState) (tile : List TYPE) (hN : 2 ≤ w2.length) (hr : r < w2.length)
    (hrd : r ≠ (d + w2.length - 1) % w2.length)
    (hb : (at_rank w2 ((r + 1) % w2.length)).bckpt = tile)
    (htile : tile.length = (NB + 2) * (MB + 2))
    (hld : (at_rank w2 ((r + 1) % w2.length)).last_dead = none)
    (hrecv : (if r = d then junk.old_matrix else (at_rank w2 r).old_matrix).length
      ≤ (NB + 2) * (MB + 2)) :
    (at_rank (buddy_restore NB MB (respawn NB MB d leader junk w2)) r).old_matrix = tile := by
  have hs := ring_succ_lt w2.length r hN
  have hsd := ring_succ_ne w2.length r d hN hr hrd
  have hl := respawn_length NB MB d leader junk w2
  unfold buddy_restore
  rw [at_rank_map_range _ _ _ (by rw [hl]; exact hr)]
  simp only [hl]
  obtain ⟨_, hsb, hsl⟩ := respawn_at NB MB d leader junk w2 _ hs
  obtain ⟨hro, _, _⟩ := respawn_at NB MB d leader junk w2 r hr
  rw [if_neg hsd] at hsb hsl
  have hcount : ¬ ((at_rank (respawn NB MB d leader junk w2) ((r + 1) % w2.length)).last_dead
      = some ((r + 1) % w2.length)) := by
    rw [hsl]
    split_ifs
    · intro h
      exact hsd (Option.some.inj h).symm
    · rw [hld]; simp
  rw [if_neg hcount, hsb, hb, payload_full _ _ htile, hro]
  exact deliver_full _ _ (by rw [htile]; exact hrecv)

/-- C5 (what the code does): in a world of `N >= 2` ranks that runs the buddy
checkpoint round at iteration `c`, then loses rank `d` at any later state `w2`
that still holds the buddy copies of that round, respawns it and runs the
restore round, every rank `r` other than the ring predecessor of `d` holds in
`old_matrix` exactly the tile it sent in the checkpoint round. -/
theorem buddy_restore_returns_checkpoint (NB MB : Nat) (w w2 : List RankState)
    (d leader r : Nat) (junk : RankState)
    (hN : 2 ≤ w.length) (hr : r < w.length)
    (hrd : r ≠ (d + w.length - 1) % w.length)
    (hit : ∀ q, q < w.length →
      0 ≠ (at_rank w q).iteration ∧ 0 = Int.tmod (at_rank w q).iteration CKPT_STEP)
    (hsz : ∀ q, q < w.length → sized NB MB (at_rank w q))
    (h2len : w2.length = w.length)
    (h2b : ∀ q, q < w.length →
      (at_rank w2 q).bckpt = (at_rank (buddy_checkpoint NB MB w) q).bckpt)
    (h2ld : ∀ q, q < w.length → (at_rank w2 q).last_dead = none)
    (h2sz : ∀ q, q < w.length → sized NB MB (at_rank w2 q))
    (hjunk : sized NB MB junk) :
    (at_rank (buddy_restore NB MB (respawn NB MB d leader junk w2)) r).old_matrix
      = (at_rank w r).old_matrix := by
  have hs := ring_succ_lt w.length r hN
  have hp := ring_succ_pred w.length r hN hr
  apply restore_core NB MB w2 d leader r junk _ (by rw [h2len]; exact hN)
    (by rw [h2len]; exact hr) (by rw [h2len]; exact hrd)
  · rw [h2len, h2b _ hs,
      buddy_checkpoint_bckpt NB MB w _ hs (hit _ hs) (hsz _ hs).2.2
        (by rw [hp]; exact (hsz r hr).1), hp]
  · exact (hsz r hr).1
  · rw [h2len]; exact h2ld _ hs
  · split_ifs
    · exact le_of_eq hjunk.1
    · exact le_of_eq (h2sz r hr).1

/-- C5 for the sample world: the checkpoint round of pass 10, rank 1 lost
right after it and respawned; the respawned rank 1 gets back the tile it
sent. -/
theorem buddy_restore_returns_checkpoint_witness :
    2 ≤ (halo_round 1 1 2 (passes 1 1 2 10 sample_world)).length ∧
    1 < (halo_round 1 1 2 (passes 1 1 2 10 sample_world)).length ∧
    1 ≠ (1 + (halo_round 1 1 2 (passes 1 1 2 10 sample_world)).length - 1)
      % (halo_round 1 1 2 (passes 1 1 2 10 sample_world)).length ∧
    (∀ q, q < (halo_round 1 1 2 (passes 1 1 2 10 sample_world)).length →
      0 ≠ (at_rank (halo_round 1 1 2 (passes 1 1 2 10 sample_world)) q).iteration ∧
      0 = Int.tmod (at_rank (halo_round 1 1 2 (passes 1 1 2 10 sample_world)) q).iteration
        CKPT_STEP) ∧
    (at_rank (buddy_restore 1 1 (respawn 1 1 1 0 sample_junk
        (buddy_checkpoint 1 1 (halo_round 1 1 2 (passes 1 1 2 10 sample_world))))) 1).old_matrix
      = (at_rank (halo_round 1 1 2 (passes 1 1 2 10 sample_world)) 1).old_matrix :=
  ⟨by decide, by decide, by decide, by decide,
    buddy_restore_returns_checkpoint 1 1 (halo_round 1 1 2 (passes 1 1 2 10 sample_world))
      (buddy_checkpoint 1 1 (halo_round 1 1 2 (passes 1 1 2 10 sample_world))) 1 0 1
      sample_junk
      (by decide) (by decide) (by decide) (by decide) (by decide) (by decide)
      (fun _ _ => rfl) (by decide) (by decide) (by decide)⟩

/-- C5 (counterexample): the sample world of two ranks takes the buddy
checkpoint of iteration 10, loses rank 1 during pass 11 and repairs. After the
restore round rank 0, the ring predecessor of rank 1, holds the uninitialised
`bckpt` of the spawned process (all 7) and not the tile it sent in the
checkpoint round. -/
theorem buddy_restore_loses_predecessor :
    (at_rank (passes 1 1 2 11 sample_world) 0).ckpt_iteration = 10 ∧
    (at_rank (buddy_checkpoint 1 1 (halo_round 1 1 2 (passes 1 1 2 10 sample_world))) 1).bckpt
      = (at_rank (halo_round 1 1 2 (passes 1 1 2 10 sample_world)) 0).old_matrix ∧
    (at_rank (buddy_restore 1 1 (respawn 1 1 1 0 sample_junk
        (passes 1 1 2 11 sample_world))) 0).old_matrix = List.replicate 9 7 ∧
    (at_rank (buddy_restore 1 1 (respawn 1 1 1 0 sample_junk
        (passes 1 1 2 11 sample_world))) 0).old_matrix
      ≠ (at_rank (halo_round 1 1 2 (passes 1 1 2 10 sample_world)) 0).old_matrix := by
  decide!

/-! ### Sizes and counters along fault-free passes -/

theorem foldl_keeps_length {β : Type} (g : List TYPE → β → List TYPE)
    (hg : ∀ m i, (g m i).length = m.length) (l : List β) (m : List TYPE) :
    (l.foldl g m).length = m.length := by
  induction l generalizing m with
  | nil => rfl
  | cons i l ih => rw [List.foldl_cons, ih, hg]

theorem unpack_length (NB MB : Nat) (m rw re : List TYPE) :
    (unpack NB MB m rw re).length = m.length := by
  unfold unpack
  apply foldl_keeps_length
  intro m i
  simp

theorem replicate_ghosts_length (NB MB : Nat) (nm om : List TYPE) :
    (replicate_ghosts NB MB nm om).length = nm.length := by
  unfold replicate_ghosts
  rw [foldl_keeps_length _ (by intro m i; simp), foldl_keeps_length _ (by intro m i; simp)]

theorem foldl_keeps_fst_length {β : Type} (g : List TYPE × TYPE → β → List TYPE × TYPE)
    (hg : ∀ a i, (g a i).1.length = a.1.length) (l : List β) (a : List TYPE × TYPE) :
    (l.foldl g a).1.length = a.1.length := by
  induction l generalizing a with
  | nil => rfl
  | cons i l ih => rw [List.foldl_cons, ih, hg]

theorem SOR1_length (nm om : List TYPE) (nb mb : Nat) :
    (SOR1 nm om nb mb).1.length = nm.length := by
  unfold SOR1
  rw [foldl_keeps_fst_length]
  intro a j
  rw [foldl_keeps_fst_length]
  intro a i
  simp [SOR1_cell]

theorem deliver_length (buf msg : List TYPE) (off : Nat)
    (h : off + msg.length ≤ buf.length) : (deliver buf off msg).length = buf.length := by
  simp only [deliver, List.length_append, List.length_take, List.length_drop]
  omega

theorem payload_length_le (buf : List TYPE) (off count : Nat) :
    (payload buf off count).length ≤ count := by
  simp only [payload, List.length_take]
  omega

theorem halo_round_length (NB MB P : Nat) (w : List RankState) :
    (halo_round NB MB P w).length = w.length := by
  simp [halo_round]

theorem halo_round_at (NB MB P : Nat) (w : List RankState) (r : Nat) (hr : r < w.length) :
    (at_rank (halo_round NB MB P w) r).iteration = (at_rank w r).iteration ∧
    (at_rank (halo_round NB MB P w) r).ckpt_iteration = (at_rank w r).ckpt_iteration ∧
    (at_rank (halo_round NB MB P w) r).last_dead = (at_rank w r).last_dead ∧
    (at_rank (halo_round NB MB P w) r).bckpt = (at_rank w r).bckpt ∧
    (at_rank (halo_round NB MB P w) r).new_matrix = (at_rank w r).new_matrix := by
  unfold halo_round
  rw [at_rank_map_range _ _ _ hr]
  exact ⟨rfl, rfl, rfl, rfl, rfl⟩

theorem halo_round_old_length (NB MB P : Nat) (w : List RankState) (r : Nat)
    (hr : r < w.length) (hs : (at_rank w r).old_matrix.length = (NB + 2) * (MB + 2)) :
    (at_rank (halo_round NB MB P w) r).old_matrix.length = (NB + 2) * (MB + 2) := by
  unfold halo_round
  rw [at_rank_map_range _ _ _ hr]
  unfold halo_rank
  simp only []
  rw [unpack_length]
  have e1 : (NB + 2) * (MB + 2) = (NB + 2) * (MB + 1) + (NB + 2) := by ring
  have e2 : (NB + 2) * (MB + 1) = (NB + 2) * MB + (NB + 2) := by ring
  have hm1 : ∀ msg : List TYPE, msg.length ≤ NB →
      (deliver (at_rank w r).old_matrix (RECV_NORTH NB) msg).length = (NB + 2) * (MB + 2) := by
    intro msg hmsg
    rw [deliver_length, hs]
    rw [hs]
    unfold RECV_NORTH
    omega
  have hm2 : ∀ (m1 msg : List TYPE), m1.length = (NB + 2) * (MB + 2) → msg.length ≤ NB →
      (deliver m1 (RECV_SOUTH NB MB) msg).length = (NB + 2) * (MB + 2) := by
    intro m1 msg h1 hmsg
    rw [deliver_length, h1]
    rw [h1]
    unfold RECV_SOUTH
    omega
  split_ifs
  · exact hm2 _ _ (hm1 _ (payload_length_le _ _ _)) (payload_length_le _ _ _)
  · exact hm2 _ _ hs (payload_length_le _ _ _)
  · exact hm1 _ (payload_length_le _ _ _)
  · exact hs

theorem buddy_checkpoint_at (NB MB : Nat) (h : List RankState) (r : Nat)
    (hr : r < h.length) :
    (at_rank (buddy_checkpoint NB MB h) r).iteration = (at_rank h r).iteration ∧
    (at_rank (buddy_checkpoint NB MB h) r).last_dead = (at_rank h r).last_dead ∧
    (at_rank (buddy_checkpoint NB MB h) r).old_matrix = (at_rank h r).old_matrix ∧
    (at_rank (buddy_checkpoint NB MB h) r).new_matrix = (at_rank h r).new_matrix := by
  unfold buddy_checkpoint
  rw [at_rank_map_range _ _ _ hr]
  simp only []
  split_ifs <;> exact ⟨rfl, rfl, rfl, rfl⟩

theorem buddy_checkpoint_skip (NB MB : Nat) (h : List RankState) (r : Nat)
    (hr : r < h.length)
    (hc : ¬ (0 ≠ (at_rank h r).iteration ∧ 0 = Int.tmod (at_rank h r).iteration CKPT_STEP)) :
    (at_rank (buddy_checkpoint NB MB h) r).bckpt = (at_rank h r).bckpt := by
  unfold buddy_checkpoint
  rw [at_rank_map_range _ _ _ hr]
  simp only []
  rw [if_neg hc]

theorem pass_length (NB MB P : Nat) (w : List RankState) :
    (pass NB MB P w).length = w.length := by
  simp [pass, buddy_checkpoint_length, halo_round_length]

theorem pass_at (NB MB P : Nat) (w : List RankState) (r : Nat) (hr : r < w.length) :
    at_rank (pass NB MB P w) r
      = (do_sor NB MB (at_rank (buddy_checkpoint NB MB (halo_round NB MB P w)) r)).1 := by
  unfold pass
  rw [at_rank_map _ _ _ (by rw [buddy_checkpoint_length, halo_round_length]; exact hr)]

theorem pass_lockstep (NB MB P : Nat) (k : Int) (w : List RankState)
    (h : lockstep NB MB k w) (hk0 : 0 ≤ k) (hk1 : k < 2147483647) :
    lockstep NB MB (k + 1) (pass NB MB P w) := by
  intro q hq
  rw [pass_length] at hq
  obtain ⟨hi, hl, ho, hn, hb⟩ := h q hq
  have hq2 : q < (halo_round NB MB P w).length := by rw [halo_round_length]; exact hq
  obtain ⟨ci, cl, co, cn⟩ := buddy_checkpoint_at NB MB (halo_round NB MB P w) q hq2
  obtain ⟨gi, _, gl, gb, gn⟩ := halo_round_at NB MB P w q hq
  have go := halo_round_old_length NB MB P w q hq ho
  rw [pass_at _ _ _ _ _ hq]
  refine ⟨?_, ?_, ?_, ?_, ?_⟩
  · show wrap32 ((at_rank (buddy_checkpoint NB MB (halo_round NB MB P w)) q).iteration + 1)
      = k + 1
    rw [ci, gi, hi]
    unfold wrap32
    omega
  · show (at_rank (buddy_checkpoint NB MB (halo_round NB MB P w)) q).last_dead = none
    rw [cl, gl, hl]
  · show (SOR1 (replicate_ghosts NB MB
        (at_rank (buddy_checkpoint NB MB (halo_round NB MB P w)) q).new_matrix
        (at_rank (buddy_checkpoint NB MB (halo_round NB MB P w)) q).old_matrix)
        (at_rank (buddy_checkpoint NB MB (halo_round NB MB P w)) q).old_matrix NB MB).1.length
      = (NB + 2) * (MB + 2)
    rw [SOR1_length, replicate_ghosts_length, cn, gn, hn]
  · show (at_rank (buddy_checkpoint NB MB (halo_round NB MB P w)) q).old_matrix.length
      = (NB + 2) * (MB + 2)
    rw [co, go]
  · show (at_rank (buddy_checkpoint NB MB (halo_round NB MB P w)) q).bckpt.length
      = (NB + 2) * (MB + 2)
    by_cases hc : 0 ≠ (at_rank (halo_round NB MB P w) q).iteration ∧
        0 = Int.tmod (at_rank (halo_round NB MB P w) q).iteration CKPT_STEP
    · have hp : (q + (halo_round NB MB P w).length - 1) % (halo_round NB MB P w).length
          < w.length := by
        rw [halo_round_length]
        exact Nat.mod_lt _ (by omega)
      rw [buddy_checkpoint_bckpt NB MB _ q hq2 hc (by rw [gb, hb])
        (by
          rw [halo_round_length] at hp ⊢
          exact halo_round_old_length NB MB P w _ hp (h _ hp).2.2.1)]
      rw [halo_round_length] at hp ⊢
      exact halo_round_old_length NB MB P w _ hp (h _ hp).2.2.1
    · rw [buddy_checkpoint_skip NB MB _ q hq2 hc, gb, hb]

theorem passes_length (NB MB P n : Nat) (w : List RankState) :
    (passes NB MB P n w).length = w.length := by
  induction n generalizing w with
  | zero => rfl
  | succ n ih => rw [passes, ih, pass_length]

theorem passes_lockstep (NB MB P n : Nat) (k : Int) (w : List RankState)
    (h : lockstep NB MB k w) (hk0 : 0 ≤ k) (hk1 : k + n < 2147483648) :
    lockstep NB MB (k + n) (passes NB MB P n w) := by
  induction n generalizing w k with
  | zero => simpa [passes] using h
  | succ n ih =>
    rw [passes]
    have h1 := pass_lockstep NB MB P k w h hk0 (by push_cast at hk1; omega)
    have h2 := ih (k + 1) (pass NB MB P w) h1 (by omega) (by push_cast at hk1 ⊢; omega)
    have e : k + ((n + 1 : Nat) : Int) = k + 1 + (n : Int) := by push_cast; ring
    rw [e]
    exact h2

theorem passes_add (NB MB P a b : Nat) (w : List RankState) :
    passes NB MB P (a + b) w = passes NB MB P b (passes NB MB P a w) := by
  induction a generalizing w with
  | zero => simp [passes]
  | succ a ih =>
    have e : a + 1 + b = (a + b) + 1 := by omega
    rw [e, passes, ih, passes]

theorem pass_bckpt_taken (NB MB P : Nat) (k : Int) (w : List RankState)
    (h : lockstep NB MB k w) (hc : 0 ≠ k ∧ 0 = Int.tmod k CKPT_STEP) (r : Nat)
    (hr : r < w.length) :
    (at_rank (pass NB MB P w) r).bckpt
      = (at_rank (halo_round NB MB P w) ((r + w.length - 1) % w.length)).old_matrix := by
  have hr2 : r < (halo_round NB MB P w).length := by rw [halo_round_length]; exact hr
  have hp : (r + w.length - 1) % w.length < w.length := Nat.mod_lt _ (by omega)
  obtain ⟨gi, _, _, gb, _⟩ := halo_round_at NB MB P w r hr
  rw [pass_at _ _ _ _ _ hr]
  show (at_rank (buddy_checkpoint NB MB (halo_round NB MB P w)) r).bckpt = _
  rw [buddy_checkpoint_bckpt NB MB _ r hr2 (by rw [gi, (h r hr).1]; exact hc)
    (by rw [gb]; exact (h r hr).2.2.2.2)
    (by
      rw [halo_round_length]
      exact halo_round_old_length NB MB P w _ hp (h _ hp).2.2.1),
    halo_round_length]

theorem pass_bckpt_kept (NB MB P : Nat) (k : Int) (w : List RankState)
    (h : lockstep NB MB k w) (hc : ¬ (0 ≠ k ∧ 0 = Int.tmod k CKPT_STEP)) (r : Nat)
    (hr : r < w.length) :
    (at_rank (pass NB MB P w) r).bckpt = (at_rank w r).bckpt := by
  have hr2 : r < (halo_round NB MB P w).length := by rw [halo_round_length]; exact hr
  obtain ⟨gi, _, _, gb, _⟩ := halo_round_at NB MB P w r hr
  rw [pass_at _ _ _ _ _ hr]
  show (at_rank (buddy_checkpoint NB MB (halo_round NB MB P w)) r).bckpt = _
  rw [buddy_checkpoint_skip NB MB _ r hr2 (by rw [gi, (h r hr).1]; exact hc), gb]

theorem passes_bckpt_kept (NB MB P n : Nat) (k : Int) (w : List RankState)
    (h : lockstep NB MB k w) (hk0 : 0 ≤ k) (hk1 : k + n < 2147483648)
    (hc : ∀ i : Nat, i < n → ¬ (0 ≠ k + i ∧ 0 = Int.tmod (k + i) CKPT_STEP)) (r : Nat)
    (hr : r < w.length) :
    (at_rank (passes NB MB P n w) r).bckpt = (at_rank w r).bckpt := by
  induction n generalizing w k with
  | zero => rfl
  | succ n ih =>
    rw [passes]
    have h1 := pass_lockstep NB MB P k w h hk0 (by push_cast at hk1; omega)
    have hc0 := hc 0 (by omega)
    simp only [Nat.cast_zero, add_zero] at hc0
    rw [ih (k + 1) (pass NB MB P w) h1 (by omega) (by push_cast at hk1 ⊢; omega)
      (by
        intro i hi
        have := hc (i + 1) (by omega)
        have e : k + ((i + 1 : Nat) : Int) = k + 1 + (i : Int) := by push_cast; ring
        rw [e] at this
        exact this)
      (by rw [pass_length]; exact hr),
      pass_bckpt_kept NB MB P k w h hc0 r hr]

theorem no_checkpoint_between (c i : Nat) (hc : c % 10 = 0) (hi : i < 9) :
    ¬ (0 ≠ ((c : Int) + 1) + (i : Int) ∧
      0 = Int.tmod (((c : Int) + 1) + (i : Int)) CKPT_STEP) := by
  rintro ⟨_, h2⟩
  unfold CKPT_STEP at h2
  rw [Int.tmod_eq_emod (by omega) (by decide)] at h2
  omega

/-- C6 (what the code does): a fault-free run from a fresh world `w0` of
`N >= 2` ranks takes the buddy checkpoint of iteration `c` (a positive
multiple of `CKPT_STEP` below `MAX_ITER`), completes `j <= 9` further passes,
then loses rank `d` and repairs. After the restore round every rank `r` other
than the ring predecessor of `d` has in `old_matrix` exactly the tile on which
the fault-free pass of iteration `c` ran `SOR1` (the tile after the halo
round and checkpoint block of that pass), so the first pass after recovery
sweeps the tile the fault-free run swept at iteration `c`. -/
theorem recovery_resumes_checkpointed_pass (NB MB P : Nat) (w0 : List RankState)
    (c j d leader r : Nat) (junk : RankState)
    (hN : 2 ≤ w0.length) (h0 : lockstep NB MB 0 w0)
    (hc0 : 0 < c) (hc10 : c % 10 = 0) (hcmax : (c : Int) < MAX_ITER) (hj : j ≤ 9)
    (hr : r < w0.length)
    (hrd : r ≠ (d + w0.length - 1) % w0.length) (hjunk : sized NB MB junk) :
    (at_rank (buddy_restore NB MB
        (respawn NB MB d leader junk (passes NB MB P (c + 1 + j) w0))) r).old_matrix
      = (at_rank (buddy_checkpoint NB MB
          (halo_round NB MB P (passes NB MB P c w0))) r).old_matrix := by
  have hcm : (c : Int) < 67 := hcmax
  have hWc : lockstep NB MB (c : Int) (passes NB MB P c w0) := by
    have := passes_lockstep NB MB P c 0 w0 h0 (le_refl _) (by omega)
    simpa using this
  have hlc : (passes NB MB P c w0).length = w0.length := passes_length _ _ _ _ _
  have hW1 : lockstep NB MB ((c : Int) + 1) (pass NB MB P (passes NB MB P c w0)) :=
    pass_lockstep NB MB P c _ hWc (by omega) (by omega)
  have hl1 : (pass NB MB P (passes NB MB P c w0)).length = w0.length := by
    rw [pass_length, hlc]
  have hF : passes NB MB P (c + 1 + j) w0
      = passes NB MB P j (pass NB MB P (passes NB MB P c w0)) := by
    rw [passes_add, passes_add]
    rfl
  have hFl : lockstep NB MB ((c : Int) + 1 + j)
      (passes NB MB P j (pass NB MB P (passes NB MB P c w0))) :=
    passes_lockstep NB MB P j _ _ hW1 (by omega) (by omega)
  have hFlen : (passes NB MB P j (pass NB MB P (passes NB MB P c w0))).length = w0.length := by
    rw [passes_length, hl1]
  have hs := ring_succ_lt w0.length r hN
  rw [hF]
  have hr2 : r < (halo_round NB MB P (passes NB MB P c w0)).length := by
    rw [halo_round_length, hlc]; exact hr
  rw [(buddy_checkpoint_at NB MB _ r hr2).2.2.1]
  apply restore_core NB MB _ d leader r junk _ (by rw [hFlen]; exact hN)
    (by rw [hFlen]; exact hr) (by rw [hFlen]; exact hrd)
  · rw [hFlen,
      passes_bckpt_kept NB MB P j ((c : Int) + 1) _ hW1 (by omega) (by omega)
        (fun i hi => no_checkpoint_between c i hc10 (by omega)) _ (by rw [hl1]; exact hs),
      pass_bckpt_taken NB MB P c _ hWc
        ⟨by omega, by
          unfold CKPT_STEP
          rw [Int.tmod_eq_emod (by omega) (by decide)]
          omega⟩ _ (by rw [hlc]; exact hs),
      hlc, ring_succ_pred w0.length r hN hr]
  · exact halo_round_old_length NB MB P _ r (by rw [hlc]; exact hr)
      (hWc r (by rw [hlc]; exact hr)).2.2.1
  · rw [hFlen]
    exact (hFl _ (by rw [hFlen]; exact hs)).2.1
  · split_ifs
    · exact le_of_eq hjunk.1
    · exact le_of_eq (hFl r (by rw [hFlen]; exact hr)).2.2.1

/-- C6 for the sample world: checkpoint at iteration 10, rank 1 lost at the
top of pass 11 and respawned. -/
theorem recovery_resumes_checkpointed_pass_witness :
    2 ≤ sample_world.length ∧ lockstep 1 1 0 sample_world ∧ 10 % 10 = 0 ∧
    ((10 : Nat) : Int) < MAX_ITER ∧ 1 ≠ (1 + sample_world.length - 1) % sample_world.length ∧
    sized 1 1 sample_junk ∧
    (at_rank (buddy_restore 1 1
        (respawn 1 1 1 0 sample_junk (passes 1 1 2 (10 + 1 + 0) sample_world))) 1).old_matrix
      = (at_rank (buddy_checkpoint 1 1
          (halo_round 1 1 2 (passes 1 1 2 10 sample_world))) 1).old_matrix :=
  ⟨by decide, by decide, by decide, by decide, by decide, by decide,
    recovery_resumes_checkpointed_pass 1 1 2 sample_world 10 0 1 0 1 sample_junk
      (by decide) (by decide) (by decide) (by decide) (by decide) (by decide)
      (by decide) (by decide) (by decide)⟩

/-- C6 (counterexample): the sample world with `epsilon = 0`. Rank 1 is lost
at the top of pass 11, after the checkpoint of iteration 10. At the first loop
test after recovery `iteration` is 12 on both ranks, but the tile of rank 1 is
the fault-free tile of iteration 11, whose interior cell differs from that of
iteration 12, and the interior cell of rank 0 is neither. Both runs keep
looping until `iteration == MAX_ITER` (every norm is positive), and there the
interior cells of the recovered run differ from those of the fault-free run on
both ranks. -/
theorem recovered_run_differs :
    (at_rank (recovery_pass 1 1 (respawn 1 1 1 0 sample_junk
        (passes 1 1 2 11 sample_world))) 0).iteration = 12 ∧
    (at_rank (recovery_pass 1 1 (respawn 1 1 1 0 sample_junk
        (passes 1 1 2 11 sample_world))) 1).iteration = 12 ∧
    (at_rank (recovery_pass 1 1 (respawn 1 1 1 0 sample_junk
        (passes 1 1 2 11 sample_world))) 1).old_matrix
      = (at_rank (passes 1 1 2 11 sample_world) 1).old_matrix ∧
    rd (at_rank (recovery_pass 1 1 (respawn 1 1 1 0 sample_junk
        (passes 1 1 2 11 sample_world))) 1).old_matrix 4
      ≠ rd (at_rank (passes 1 1 2 12 sample_world) 1).old_matrix 4 ∧
    rd (at_rank (recovery_pass 1 1 (respawn 1 1 1 0 sample_junk
        (passes 1 1 2 11 sample_world))) 0).old_matrix 4
      ≠ rd (at_rank (passes 1 1 2 12 sample_world) 0).old_matrix 4 ∧
    rd (at_rank (recovery_pass 1 1 (respawn 1 1 1 0 sample_junk
        (passes 1 1 2 11 sample_world))) 0).old_matrix 4
      ≠ rd (at_rank (passes 1 1 2 11 sample_world) 0).old_matrix 4 ∧
    ((List.range 67).all fun k =>
        sqrt_above (allreduce_sum 1 1
          (buddy_checkpoint 1 1 (halo_round 1 1 2 (passes 1 1 2 k sample_world)))) 0) = true ∧
    sqrt_above (allreduce_sum 1 1 (buddy_restore 1 1 (respawn 1 1 1 0 sample_junk
        (passes 1 1 2 11 sample_world)))) 0 = true ∧
    ((List.range 55).all fun k =>
        sqrt_above (allreduce_sum 1 1
          (buddy_checkpoint 1 1 (halo_round 1 1 2 (passes 1 1 2 k
            (recovery_pass 1 1 (respawn 1 1 1 0 sample_junk
              (passes 1 1 2 11 sample_world))))))) 0) = true ∧
    (at_rank (passes 1 1 2 55 (recovery_pass 1 1 (respawn 1 1 1 0 sample_junk
        (passes 1 1 2 11 sample_world)))) 0).iteration = MAX_ITER ∧
    (at_rank (passes 1 1 2 67 sample_world) 0).iteration = MAX_ITER ∧
    rd (at_rank (passes 1 1 2 55 (recovery_pass 1 1 (respawn 1 1 1 0 sample_junk
        (passes 1 1 2 11 sample_world)))) 0).old_matrix 4
      ≠ rd (at_rank (passes 1 1 2 67 sample_world) 0).old_matrix 4 ∧
    rd (at_rank (passes 1 1 2 55 (recovery_pass 1 1 (respawn 1 1 1 0 sample_junk
        (passes 1 1 2 11 sample_world)))) 1).old_matrix 4
      ≠ rd (at_rank (passes 1 1 2 67 sample_world) 1).old_matrix 4 := by
  decide!

/-- C11: when the first `SCR_Have_restart` reports no dataset,
`try_restart` returns 0 with `iteration` and the buffer as they were, and the
only call it made is `SCR_Have_restart`: none of `SCR_Start_restart`,
`SCR_Route_file`, `read_ch`, `SCR_Complete_restart`. -/
theorem try_restart_no_dataset (verbose : Int) (env : RestartEnv) (fuel : Nat)
    (iteration : Int) (buf : List TYPE) (length : Nat) (h : env.have_restart 0 = 0) :
    try_restart verbose env (fuel + 1) iteration buf length
      = ([ScrCall.SCR_Have_restart],
          Ended.returned { restarted := 0, iteration := iteration, buf := buf }) := by
  simp [try_restart, try_restart_loop, h]

theorem try_restart_no_dataset_witness :
    try_restart 1 ⟨fun _ => 0, fun _ => [], fun _ => true, fun _ _ => true, fun _ => true,
        fun _ => none, fun _ => 0⟩ (0 + 1) 5 [1, 2] 2
      = ([ScrCall.SCR_Have_restart],
          Ended.returned { restarted := 0, iteration := 5, buf := [1, 2] }) :=
  try_restart_no_dataset 1 ⟨fun _ => 0, fun _ => [], fun _ => true, fun _ _ => true,
    fun _ => true, fun _ => none, fun _ => 0⟩ 0 5 [1, 2] 2 rfl

theorem wrap32_id (x : Int) (h0 : 0 ≤ x) (h1 : x ≤ 2147483647) : wrap32 x = x := by
  unfold wrap32; omega

theorem digit_char (d : Nat) (h : d < 10) :
    isdigit (Char.ofNat (48 + d)) = true ∧
      ((Char.ofNat (48 + d)).toNat : Int) - 48 = (d : Int) := by
  interval_cases d <;> decide

theorem extract_loop_digits (tail : List Char) (htail : ∀ n mu, extract_loop tail n mu = n) :
    ∀ (fuel m acc k : Nat), m < fuel → 10 ^ k ≤ 2147483647 →
      m * 10 ^ k + acc ≤ 2147483647 →
      extract_loop ((dec_digits fuel m).reverse ++ tail) (acc : Int) (wrap32 ((10 : Int) ^ k))
        = ((m * 10 ^ k + acc : Nat) : Int) := by
  intro fuel
  induction fuel with
  | zero => intro m acc k h; omega
  | succ fuel ih =>
    intro m acc k hm h10 hb
    have hw : wrap32 ((10 : Int) ^ k) = (10 : Int) ^ k :=
      wrap32_id _ (by positivity) (by exact_mod_cast h10)
    have hpos : 0 < 10 ^ k := by positivity
    by_cases h : m < 10
    · obtain ⟨hd, hv⟩ := digit_char m h
      have hdd : dec_digits (fuel + 1) m = [Char.ofNat (48 + m)] := by simp [dec_digits, h]
      have h1 : ((m : Int) * 10 ^ k) ≤ 2147483647 := by
        have : m * 10 ^ k ≤ 2147483647 := by omega
        exact_mod_cast this
      have h2 : ((acc : Int) + (m : Int) * 10 ^ k) ≤ 2147483647 := by
        have : acc + m * 10 ^ k ≤ 2147483647 := by omega
        exact_mod_cast this
      rw [hdd]
      show extract_loop (Char.ofNat (48 + m) :: tail) _ _ = _
      simp only [extract_loop, hd, if_true, hv, hw, htail]
      rw [wrap32_id _ (by positivity) h1, wrap32_id _ (by positivity) h2]
      push_cast; ring
    · have hdd : dec_digits (fuel + 1) m
          = dec_digits fuel (m / 10) ++ [Char.ofNat (48 + m % 10)] := by simp [dec_digits, h]
      obtain ⟨hd, hv⟩ := digit_char (m % 10) (Nat.mod_lt _ (by decide))
      have hm10 : m = 10 * (m / 10) + m % 10 := (Nat.div_add_mod m 10).symm
      have hq : 1 ≤ m / 10 := by omega
      have hprod : m * 10 ^ k = (m / 10) * 10 ^ (k + 1) + (m % 10) * 10 ^ k := by
        rw [pow_succ]; nth_rewrite 1 [hm10]; ring
      have hk1 : 10 ^ (k + 1) ≤ 2147483647 := by
        have : 1 * 10 ^ (k + 1) ≤ (m / 10) * 10 ^ (k + 1) := Nat.mul_le_mul_right _ hq
        omega
      have h1 : (((m % 10 : Nat) : Int) * 10 ^ k) ≤ 2147483647 := by
        have : (m % 10) * 10 ^ k ≤ 2147483647 := by omega
        exact_mod_cast this
      have h2 : ((acc : Int) + ((m % 10 : Nat) : Int) * 10 ^ k) ≤ 2147483647 := by
        have : acc + (m % 10) * 10 ^ k ≤ 2147483647 := by omega
        exact_mod_cast this
      rw [hdd]
      show extract_loop ((dec_digits fuel (m / 10) ++ [Char.ofNat (48 + m % 10)]).reverse ++ tail)
        _ _ = _
      rw [List.reverse_append]
      show extract_loop (Char.ofNat (48 + m % 10) :: ((dec_digits fuel (m / 10)).reverse ++ tail))
        _ _ = _
      simp only [extract_loop, hd, if_true, hv, hw]
      rw [wrap32_id _ (by positivity) h1, wrap32_id _ (by positivity) h2]
      have hmul : (10 : Int) ^ k * 10 = 10 ^ (k + 1) := by ring
      rw [hmul]
      have := ih (m / 10) (acc + (m % 10) * 10 ^ k) (k + 1) (by omega) hk1 (by omega)
      push_cast at this ⊢
      rw [this]
      have := congrArg (fun x : Nat => (x : Int)) hprod
      push_cast at this
      omega
theorem extract_timestep_name (i : Int) (h0 : 0 ≤ i) (h1 : i ≤ 2147483647) :
    extract_final_number (timestep_name i) = i := by
  obtain ⟨n, rfl⟩ := Int.eq_ofNat_of_zero_le h0
  have hn : n ≤ 2147483647 := by exact_mod_cast h1
  have htail : ∀ n mu : Int, extract_loop "timestep.".toList.reverse n mu = n := by
    intro n mu; rfl
  have hw : (1 : Int) = wrap32 ((10 : Int) ^ 0) := by decide
  have hp : print_d (n : Int) = dec_digits (n + 1) n := by
    simp [print_d]
  unfold extract_final_number timestep_name
  rw [hp, List.reverse_append, hw]
  have := extract_loop_digits _ htail (n + 1) n 0 0 (by omega) (by norm_num) (by omega)
  simpa using this

/-- C12 (what the code does): for every `i` with `0 <= i <= INT_MAX`,
`extract_final_number` applied to the name `write_checkpoint` produces for `i`
returns `i`; a restart from that dataset sets `iteration` to the `int` value
of `i + 1`, which is `i + 1` for every `i < INT_MAX`; and for a dataset
written under the modulo rule with interval `K` this is a multiple of `K`
plus one. -/
theorem dataset_name_round_trip (i : Int) (h0 : 0 ≤ i) (h1 : i ≤ 2147483647) :
    extract_final_number (timestep_name i) = i ∧
    (∀ (env : RestartEnv) (fuel : Nat) (iteration : Int) (buf content : List TYPE)
        (length : Nat),
      env.have_restart 0 ≠ 0 → env.dset 0 = timestep_name i → env.pFile 0 = some content →
      ∃ calls buf1, try_restart 0 env (fuel + 1) iteration buf length
        = (calls, Ended.returned
            { restarted := 1, iteration := wrap32 (i + 1), buf := buf1 })) ∧
    (i < 2147483647 → wrap32 (i + 1) = i + 1) ∧
    (∀ K : Int, modulo_rule i K = some 1 → ∃ q : Int, i + 1 = K * q + 1) := by
  refine ⟨extract_timestep_name i h0 h1, ?_, ?_, ?_⟩
  · intro env fuel iteration buf content length hh hd hf
    simp [try_restart, try_restart_loop, hh, hd, hf, read_ch, extract_timestep_name i h0 h1]
  · intro h; exact wrap32_id _ (by omega) (by omega)
  · intro K hK
    unfold modulo_rule at hK
    split at hK
    · exact absurd hK (by simp)
    · have hz : Int.tmod i K = 0 := by
        by_contra hne
        simp [hne] at hK
      obtain ⟨q, hq⟩ := Int.dvd_of_tmod_eq_zero hz
      exact ⟨q, by rw [hq]⟩

theorem dataset_name_round_trip_witness :
    extract_final_number (timestep_name 60) = 60 ∧
    (∀ (env : RestartEnv) (fuel : Nat) (iteration : Int) (buf content : List TYPE)
        (length : Nat),
      env.have_restart 0 ≠ 0 → env.dset 0 = timestep_name 60 → env.pFile 0 = some content →
      ∃ calls buf1, try_restart 0 env (fuel + 1) iteration buf length
        = (calls, Ended.returned
            { restarted := 1, iteration := wrap32 (60 + 1), buf := buf1 })) ∧
    ((60 : Int) < 2147483647 → wrap32 (60 + 1) = 60 + 1) ∧
    (∀ K : Int, modulo_rule 60 K = some 1 → ∃ q : Int, (60 : Int) + 1 = K * q + 1) :=
  dataset_name_round_trip 60 (by decide) (by decide)

/-- C12 (counterexample): the dataset name
for `i = INT_MAX` is read back as `INT_MAX`, and the restart leaves
`iteration = INT_MIN`, not `i + 1`. -/
theorem restart_from_int_max :
    extract_final_number (timestep_name 2147483647) = 2147483647 ∧
    (try_restart 0 ⟨fun _ => 1, fun _ => timestep_name 2147483647, fun _ => true,
        fun _ _ => true, fun _ => true, fun _ => some [7], fun _ => 0⟩ 1 0 [0] 1).2
      = Ended.returned { restarted := 1, iteration := -2147483648, buf := [7] } ∧
    (-2147483648 : Int) ≠ 2147483647 + 1 := by
  decide

/-- C13: for every buffer of length `(NB+2)*(MB+2)` and either debug
setting, a `write_ch` that stores everything leaves exactly the buffer's
doubles in the file, followed by exactly the ten timers if and only if debug
is set; `read_ch` with the same debug setting on that file returns the buffer
element for element and, in debug mode, adds the ten stored timers; and in a
file written without debug no double follows the buffer, so a debug read
finds none of the ten and adds what its local array held. -/
theorem checkpoint_file_round_trip (NB MB : Nat) (verbose debug rc : Int) (malloc_ok : Bool)
    (buf buf0 data timers stack : List TYPE)
    (hb : buf.length = (NB + 2) * (MB + 2)) (hb0 : buf0.length = (NB + 2) * (MB + 2))
    (hd : data.length = 10) (hs : stack.length = 10)
    (hv : verbose = 0 ∨ malloc_ok = true) :
    write_ch_file debug data buf ((NB + 2) * (MB + 2)) ((NB + 2) * (MB + 2)) 10
      = buf ++ (if debug ≠ 0 then data else []) ∧
    write_ch verbose true (((NB + 2) * (MB + 2) : Nat) : Int) 0 (((NB + 2) * (MB + 2) : Nat) : Int)
      = some 1 ∧
    (∃ valid, read_ch verbose malloc_ok
        (some (write_ch_file debug data buf ((NB + 2) * (MB + 2)) ((NB + 2) * (MB + 2)) 10))
        rc buf0 ((NB + 2) * (MB + 2)) = some (valid, buf)) ∧
    read_ch_timers verbose debug malloc_ok
        (some (write_ch_file debug data buf ((NB + 2) * (MB + 2)) ((NB + 2) * (MB + 2)) 10))
        timers stack ((NB + 2) * (MB + 2))
      = some (if debug ≠ 0 then List.zipWith (fun t d => t + d) timers data else timers) ∧
    (write_ch_file 0 data buf ((NB + 2) * (MB + 2)) ((NB + 2) * (MB + 2)) 10).drop
        ((NB + 2) * (MB + 2)) = [] ∧
    read_ch_timers verbose 1 malloc_ok
        (some (write_ch_file 0 data buf ((NB + 2) * (MB + 2)) ((NB + 2) * (MB + 2)) 10))
        timers stack ((NB + 2) * (MB + 2))
      = some (List.zipWith (fun t d => t + d) timers stack) := by
  have hfile : ∀ dbg : Int,
      write_ch_file dbg data buf ((NB + 2) * (MB + 2)) ((NB + 2) * (MB + 2)) 10
        = buf ++ (if dbg ≠ 0 then data else []) := by
    intro dbg
    simp [write_ch_file, payload, ← hb, ← hd]
  have hvalid : (if verbose ≠ 0 ∧ malloc_ok = false then (0 : Int) else 1) = 1 := by
    rcases hv with h | h <;> simp [h]
  have htd : data.take 10 = data := List.take_of_length_le (by omega)
  have hts : stack.take 10 = stack := List.take_of_length_le (by omega)
  have hds : stack.drop 10 = [] := List.drop_of_length_le (by omega)
  refine ⟨hfile debug, ?_, ?_, ?_, ?_, ?_⟩
  · simp [write_ch]
  · rw [hfile]
    simp [read_ch, hvalid, ← hb, hb0]
  · rw [hfile]
    by_cases hdbg : debug = 0
    · simp [read_ch_timers, hdbg]
    · simp [read_ch_timers, hvalid, hdbg, payload, deliver, ← hb, hd, hs, htd, hts, hds]
  · rw [hfile]; simp [← hb]
  · rw [hfile]
    simp [read_ch_timers, hvalid, payload, deliver, ← hb, hs, hts]

theorem checkpoint_file_round_trip_witness :
    write_ch_file 1 [1, 2, 3, 4, 5, 6, 7, 8, 9, 10] [1, 2, 3, 4] ((0 + 2) * (0 + 2))
        ((0 + 2) * (0 + 2)) 10
      = [1, 2, 3, 4] ++ (if (1 : Int) ≠ 0 then [1, 2, 3, 4, 5, 6, 7, 8, 9, 10] else []) :=
  (checkpoint_file_round_trip 0 0 0 1 0 true [1, 2, 3, 4] [0, 0, 0, 0]
    [1, 2, 3, 4, 5, 6, 7, 8, 9, 10] [0, 0, 0, 0, 0, 0, 0, 0, 0, 0] [0, 0, 0, 0, 0, 0, 0, 0, 0, 0]
    rfl rfl rfl rfl (Or.inl rfl)).1

theorem sqrt_above_zero (d : TYPE) : sqrt_above d 0 = decide (0 < d) := by
  simp [sqrt_above]

theorem do_while_exit {W : Type} (body : W → W × TYPE) (counter : W → Int) (inv : W → Prop)
    (hinv : ∀ w, inv w → inv (body w).1)
    (hc : ∀ w, inv w → counter (body w).1 = wrap32 (counter w + 1)) :
    ∀ (k fuel : Nat) (w : W), inv w → 0 ≤ counter w → counter w + k < MAX_ITER → k < fuel →
      (∀ j, j < k → 0 < norm_of_pass body j w) →
      (counter w + k + 1 = MAX_ITER ∨ norm_of_pass body k w ≤ 0) →
      ∃ w1, do_while body counter 0 fuel w = some w1 ∧ counter w1 = counter w + k + 1 := by
  intro k
  induction k with
  | zero =>
    intro fuel w hi h0 h1 hf _ hlast
    obtain ⟨fuel, rfl⟩ : ∃ f, fuel = f + 1 := ⟨fuel - 1, by omega⟩
    have h1b : counter w < 67 := by simpa [MAX_ITER] using h1
    have hcw := hc w hi
    rw [wrap32_small _ h0 h1b] at hcw
    refine ⟨(body w).1, ?_, by simpa using hcw⟩
    have ht : loop_test (counter (body w).1) (body w).2 0 = false := by
      simp only [loop_test, sqrt_above_zero, hcw]
      rcases hlast with h | h
      · have : ¬ (counter w + 1 < MAX_ITER) := by
          have : counter w + 1 = MAX_ITER := by simpa using h
          omega
        simp [this]
      · have : ¬ (0 < (body w).2) := not_lt.mpr h
        simp [this]
    unfold do_while
    simp [ht]
  | succ k ih =>
    intro fuel w hi h0 h1 hf hpos hlast
    obtain ⟨fuel, rfl⟩ : ∃ f, fuel = f + 1 := ⟨fuel - 1, by omega⟩
    have h1b : counter w + ((k + 1 : Nat) : Int) < 67 := h1
    have hcw := hc w hi
    rw [wrap32_small _ h0 (by omega)] at hcw
    have ht : loop_test (counter (body w).1) (body w).2 0 = true := by
      have hp : 0 < (body w).2 := hpos 0 (by omega)
      have hlt : counter w + 1 < MAX_ITER := by show counter w + 1 < 67; omega
      simp [loop_test, sqrt_above_zero, hcw, hp, hlt]
    obtain ⟨w1, hw1, hcount⟩ := ih fuel (body w).1 (hinv w hi) (by omega)
      (by show counter (body w).1 + (k : Int) < 67; omega) (by omega)
      (fun j hj => hpos (j + 1) (by omega))
      (by
        rcases hlast with h | h
        · left
          have : counter w + ((k + 1 : Nat) : Int) + 1 = 67 := h
          show counter (body w).1 + (k : Int) + 1 = 67
          omega
        · right; exact h)
    refine ⟨w1, ?_, by rw [hcount, hcw]; push_cast; ring⟩
    unfold do_while
    simp [ht, hw1]
theorem write_checkpoint_returns (verbose use_scr_need_checkpoint step iteration : Int)
    (env : OutputEnv) (length : Int) (hs : use_scr_need_checkpoint ≠ 0 ∨ step ≠ 0)
    (hi : 0 ≤ iteration) (ho : env.fopen_ok = true) :
    ∃ calls, write_checkpoint verbose use_scr_need_checkpoint step iteration env length
      = (calls, Ended.returned ()) := by
  have hw : ∃ v, write_ch verbose env.fopen_ok env.return_value env.fclose_rc length = some v := by
    simp [write_ch, ho]
  obtain ⟨v, hv⟩ := hw
  have hd : ∃ need0, (if use_scr_need_checkpoint ≠ 0 then some env.need_checkpoint
      else modulo_rule iteration step) = some need0 := by
    by_cases hu : use_scr_need_checkpoint = 0
    · have hst : step ≠ 0 := by
        rcases hs with h | h
        · exact absurd hu h
        · exact h
      have hne : ¬ (step = 0 ∨ (iteration = -2147483648 ∧ step = -1)) := by
        intro h
        rcases h with h | h
        · exact hst h
        · omega
      simp [hu, modulo_rule, hne]
    · simp [hu]
  obtain ⟨need0, hn⟩ := hd
  unfold write_checkpoint
  simp only [hn, hv]
  split_ifs <;> exact ⟨_, rfl⟩

theorem terminate_block_quiet (rank iteration : Int) :
    terminate_block rank iteration none ⟨none, []⟩ = some ⟨none, []⟩ := by
  unfold terminate_block
  simp only [was_instance_already_terminated, terminate_aws_instance]
  split_ifs <;> rfl

theorem scr_loop_exit (verbose use_scr_need_checkpoint step rank : Int) (env : Int → PassEnv)
    (length : Int) (hs : use_scr_need_checkpoint ≠ 0 ∨ step ≠ 0)
    (ho : ∀ i, (env i).output.fopen_ok = true) (hid : ∀ i, (env i).id_file = none) :
    ∀ (k fuel : Nat) (iteration : Int), 0 ≤ iteration → iteration + k < MAX_ITER → k < fuel →
      (∀ j : Nat, j < k → (env (iteration + j)).above = true) →
      (iteration + k + 1 = MAX_ITER ∨ (env (iteration + k)).above = false) →
      (Scr.loop verbose use_scr_need_checkpoint step rank env length fuel iteration
          ⟨none, []⟩).2 = Ended.returned (iteration + k + 1, ⟨none, []⟩) := by
  intro k
  induction k with
  | zero =>
    intro fuel iteration h0 h1 hf _ hlast
    obtain ⟨fuel, rfl⟩ : ∃ f, fuel = f + 1 := ⟨fuel - 1, by omega⟩
    have h1b : iteration < 67 := by simpa [MAX_ITER] using h1
    obtain ⟨calls, hc⟩ := write_checkpoint_returns verbose use_scr_need_checkpoint step
      iteration (env iteration).output length hs h0 (ho iteration)
    have ht : ¬ (iteration + 1 < MAX_ITER ∧ (env iteration).above = true) := by
      rintro ⟨ha, hb⟩
      rcases hlast with h | h
      · have : iteration + 1 = MAX_ITER := by simpa using h
        omega
      · simp at h; rw [h] at hb; exact absurd hb (by decide)
    unfold Scr.loop
    rw [hc]
    simp only [hid, terminate_block_quiet, wrap32_small _ h0 h1b]
    rw [if_neg ht]
    simp
  | succ k ih =>
    intro fuel iteration h0 h1 hf hpos hlast
    obtain ⟨fuel, rfl⟩ : ∃ f, fuel = f + 1 := ⟨fuel - 1, by omega⟩
    have h1b : iteration + ((k + 1 : Nat) : Int) < 67 := h1
    obtain ⟨calls, hc⟩ := write_checkpoint_returns verbose use_scr_need_checkpoint step
      iteration (env iteration).output length hs h0 (ho iteration)
    have ht : iteration + 1 < MAX_ITER ∧ (env iteration).above = true := by
      refine ⟨by show iteration + 1 < 67; omega, ?_⟩
      have := hpos 0 (by omega)
      simpa using this
    have hrec := ih fuel (iteration + 1) (by omega)
      (by show iteration + 1 + (k : Int) < 67; omega) (by omega)
      (fun j hj => by
        have := hpos (j + 1) (by omega)
        have he : iteration + ((j + 1 : Nat) : Int) = iteration + 1 + (j : Int) := by
          push_cast; ring
        rw [he] at this; exact this)
      (by
        have he : iteration + ((k + 1 : Nat) : Int) = iteration + 1 + (k : Int) := by
          push_cast; ring
        rw [he] at hlast; exact hlast)
    unfold Scr.loop
    rw [hc]
    simp only [hid, terminate_block_quiet, wrap32_small _ h0 (by omega : iteration < 67)]
    rw [if_pos ht, hrec]
    congr 2
    push_cast; ring
theorem try_restart_no_dataset_aux (verbose : Int) (env : RestartEnv) (fuel : Nat)
    (iteration : Int) (buf : List TYPE) (length : Nat) (h : env.have_restart 0 = 0) :
    try_restart verbose env (fuel + 1) iteration buf length
      = ([ScrCall.SCR_Have_restart],
          Ended.returned { restarted := 0, iteration := iteration, buf := buf }) := by
  simp [try_restart, try_restart_loop, h]

theorem ulfm_body_counter (NB MB P rank : Nat) (v : List RankState) (h : rank < v.length) :
    (at_rank (Ulfm.body NB MB P v).1 rank).iteration
      = wrap32 ((at_rank v rank).iteration + 1) := by
  have h1 : rank < (halo_round NB MB P v).length := by rw [halo_round_length]; exact h
  show (at_rank (pass NB MB P v) rank).iteration = _
  rw [pass_at NB MB P v rank h]
  show wrap32 ((at_rank (buddy_checkpoint NB MB (halo_round NB MB P v)) rank).iteration + 1) = _
  rw [(buddy_checkpoint_at NB MB _ rank h1).1, (halo_round_at NB MB P v rank h).1]

/-- C14 (what the code does): with `epsilon = 0`, no faults and no restart dataset,
`jacobi_cpu` returns `k + 1` where pass `k` (counted from 0) is the first pass
whose all-reduced `diff_norm` is not positive, and `MAX_ITER` (`k = 66`) when
the norms of the first `MAX_ITER - 1` passes are all positive; this holds for
the three drivers (for `jacobi_scr.c`, with a checkpoint interval that is not
zero, checkpoint files that open and no instance to terminate). -/
theorem jacobi_cpu_epsilon_zero (NB MB P : Nat) (w : List RankState) (rank k : Nat)
    (hk : k < 67) :
    ((∀ j, j < k → 0 < norm_of_pass (Noft.pass NB MB P) j (0, w)) →
      (k = 66 ∨ norm_of_pass (Noft.pass NB MB P) k (0, w) ≤ 0) →
      Noft.jacobi_cpu NB MB P 0 67 w = some ((k : Int) + 1)) ∧
    (rank < w.length → (at_rank w rank).iteration = 0 →
      (∀ j, j < k → 0 < norm_of_pass (Ulfm.body NB MB P) j w) →
      (k = 66 ∨ norm_of_pass (Ulfm.body NB MB P) k w ≤ 0) →
      Ulfm.jacobi_cpu NB MB P 0 67 rank w = some ((k : Int) + 1)) ∧
    (∀ (verbose use_scr_need_checkpoint step srank : Int) (renv : RestartEnv)
        (env : Int → PassEnv) (buf : List TYPE) (length : Nat) (d : Int → TYPE),
      renv.have_restart 0 = 0 → (use_scr_need_checkpoint ≠ 0 ∨ step ≠ 0) →
      (∀ i, (env i).output.fopen_ok = true) → (∀ i, (env i).id_file = none) →
      (∀ i, (env i).above = sqrt_above (d i) 0) →
      (∀ j : Nat, j < k → 0 < d j) → (k = 66 ∨ d k ≤ 0) →
      (Scr.jacobi_cpu verbose use_scr_need_checkpoint step srank true renv env buf length 67 0
          ⟨none, []⟩).2 = Ended.returned ((k : Int) + 1, ⟨none, []⟩)) := by
  refine ⟨?_, ?_, ?_⟩
  · intro hpos hlast
    obtain ⟨w1, hw1, hc⟩ := do_while_exit (Noft.pass NB MB P) (fun s => s.1) (fun _ => True)
      (fun _ _ => trivial) (fun _ _ => rfl) k 67 (0, w) trivial (le_refl _)
      (by show (0 : Int) + (k : Int) < 67; omega) hk hpos
      (by
        rcases hlast with h | h
        · left; show (0 : Int) + (k : Int) + 1 = 67; omega
        · right; exact h)
    unfold Noft.jacobi_cpu
    rw [hw1]
    simp only [Option.map_some']
    rw [hc]
    simp
  · intro hr hit hpos hlast
    obtain ⟨w1, hw1, hc⟩ := do_while_exit (Ulfm.body NB MB P)
      (fun v => (at_rank v rank).iteration) (fun v => rank < v.length)
      (fun v hv => by show rank < (pass NB MB P v).length; rw [pass_length]; exact hv)
      (fun v hv => ulfm_body_counter NB MB P rank v hv) k 67 w hr
      (by show 0 ≤ (at_rank w rank).iteration; rw [hit])
      (by show (at_rank w rank).iteration + (k : Int) < 67; rw [hit]; omega) hk hpos
      (by
        rcases hlast with h | h
        · left; show (at_rank w rank).iteration + (k : Int) + 1 = 67; rw [hit]; omega
        · right; exact h)
    unfold Ulfm.jacobi_cpu
    rw [hw1]
    simp only [Option.map_some']
    have hc2 : (at_rank w1 rank).iteration = (at_rank w rank).iteration + (k : Int) + 1 := hc
    rw [hc2, hit]
    simp
  · intro verbose use_scr_need_checkpoint step srank renv env buf length d hr hs ho hid ha
      hpos hlast
    have hloop := scr_loop_exit verbose use_scr_need_checkpoint step srank env (length : Int)
      hs ho hid k 67 0 (le_refl _) (by show (0 : Int) + (k : Int) < 67; omega) hk
      (fun j hj => by
        rw [ha, sqrt_above_zero]
        have := hpos j hj
        simpa using this)
      (by
        rcases hlast with h | h
        · left; show (0 : Int) + (k : Int) + 1 = 67; omega
        · right
          rw [ha, sqrt_above_zero]
          have : ¬ (0 < d (0 + (k : Int))) := by simpa using h
          simpa using this)
    unfold Scr.jacobi_cpu
    rw [try_restart_no_dataset_aux verbose renv 66 0 buf length hr]
    simp only [Bool.true_eq_false, if_false]
    rw [hloop]
    simp
theorem jacobi_cpu_epsilon_zero_witness :
    Noft.jacobi_cpu 1 1 1 0 67 zero_world = some (((0 : Nat) : Int) + 1) :=
  (jacobi_cpu_epsilon_zero 1 1 1 zero_world 0 0 (by decide)).1
    (fun j hj => absurd hj (Nat.not_lt_zero j))
    (Or.inr (by
      simp [norm_of_pass, Noft.pass, zero_world, halo_round, halo_rank, split_members,
        MPI_Comm_split, at_rank, unpack, SOR1, SOR1_cell, rd, List.range_succ]))

/-- C14 (counterexample): a tile that is zero
everywhere (one rank, `NB = MB = 1`) has `diff_norm = 0` in its first pass, and
with `epsilon = 0` each of the three drivers returns 1, not `MAX_ITER`; the
two-rank sample world, whose norms stay positive, does return `MAX_ITER`. -/
theorem zero_tile_returns_one :
    Noft.jacobi_cpu 1 1 1 0 67 zero_world = some 1 ∧
    Ulfm.jacobi_cpu 1 1 1 0 67 0 zero_world = some 1 ∧
    allreduce_sum 1 1 (halo_round 1 1 1 zero_world) = 0 ∧
    (Scr.jacobi_cpu 0 0 10 0 true
        ⟨fun _ => 0, fun _ => [], fun _ => true, fun _ _ => true, fun _ => true,
          fun _ => none, fun _ => 0⟩
        (fun _ => ⟨⟨0, true, 9, 0⟩,
          sqrt_above (allreduce_sum 1 1 (halo_round 1 1 1 zero_world)) 0, none⟩)
        (List.replicate 9 0) 9 67 0 ⟨none, []⟩).2 = Ended.returned (1, ⟨none, []⟩) ∧
    (1 : Int) ≠ MAX_ITER ∧
    Ulfm.jacobi_cpu 1 1 2 0 67 0 sample_world = some MAX_ITER := by
  decide!

theorem sqrt_above_iff (diff_norm epsilon : TYPE) (h : 0 ≤ diff_norm) :
    sqrt_above diff_norm epsilon = true ↔ (epsilon : ℝ) < Real.sqrt (diff_norm : ℝ) := by
  unfold sqrt_above
  rw [decide_eq_true_iff]
  have hd : (0 : ℝ) ≤ (diff_norm : ℝ) := by exact_mod_cast h
  by_cases he : epsilon < 0
  · have he2 : (epsilon : ℝ) < 0 := by exact_mod_cast he
    constructor
    · intro _; exact lt_of_lt_of_le he2 (Real.sqrt_nonneg _)
    · intro _; exact Or.inl he
  · have he2 : (0 : ℝ) ≤ (epsilon : ℝ) := by exact_mod_cast (not_lt.mp he)
    rw [Real.lt_sqrt he2]
    constructor
    · intro h1
      rcases h1 with h1 | h1
      · exact absurd h1 he
      · have : ((epsilon * epsilon : TYPE) : ℝ) < (diff_norm : ℝ) := by exact_mod_cast h1
        rw [pow_two]; push_cast at this; exact this
    · intro h1
      right
      have : ((epsilon * epsilon : TYPE) : ℝ) < (diff_norm : ℝ) := by
        push_cast; rw [← pow_two]; exact h1
      exact_mod_cast this

/-- C15 (what the code does): after a pass with all-reduced `diff_norm` (a sum of
squares, so not negative) the loop of `jacobi_cpu` stops if and only if
`sqrt(diff_norm) <= epsilon` or `iteration >= MAX_ITER`, `iteration` being the
counter after the increment of the pass; in particular a pass whose
`sqrt(diff_norm)` equals `epsilon` exactly stops the loop. -/
theorem loop_stops_iff (iteration : Int) (diff_norm epsilon : TYPE) (h : 0 ≤ diff_norm) :
    (loop_test iteration diff_norm epsilon = false ↔
      (Real.sqrt (diff_norm : ℝ) ≤ (epsilon : ℝ) ∨ MAX_ITER ≤ iteration)) ∧
    (Real.sqrt (diff_norm : ℝ) = (epsilon : ℝ) →
      loop_test iteration diff_norm epsilon = false) := by
  have hiff : loop_test iteration diff_norm epsilon = false ↔
      (Real.sqrt (diff_norm : ℝ) ≤ (epsilon : ℝ) ∨ MAX_ITER ≤ iteration) := by
    unfold loop_test
    rw [Bool.and_eq_false_iff, decide_eq_false_iff_not, not_lt, ← Bool.not_eq_true,
      sqrt_above_iff diff_norm epsilon h, not_lt]
    exact Or.comm
  exact ⟨hiff, fun he => hiff.mpr (Or.inl (le_of_eq he))⟩

theorem loop_stops_iff_witness :
    (loop_test 5 4 2 = false ↔
      (Real.sqrt ((4 : TYPE) : ℝ) ≤ ((2 : TYPE) : ℝ) ∨ MAX_ITER ≤ 5)) ∧
    (Real.sqrt ((4 : TYPE) : ℝ) = ((2 : TYPE) : ℝ) → loop_test 5 4 2 = false) :=
  loop_stops_iff 5 4 2 (by norm_num)

/-- C15 (counterexample): after the first
pass (`iteration = 1 < MAX_ITER`) with `diff_norm = 1/4` and `epsilon = 1/2`,
`sqrt(diff_norm)` equals `epsilon`, is not below it, and the loop stops. -/
theorem loop_stops_at_equality :
    loop_test 1 (1 / 4) (1 / 2) = false ∧
    Real.sqrt (((1 / 4 : TYPE)) : ℝ) = (((1 / 2 : TYPE)) : ℝ) ∧
    ¬ (Real.sqrt (((1 / 4 : TYPE)) : ℝ) < (((1 / 2 : TYPE)) : ℝ)) ∧
    ¬ (MAX_ITER ≤ (1 : Int)) := by
  have hs : Real.sqrt (((1 / 4 : TYPE)) : ℝ) = (((1 / 2 : TYPE)) : ℝ) := by
    have h1 : (((1 / 4 : TYPE)) : ℝ) = (((1 / 2 : TYPE)) : ℝ) ^ 2 := by norm_num
    rw [h1, Real.sqrt_sq (by norm_num)]
  refine ⟨by decide!, hs, ?_, by decide⟩
  rw [hs]
  exact lt_irrefl _

/-- C16: the documentation of `jacobi_cpu` in `jacobi_scr.c` promises the
number of iterations performed, and 0 if the run restarted from a checkpoint;
the code returns the static `iteration`. After a restart from the dataset
`timestep.c` a run that makes `k + 1` passes returns `c + k + 2`, which is
neither 0 nor the number of passes of the run. -/
theorem jacobi_cpu_return_after_restart (c : Int) (k : Nat) (use_scr_need_checkpoint step
    srank : Int) (renv : RestartEnv) (env : Int → PassEnv) (buf content : List TYPE)
    (length : Nat) (h0 : 0 ≤ c) (h1 : c + 1 + k < MAX_ITER)
    (hr : renv.have_restart 0 ≠ 0) (hd : renv.dset 0 = timestep_name c)
    (hf : renv.pFile 0 = some content) (hs : use_scr_need_checkpoint ≠ 0 ∨ step ≠ 0)
    (ho : ∀ i, (env i).output.fopen_ok = true) (hid : ∀ i, (env i).id_file = none)
    (hpos : ∀ j : Nat, j < k → (env (c + 1 + j)).above = true)
    (hlast : c + 1 + k + 1 = MAX_ITER ∨ (env (c + 1 + k)).above = false) :
    (Scr.jacobi_cpu 0 use_scr_need_checkpoint step srank true renv env buf length 67 0
        ⟨none, []⟩).2 = Ended.returned (c + k + 2, ⟨none, []⟩) ∧
    c + k + 2 ≠ 0 ∧ c + k + 2 ≠ ((k + 1 : Nat) : Int) := by
  have h1b : c + 1 + (k : Int) < 67 := h1
  have hx : extract_final_number (timestep_name c) = c :=
    extract_timestep_name c h0 (by omega)
  have hw : wrap32 (c + 1) = c + 1 := wrap32_id _ (by omega) (by omega)
  have hloop := scr_loop_exit 0 use_scr_need_checkpoint step srank env (length : Int)
    hs ho hid k 67 (c + 1) (by omega) h1 (by omega) hpos hlast
  refine ⟨?_, by omega, by push_cast; omega⟩
  have htr : ∃ calls buf1, try_restart 0 renv 67 0 buf length
      = (calls, Ended.returned { restarted := 1, iteration := c + 1, buf := buf1 }) := by
    simp [try_restart, try_restart_loop, hr, hd, hf, read_ch, hx, hw]
  obtain ⟨calls, buf1, htr⟩ := htr
  unfold Scr.jacobi_cpu
  rw [htr]
  simp only [Bool.true_eq_false, if_false]
  rw [hloop]
  congr 2
  ring

theorem jacobi_cpu_return_after_restart_witness :
    (Scr.jacobi_cpu 0 0 10 1 true
        ⟨fun _ => 1, fun _ => timestep_name 10, fun _ => true, fun _ _ => true, fun _ => true,
          fun _ => some [3], fun _ => 0⟩
        (fun _ => ⟨⟨0, true, 1, 0⟩, true, none⟩) [0] 1 67 0
        ⟨none, []⟩).2 = Ended.returned ((10 : Int) + (55 : Nat) + 2, ⟨none, []⟩) ∧
    (10 : Int) + (55 : Nat) + 2 ≠ 0 ∧ (10 : Int) + (55 : Nat) + 2 ≠ ((55 + 1 : Nat) : Int) :=
  jacobi_cpu_return_after_restart 10 55 0 10 1
    ⟨fun _ => 1, fun _ => timestep_name 10, fun _ => true, fun _ _ => true, fun _ => true,
      fun _ => some [3], fun _ => 0⟩
    (fun _ => ⟨⟨0, true, 1, 0⟩, true, none⟩) [0] [3] 1 (by decide) (by decide) (by decide)
    rfl rfl (Or.inr (by decide)) (fun _ => rfl) (fun _ => rfl) (fun _ _ => rfl)
    (Or.inl (by decide))

theorem split_members_eq_filter (N : Nat) (color : Nat → Nat) (r : Nat) :
    split_members N color r = (List.range N).filter fun x => color x = color r := by
  unfold split_members MPI_Comm_split
  exact List.Sorted.insertionSort_eq ((List.sorted_le_range N).filter _)

theorem sorted_lt_ext (l1 l2 : List Nat) (s1 : l1.Sorted (· < ·)) (s2 : l2.Sorted (· < ·))
    (h : ∀ a, a ∈ l1 ↔ a ∈ l2) : l1 = l2 :=
  List.eq_of_perm_of_sorted ((List.perm_ext_iff_of_nodup s1.nodup s2.nodup).mpr h) s1 s2

theorem ns_members (P Q r : Nat) (hP : 1 ≤ P) :
    split_members (P * Q) (fun x => x % P) r = (List.range Q).map fun j => r % P + j * P := by
  rw [split_members_eq_filter]
  apply sorted_lt_ext
  · exact (List.sorted_lt_range _).filter _
  · refine List.pairwise_map.mpr ((List.pairwise_lt_range Q).imp ?_)
    intro a b hab
    have := Nat.mul_lt_mul_of_pos_right hab hP
    omega
  · intro x
    have hc : r % P < P := Nat.mod_lt _ hP
    simp only [List.mem_filter, List.mem_range, List.mem_map, decide_eq_true_eq]
    constructor
    · rintro ⟨hx, hm⟩
      refine ⟨x / P, (Nat.div_lt_iff_lt_mul hP).mpr (by rw [Nat.mul_comm]; exact hx), ?_⟩
      have := Nat.div_add_mod x P
      rw [← hm, Nat.mul_comm]
      omega
    · rintro ⟨j, hj, rfl⟩
      refine ⟨?_, ?_⟩
      · have h1 : (j + 1) * P ≤ Q * P := Nat.mul_le_mul_right P hj
        have h2 : (j + 1) * P = j * P + P := by ring
        have h3 : P * Q = Q * P := Nat.mul_comm _ _
        omega
      · rw [Nat.add_mul_mod_self_right, Nat.mod_mod]

theorem ew_members (P Q r : Nat) (hP : 1 ≤ P) (hr : r < P * Q) :
    split_members (P * Q) (fun x => x / P) r = (List.range P).map fun j => r / P * P + j := by
  rw [split_members_eq_filter]
  apply sorted_lt_ext
  · exact (List.sorted_lt_range _).filter _
  · refine List.pairwise_map.mpr ((List.pairwise_lt_range P).imp ?_)
    intro a b hab
    omega
  · intro x
    have hq : r / P < Q := (Nat.div_lt_iff_lt_mul hP).mpr (by rw [Nat.mul_comm]; exact hr)
    simp only [List.mem_filter, List.mem_range, List.mem_map, decide_eq_true_eq]
    constructor
    · rintro ⟨_, hm⟩
      refine ⟨x % P, Nat.mod_lt _ hP, ?_⟩
      have := Nat.div_add_mod x P
      rw [← hm, Nat.mul_comm]
      omega
    · rintro ⟨j, hj, rfl⟩
      refine ⟨?_, ?_⟩
      · have h1 : (r / P + 1) * P ≤ Q * P := Nat.mul_le_mul_right P hq
        have h2 : (r / P + 1) * P = r / P * P + P := by ring
        have h3 : P * Q = Q * P := Nat.mul_comm _ _
        omega
      · rw [Nat.mul_comm, Nat.mul_add_div hP, Nat.div_eq_of_lt hj, Nat.add_zero]

theorem indexOf_map_range (n : Nat) (f : Nat → Nat) (hf : ∀ a b, a < n → b < n → f a = f b → a = b)
    (j : Nat) (hj : j < n) : ((List.range n).map f).indexOf (f j) = j := by
  have hnd : ((List.range n).map f).Nodup := by
    refine (List.nodup_range n).map_on ?_
    intro a ha b hb hab
    exact hf a b (List.mem_range.mp ha) (List.mem_range.mp hb) hab
  have hlen : j < ((List.range n).map f).length := by simpa using hj
  have := List.indexOf_getElem hnd j hlen
  simpa using this

theorem getD_map_range (n : Nat) (f : Nat → Nat) (j : Nat) (hj : j < n) :
    ((List.range n).map f).getD j 0 = f j := by
  simp [List.getD, List.getElem?_map, List.getElem?_range hj]
/-- C18: in a world of exactly `P*Q` ranks, the splits by colour
`rank / P` and `rank % P` with key `rank` give rank `r` an east-west
communicator of size `P` in which its rank is `r % P` and a north-south
communicator of size `Q` in which its rank is `r / P`; the neighbour it
addresses to the north is world rank `r - P`, to the south `r + P`, to the
west `r - 1`, to the east `r + 1`; and the tests `0 != ns_rank`,
`ns_size - 1 != ns_rank`, `0 != ew_rank`, `ew_size - 1 != ew_rank` fail
exactly on the first row, the last row, the first column and the last column
of the `P x Q` grid. -/
theorem process_grid_coordinates (P Q r : Nat) (hr : r < P * Q) :
    (split_members (P * Q) (fun x => x / P) r).length = P ∧
    (split_members (P * Q) (fun x => x / P) r).indexOf r = r % P ∧
    (split_members (P * Q) (fun x => x % P) r).length = Q ∧
    (split_members (P * Q) (fun x => x % P) r).indexOf r = r / P ∧
    (0 ≠ r / P →
      (split_members (P * Q) (fun x => x % P) r).getD (r / P - 1) 0 = r - P ∧ P ≤ r) ∧
    (Q - 1 ≠ r / P →
      (split_members (P * Q) (fun x => x % P) r).getD (r / P + 1) 0 = r + P ∧
        r + P < P * Q) ∧
    (0 ≠ r % P →
      (split_members (P * Q) (fun x => x / P) r).getD (r % P - 1) 0 = r - 1 ∧ 1 ≤ r) ∧
    (P - 1 ≠ r % P →
      (split_members (P * Q) (fun x => x / P) r).getD (r % P + 1) 0 = r + 1 ∧
        r + 1 < P * Q) ∧
    (0 = r / P ↔ r < P) ∧ (Q - 1 = r / P ↔ P * (Q - 1) ≤ r) ∧
    (0 = r % P ↔ ∃ j, r = j * P) ∧ (P - 1 = r % P ↔ ∃ j, r + 1 = j * P) := by
  have hP : 1 ≤ P := by
    rcases Nat.eq_zero_or_pos P with h | h
    · subst h; simp at hr
    · exact h
  have hdm : P * (r / P) + r % P = r := Nat.div_add_mod r P
  have hc : r % P < P := Nat.mod_lt _ hP
  have hq : r / P < Q := (Nat.div_lt_iff_lt_mul hP).mpr (by rw [Nat.mul_comm]; exact hr)
  have hns := ns_members P Q r hP
  have hew := ew_members P Q r hP hr
  have e1 : 0 = r / P ↔ r < P := by
    constructor
    · intro h; exact (Nat.div_eq_zero_iff hP).mp h.symm
    · intro h; rw [Nat.div_eq_of_lt h]
  have e3 : 0 = r % P ↔ ∃ j, r = j * P := by
    constructor
    · intro h
      refine ⟨r / P, ?_⟩
      rw [← h, Nat.add_zero, Nat.mul_comm] at hdm
      exact hdm.symm
    · rintro ⟨j, hj⟩
      rw [hj, Nat.mul_mod_left]
  have h6 : (r + 1) % P = (r % P + 1) % P := by
    rw [Nat.add_mod, Nat.add_mod (r % P) 1 P, Nat.mod_mod]
  have e4a : (∃ j, r + 1 = j * P) → (r % P + 1) % P = 0 := by
    rintro ⟨j, hj⟩
    rw [← h6, hj, Nat.mul_mod_left]
  have e2a : P * (Q - 1) ≤ r → Q - 1 ≤ r / P := fun h =>
    (Nat.le_div_iff_mul_le hP).mpr (by rw [Nat.mul_comm]; exact h)
  generalize r / P = q at *
  generalize r % P = c at *
  have hPQ : P * Q = Q * P := Nat.mul_comm _ _
  have hPq : P * q = q * P := Nat.mul_comm _ _
  have hrn : r = c + q * P := by omega
  have hre : r = q * P + c := by omega
  have hq1 : (q + 1) * P = q * P + P := by ring
  have hqQ : (q + 1) * P ≤ Q * P := Nat.mul_le_mul_right P hq
  have hfn : ∀ a b, a < Q → b < Q → c + a * P = c + b * P → a = b := by
    intro a b _ _ h
    exact Nat.eq_of_mul_eq_mul_right hP (by omega)
  have hfe : ∀ a b, a < P → b < P → q * P + a = q * P + b → a = b := by
    intro a b _ _ h; omega
  refine ⟨by rw [hew]; simp, ?_, by rw [hns]; simp, ?_, ?_, ?_, ?_, ?_, e1, ?_, e3, ?_⟩
  · rw [hew]
    have := indexOf_map_range P (fun j => q * P + j) hfe c hc
    simp only [← hre] at this
    exact this
  · rw [hns]
    have := indexOf_map_range Q (fun j => c + j * P) hfn q hq
    simp only [← hrn] at this
    exact this
  · intro h0
    rw [hns, getD_map_range Q _ _ (by omega)]
    obtain ⟨q0, rfl⟩ : ∃ q0, q = q0 + 1 := ⟨q - 1, by omega⟩
    have hr2 : r = c + q0 * P + P := by rw [hrn]; ring
    simp only [Nat.add_sub_cancel]
    constructor <;> omega
  · intro h0
    have hq2 : q + 1 < Q := by omega
    rw [hns, getD_map_range Q _ _ hq2]
    have h3 : (q + 1 + 1) * P ≤ Q * P := Nat.mul_le_mul_right P hq2
    have h4 : (q + 1 + 1) * P = q * P + P + P := by ring
    constructor <;> omega
  · intro h0
    rw [hew, getD_map_range P _ _ (by omega)]
    constructor <;> omega
  · intro h0
    have hc2 : c + 1 < P := by omega
    rw [hew, getD_map_range P _ _ hc2]
    constructor <;> omega
  · constructor
    · intro h
      rw [← h] at hPq hdm
      omega
    · intro h
      have := e2a h
      omega
  · constructor
    · intro h
      exact ⟨q + 1, by omega⟩
    · intro h
      have h5 := e4a h
      rcases Nat.lt_or_ge (c + 1) P with h7 | h7
      · rw [Nat.mod_eq_of_lt h7] at h5; omega
      · omega

theorem process_grid_coordinates_witness :
    (split_members (2 * 3) (fun x => x / 2) 3).length = 2 ∧
    (split_members (2 * 3) (fun x => x / 2) 3).indexOf 3 = 3 % 2 ∧
    (split_members (2 * 3) (fun x => x % 2) 3).length = 3 ∧
    (split_members (2 * 3) (fun x => x % 2) 3).indexOf 3 = 3 / 2 :=
  ⟨(process_grid_coordinates 2 3 3 (by decide)).1,
    (process_grid_coordinates 2 3 3 (by decide)).2.1,
    (process_grid_coordinates 2 3 3 (by decide)).2.2.1,
    (process_grid_coordinates 2 3 3 (by decide)).2.2.2.1⟩

theorem rd_set_ne (m : List TYPE) (j k : Nat) (v : TYPE) (h : j ≠ k) :
    rd (m.set j v) k = rd m k := by
  simp [rd, List.getD, List.getElem?_set_ne h]

theorem rd_set_eq (m : List TYPE) (j : Nat) (v : TYPE) (h : j < m.length) :
    rd (m.set j v) j = v := by
  simp [rd, List.getD, List.getElem?_set_self h]

theorem unpack_succ (NB n : Nat) (m rw re : List TYPE) :
    unpack NB (n + 1) m rw re
      = ((unpack NB n m rw re).set ((n + 1) * (NB + 2)) (rd rw n)).set
          ((n + 1) * (NB + 2) + NB + 1) (rd re n) := by
  simp [unpack, List.range_succ, List.foldl_append]

theorem row_step (i n s : Nat) (h : i < n) : (i + 1) * s + s ≤ (n + 1) * s := by
  have h1 : (i + 2) * s ≤ (n + 1) * s := Nat.mul_le_mul_right s (by omega)
  have h2 : (i + 2) * s = (i + 1) * s + s := by ring
  omega

theorem unpack_rd_east (NB : Nat) (m rw re : List TYPE) :
    ∀ (MB i : Nat), i < MB → (i + 1) * (NB + 2) + NB + 1 < m.length →
      rd (unpack NB MB m rw re) ((i + 1) * (NB + 2) + NB + 1) = rd re i := by
  intro MB
  induction MB with
  | zero => intro i hi; omega
  | succ n ih =>
    intro i hi hlen
    rw [unpack_succ]
    by_cases h : i = n
    · subst h
      exact rd_set_eq _ _ _ (by rw [List.length_set, unpack_length]; exact hlen)
    · have hin : i < n := by omega
      have := row_step i n (NB + 2) hin
      rw [rd_set_ne _ _ _ _ (by omega), rd_set_ne _ _ _ _ (by omega)]
      exact ih i hin hlen

theorem unpack_rd_west (NB : Nat) (m rw re : List TYPE) :
    ∀ (MB i : Nat), i < MB → (i + 1) * (NB + 2) < m.length →
      rd (unpack NB MB m rw re) ((i + 1) * (NB + 2)) = rd rw i := by
  intro MB
  induction MB with
  | zero => intro i hi; omega
  | succ n ih =>
    intro i hi hlen
    rw [unpack_succ]
    by_cases h : i = n
    · subst h
      rw [rd_set_ne _ _ _ _ (by omega)]
      exact rd_set_eq _ _ _ (by rw [unpack_length]; exact hlen)
    · have hin : i < n := by omega
      have := row_step i n (NB + 2) hin
      rw [rd_set_ne _ _ _ _ (by omega), rd_set_ne _ _ _ _ (by omega)]
      exact ih i hin hlen

theorem unpack_rd_inner (NB : Nat) (m rw re : List TYPE) (k : Nat) :
    ∀ MB : Nat, (∀ i, i < MB → k ≠ (i + 1) * (NB + 2) ∧ k ≠ (i + 1) * (NB + 2) + NB + 1) →
      rd (unpack NB MB m rw re) k = rd m k := by
  intro MB
  induction MB with
  | zero => intro _; rfl
  | succ n ih =>
    intro h
    rw [unpack_succ, rd_set_ne _ _ _ _ (h n (by omega)).2.symm,
      rd_set_ne _ _ _ _ (h n (by omega)).1.symm]
    exact ih (fun i hi => h i (by omega))

theorem inner_column (NB i j c : Nat) (hc1 : 1 ≤ c) (hc2 : c ≤ NB) :
    (i + 1) * (NB + 2) + c ≠ (j + 1) * (NB + 2) ∧
      (i + 1) * (NB + 2) + c ≠ (j + 1) * (NB + 2) + NB + 1 := by
  rcases Nat.lt_trichotomy i j with h | h | h
  · have := row_step i j (NB + 2) h
    constructor <;> omega
  · subst h
    constructor <;> omega
  · have := row_step j i (NB + 2) h
    constructor <;> omega

theorem rd_deliver_outside (buf msg : List TYPE) (off k : Nat) (hoff : off ≤ buf.length)
    (hk : k < off ∨ off + msg.length ≤ k) : rd (deliver buf off msg) k = rd buf k := by
  unfold deliver
  simp only [rd, List.getD_eq_getElem?_getD]
  rcases hk with hk | hk
  · rw [List.append_assoc, List.getElem?_append_left (by simp; omega),
      List.getElem?_take_of_lt hk]
  · rw [List.getElem?_append_right (by simp; omega), List.getElem?_drop]
    congr 2
    simp
    omega

theorem rd_deliver_inside (buf msg : List TYPE) (i : Nat) (hi : i < msg.length) :
    rd (deliver buf 0 msg) i = rd msg i := by
  unfold deliver
  simp only [rd, List.getD_eq_getElem?_getD]
  rw [List.take_zero, List.nil_append, List.getElem?_append_left hi]

theorem rd_pack_west (NB MB : Nat) (om : List TYPE) (i : Nat) (hi : i < MB) :
    rd (payload (pack_west NB MB om) 0 MB) i = rd om ((i + 1) * (NB + 2) + 1) := by
  rw [payload_full _ _ (by simp [pack_west])]
  simp [pack_west, rd, List.getD, List.getElem?_map, List.getElem?_range hi]

theorem rd_pack_east (NB MB : Nat) (om : List TYPE) (i : Nat) (hi : i < MB) :
    rd (payload (pack_east NB MB om) 0 MB) i = rd om ((i + 1) * (NB + 2) + NB) := by
  rw [payload_full _ _ (by simp [pack_east])]
  simp [pack_east, rd, List.getD, List.getElem?_map, List.getElem?_range hi]
theorem halo_rank_reads (NB MB P : Nat) (w : List RankState) (r i : Nat) (hi : i < MB)
    (hs : (at_rank w r).old_matrix.length = (NB + 2) * (MB + 2)) :
    rd (halo_rank NB MB P w r).old_matrix ((i + 1) * (NB + 2) + NB + 1)
      = rd (halo_rank NB MB P w r).recv_east i ∧
    rd (halo_rank NB MB P w r).old_matrix ((i + 1) * (NB + 2))
      = rd (halo_rank NB MB P w r).recv_west i ∧
    ∀ c, 1 ≤ c → c ≤ NB →
      rd (halo_rank NB MB P w r).old_matrix ((i + 1) * (NB + 2) + c)
        = rd (at_rank w r).old_matrix ((i + 1) * (NB + 2) + c) := by
  have e1 : (NB + 2) * (MB + 2) = (MB + 1) * (NB + 2) + (NB + 2) := by ring
  have e2 : (NB + 2) * (MB + 1) = (MB + 1) * (NB + 2) := by ring
  have e3 : (NB + 2) * 0 = 0 := by ring
  have hrow := row_step i MB (NB + 2) hi
  have hrow0 : NB + 2 ≤ (i + 1) * (NB + 2) := Nat.le_mul_of_pos_left _ (by omega)
  have key : ∀ (m2 rw re : List TYPE), m2.length = (NB + 2) * (MB + 2) →
      (∀ k, NB + 2 ≤ k → k < (NB + 2) * (MB + 1) → rd m2 k = rd (at_rank w r).old_matrix k) →
      rd (unpack NB MB m2 rw re) ((i + 1) * (NB + 2) + NB + 1) = rd re i ∧
      rd (unpack NB MB m2 rw re) ((i + 1) * (NB + 2)) = rd rw i ∧
      ∀ c, 1 ≤ c → c ≤ NB →
        rd (unpack NB MB m2 rw re) ((i + 1) * (NB + 2) + c)
          = rd (at_rank w r).old_matrix ((i + 1) * (NB + 2) + c) := by
    intro m2 rw re hlen hin
    refine ⟨unpack_rd_east NB m2 rw re MB i hi (by omega),
      unpack_rd_west NB m2 rw re MB i hi (by omega), ?_⟩
    intro c hc1 hc2
    rw [unpack_rd_inner NB m2 rw re _ MB (fun j _ => inner_column NB i j c hc1 hc2)]
    exact hin _ (by omega) (by omega)
  have hn : ∀ (msg : List TYPE), msg.length ≤ NB →
      (deliver (at_rank w r).old_matrix (RECV_NORTH NB) msg).length = (NB + 2) * (MB + 2) ∧
      ∀ k, NB + 2 ≤ k →
        rd (deliver (at_rank w r).old_matrix (RECV_NORTH NB) msg) k
          = rd (at_rank w r).old_matrix k := by
    intro msg hmsg
    unfold RECV_NORTH
    refine ⟨by rw [deliver_length _ _ _ (by omega), hs], ?_⟩
    intro k hk
    exact rd_deliver_outside _ _ _ _ (by omega) (Or.inr (by omega))
  have hso : ∀ (m1 msg : List TYPE), m1.length = (NB + 2) * (MB + 2) → msg.length ≤ NB →
      (deliver m1 (RECV_SOUTH NB MB) msg).length = (NB + 2) * (MB + 2) ∧
      ∀ k, k < (NB + 2) * (MB + 1) → rd (deliver m1 (RECV_SOUTH NB MB) msg) k = rd m1 k := by
    intro m1 msg h1 hmsg
    unfold RECV_SOUTH
    refine ⟨by rw [deliver_length _ _ _ (by omega), h1], ?_⟩
    intro k hk
    exact rd_deliver_outside _ _ _ _ (by omega) (Or.inl (by omega))
  unfold halo_rank
  simp only []
  apply key
  · split_ifs
    · exact (hso _ _ (hn _ (payload_length_le _ _ _)).1 (payload_length_le _ _ _)).1
    · exact (hso _ _ hs (payload_length_le _ _ _)).1
    · exact (hn _ (payload_length_le _ _ _)).1
    · exact hs
  · intro k hk1 hk2
    split_ifs
    · rw [(hso _ _ (hn _ (payload_length_le _ _ _)).1 (payload_length_le _ _ _)).2 k hk2]
      exact (hn _ (payload_length_le _ _ _)).2 k hk1
    · exact (hso _ _ hs (payload_length_le _ _ _)).2 k hk2
    · exact (hn _ (payload_length_le _ _ _)).2 k hk1
    · rfl
theorem rd_recv_west_column (NB MB : Nat) (buf om : List TYPE) (i : Nat) (hi : i < MB) :
    rd (deliver buf 0 (payload (pack_west NB MB om) 0 MB)) i
      = rd om ((i + 1) * (NB + 2) + 1) := by
  rw [rd_deliver_inside _ _ _ (by rw [payload_full _ _ (by simp [pack_west])]; simpa [pack_west] using hi)]
  exact rd_pack_west NB MB om i hi

theorem rd_recv_east_column (NB MB : Nat) (buf om : List TYPE) (i : Nat) (hi : i < MB) :
    rd (deliver buf 0 (payload (pack_east NB MB om) 0 MB)) i
      = rd om ((i + 1) * (NB + 2) + NB) := by
  rw [rd_deliver_inside _ _ _ (by rw [payload_full _ _ (by simp [pack_east])]; simpa [pack_east] using hi)]
  exact rd_pack_east NB MB om i hi

/-- C17: let `a` be a rank with an east neighbour in its east-west
communicator and `b` that neighbour (the member whose `ew_rank` is one more),
all tiles allocated for the same `NB >= 1` and `MB`. After one halo round the
east ghost column of `a` equals the west interior column of `b`, and the west
ghost column of `b` equals the east interior column of `a`, row by row. -/
theorem halo_exchange_symmetric (NB MB P : Nat) (w : List RankState) (a i : Nat)
    (hNB : 1 ≤ NB) (hi : i < MB) (ha : a < w.length)
    (hs : ∀ q, q < w.length → (at_rank w q).old_matrix.length = (NB + 2) * (MB + 2))
    (hadj : (split_members w.length (fun x => x / P) a).indexOf a + 1
        < (split_members w.length (fun x => x / P) a).length) :
    split_members w.length (fun x => x / P)
        ((split_members w.length (fun x => x / P) a).getD
          ((split_members w.length (fun x => x / P) a).indexOf a + 1) 0)
      = split_members w.length (fun x => x / P) a ∧
    (split_members w.length (fun x => x / P) a).indexOf
        ((split_members w.length (fun x => x / P) a).getD
          ((split_members w.length (fun x => x / P) a).indexOf a + 1) 0)
      = (split_members w.length (fun x => x / P) a).indexOf a + 1 ∧
    rd (at_rank (halo_round NB MB P w) a).old_matrix ((i + 1) * (NB + 2) + NB + 1)
      = rd (at_rank (halo_round NB MB P w)
          ((split_members w.length (fun x => x / P) a).getD
            ((split_members w.length (fun x => x / P) a).indexOf a + 1) 0)).old_matrix
          ((i + 1) * (NB + 2) + 1) ∧
    rd (at_rank (halo_round NB MB P w)
          ((split_members w.length (fun x => x / P) a).getD
            ((split_members w.length (fun x => x / P) a).indexOf a + 1) 0)).old_matrix
          ((i + 1) * (NB + 2))
      = rd (at_rank (halo_round NB MB P w) a).old_matrix ((i + 1) * (NB + 2) + NB) := by
  have hf := split_members_eq_filter w.length (fun x => x / P) a
  have hnd : (split_members w.length (fun x => x / P) a).Nodup := by
    rw [hf]; exact (List.nodup_range _).filter _
  have hamem : a ∈ split_members w.length (fun x => x / P) a := by
    rw [hf]; simp [ha]
  have hbmem : ∀ x, x ∈ split_members w.length (fun x => x / P) a →
      x < w.length ∧ x / P = a / P := by
    intro x hx
    rw [hf] at hx
    simpa using hx
  generalize hew : split_members w.length (fun x => x / P) a = ew at *
  have he : ew.indexOf a < ew.length := List.indexOf_lt_length.mpr hamem
  have hgb : ew.getD (ew.indexOf a + 1) 0 = ew[ew.indexOf a + 1] := by
    simp [List.getD, List.getElem?_eq_getElem hadj]
  have hga : ew.getD (ew.indexOf a) 0 = a := by
    simp [List.getD, List.getElem?_eq_getElem he]
  have hib : ew.indexOf ew[ew.indexOf a + 1] = ew.indexOf a + 1 :=
    List.indexOf_getElem hnd _ hadj
  obtain ⟨hbN, hbP⟩ := hbmem _ (List.getElem_mem hadj)
  rw [hgb]
  generalize ew[ew.indexOf a + 1] = b at *
  have hewb : split_members w.length (fun x => x / P) b = ew := by
    rw [split_members_eq_filter, ← hew, split_members_eq_filter]
    simp only [hbP]
  have hra : at_rank (halo_round NB MB P w) a = halo_rank NB MB P w a := by
    unfold halo_round; exact at_rank_map_range _ _ _ ha
  have hrb : at_rank (halo_round NB MB P w) b = halo_rank NB MB P w b := by
    unfold halo_round; exact at_rank_map_range _ _ _ hbN
  have hea : (halo_rank NB MB P w a).recv_east
      = deliver (at_rank w a).recv_east 0
          (payload (pack_west NB MB (at_rank w b).old_matrix) 0 MB) := by
    unfold halo_rank
    simp only [hew]
    rw [if_pos (by omega), hgb]
  have heb : (halo_rank NB MB P w b).recv_west
      = deliver (at_rank w b).recv_west 0
          (payload (pack_east NB MB (at_rank w a).old_matrix) 0 MB) := by
    unfold halo_rank
    simp only [hewb, hib]
    rw [if_pos (by omega), Nat.add_sub_cancel, hga]
  refine ⟨hewb, hib, ?_, ?_⟩
  · rw [hra, hrb, (halo_rank_reads NB MB P w a i hi (hs a ha)).1, hea,
      rd_recv_west_column _ _ _ _ _ hi]
    exact ((halo_rank_reads NB MB P w b i hi (hs b hbN)).2.2 1 (le_refl 1) hNB).symm
  · rw [hra, hrb, (halo_rank_reads NB MB P w b i hi (hs b hbN)).2.1, heb,
      rd_recv_east_column _ _ _ _ _ hi]
    exact ((halo_rank_reads NB MB P w a i hi (hs a ha)).2.2 NB hNB (le_refl _)).symm

theorem halo_exchange_symmetric_witness :
    rd (at_rank (halo_round 1 1 2 sample_world) 0).old_matrix ((0 + 1) * (1 + 2) + 1 + 1)
      = rd (at_rank (halo_round 1 1 2 sample_world)
          ((split_members sample_world.length (fun x => x / 2) 0).getD
            ((split_members sample_world.length (fun x => x / 2) 0).indexOf 0 + 1)
            0)).old_matrix
          ((0 + 1) * (1 + 2) + 1) :=
  (halo_exchange_symmetric 1 1 2 sample_world 0 0 (by decide) (by decide) (by decide)
    (by decide) (by decide)).2.2.1

theorem heat_loop_steps (maxSteps : Int) (h1 : maxSteps < 2147483647) :
    ∀ (k : Nat) (fuel : Nat) (step : Int), 0 ≤ step → step + k = maxSteps → k < fuel →
      Heat.loop maxSteps fuel step = some (maxSteps + 1) := by
  intro k
  induction k with
  | zero =>
    intro fuel step h0 hk hf
    obtain ⟨fuel, rfl⟩ : ∃ f, fuel = f + 1 := ⟨fuel - 1, by omega⟩
    have hw : wrap32 (step + 1) = step + 1 := wrap32_id _ (by omega) (by omega)
    unfold Heat.loop
    rw [hw, if_pos (by omega)]
    congr 1
    omega
  | succ k ih =>
    intro fuel step h0 hk hf
    obtain ⟨fuel, rfl⟩ : ∃ f, fuel = f + 1 := ⟨fuel - 1, by omega⟩
    have hw : wrap32 (step + 1) = step + 1 := wrap32_id _ (by omega) (by omega)
    unfold Heat.loop
    rw [hw, if_neg (by push_cast at hk; omega)]
    exact ih fuel (step + 1) (by omega) (by push_cast at hk ⊢; omega) (by omega)

/-- C19 (what the code does): neither driver reports an error and exits
because `P*Q` differs from the number of processes. `main` of `main_scr.c`
ends the same way for every world size: with `P >= 1`, `Q >= 1` and `-NB`
given it calls `jacobi_cpu` and returns 0. The heat-equation driver prints
"Number of processes not equal to Number of subdomains" on rank 0 exactly when
the two numbers differ, and goes on. On a grid of at least `1 x 1` it returns
0 after its main loop (`maxSteps + 1` steps) when the numbers agree. With
fewer processes than subdomains it stops in `MPI_Cart_create`; with more, a
rank outside the grid stops in `MPI_Cart_shift`, and a rank inside the grid
has called `computeNext` once when it stops in `MPI_Allreduce`. Whenever it
returns, the value is 0 and the numbers agree. -/
theorem drivers_ignore_world_size (P Q NB MB size rc : Int)
    (local_rank nMpiRanks x_domains y_domains maxSteps : Int) (fuel : Nat)
    (hP : 1 ≤ P) (hQ : 1 ≤ Q) (hNB : NB ≠ -1)
    (hx : 1 ≤ x_domains) (hy : 1 ≤ y_domains)
    (hm0 : 0 ≤ maxSteps) (hm1 : maxSteps < 2147483647) (hf : maxSteps < fuel) :
    Scr.main P Q NB MB size rc
      = MainOutcome.ran_jacobi_cpu NB (if MB = -1 then NB else MB) P Q 0 ∧
    ((Heat.main local_rank nMpiRanks x_domains y_domains maxSteps fuel).1 = true
      ↔ (local_rank = 0 ∧ nMpiRanks ≠ x_domains * y_domains)) ∧
    (nMpiRanks = x_domains * y_domains → local_rank < nMpiRanks →
      (Heat.main local_rank nMpiRanks x_domains y_domains maxSteps fuel).2
        = HeatEnd.returned (maxSteps + 1) 0) ∧
    (nMpiRanks < x_domains * y_domains →
      (Heat.main local_rank nMpiRanks x_domains y_domains maxSteps fuel).2
        = HeatEnd.stopped HeatCall.MPI_Cart_create 0) ∧
    (x_domains * y_domains < nMpiRanks → x_domains * y_domains ≤ local_rank →
      (Heat.main local_rank nMpiRanks x_domains y_domains maxSteps fuel).2
        = HeatEnd.stopped HeatCall.MPI_Cart_shift 0) ∧
    (x_domains * y_domains < nMpiRanks → local_rank < x_domains * y_domains →
      (Heat.main local_rank nMpiRanks x_domains y_domains maxSteps fuel).2
        = HeatEnd.stopped HeatCall.MPI_Allreduce 1) ∧
    (∀ step value : Int,
      (Heat.main local_rank nMpiRanks x_domains y_domains maxSteps fuel).2
        = HeatEnd.returned step value →
      value = 0 ∧ nMpiRanks = x_domains * y_domains) := by
  have hl := heat_loop_steps maxSteps hm1 maxSteps.toNat fuel 0 (le_refl _)
    (by rw [Int.toNat_of_nonneg hm0]; ring) (by omega)
  have hc : y_domains * x_domains = x_domains * y_domains := Int.mul_comm _ _
  generalize hprod : x_domains * y_domains = n at hc
  have hdims : ¬ (y_domains < 1) ∧ ¬ (x_domains < 1) := ⟨by omega, by omega⟩
  refine ⟨?_, ?_, ?_, ?_, ?_, ?_, ?_⟩
  · unfold Scr.main
    rw [if_neg (by omega), if_neg (by omega), if_neg hNB]
  · simp [Heat.main, hprod]
  · intro h1 h2
    have h3 : ¬ (nMpiRanks < n) := by omega
    have h4 : ¬ (n < nMpiRanks) := by omega
    have h5 : local_rank < n := by omega
    simp [Heat.main, Heat.MPI_Cart_create, hc, hdims.1, hdims.2, h3, h4, h5, hl]
  · intro h1
    simp [Heat.main, Heat.MPI_Cart_create, hc, h1]
  · intro h1 h2
    have h3 : ¬ (nMpiRanks < n) := by omega
    have h5 : ¬ (local_rank < n) := by omega
    simp [Heat.main, Heat.MPI_Cart_create, hc, hdims.1, hdims.2, h3, h5]
  · intro h1 h2
    have h3 : ¬ (nMpiRanks < n) := by omega
    simp [Heat.main, Heat.MPI_Cart_create, hc, hdims.1, hdims.2, h3, h2, h1]
  · intro step value h
    unfold Heat.main Heat.MPI_Cart_create at h
    rw [hc] at h
    simp only [hdims.1, hdims.2, false_or] at h
    by_cases h3 : nMpiRanks < n
    · rw [if_pos h3] at h
      cases h
    · rw [if_neg h3] at h
      by_cases h5 : local_rank < n
      · simp only [h5, decide_True] at h
        by_cases h4 : n < nMpiRanks
        · rw [if_pos h4] at h
          cases h
        · rw [if_neg h4, hl] at h
          simp only [HeatEnd.returned.injEq] at h
          exact ⟨h.2.symm, by omega⟩
      · simp only [h5, decide_False] at h
        cases h

theorem drivers_ignore_world_size_witness :
    Scr.main 2 2 16 (-1) 4 67
      = MainOutcome.ran_jacobi_cpu 16 (if (-1 : Int) = -1 then 16 else -1) 2 2 0 ∧
    (Heat.main 0 2 1 2 10000 10001).2 = HeatEnd.returned (10000 + 1) 0 :=
  ⟨(drivers_ignore_world_size 2 2 16 (-1) 4 67 0 2 1 2 10000 10001 (by decide) (by decide)
      (by decide) (by decide) (by decide) (by decide) (by decide) (by decide)).1,
    (drivers_ignore_world_size 2 2 16 (-1) 4 67 0 2 1 2 10000 10001 (by decide) (by decide)
      (by decide) (by decide) (by decide) (by decide) (by decide) (by decide)).2.2.1
      (by decide) (by decide)⟩

/-- C19 (counterexample): `-p 2 -q 2 -NB 16`
in a world of 3 processes: `main` of `main_scr.c` calls `jacobi_cpu` and
returns 0. The heat-equation driver with its `1 x 2` subdomains in a world of
3 processes: rank 0 prints its message, calls `computeNext` once and stops in
`MPI_Allreduce` without an exit of its own; rank 2 stops in
`MPI_Cart_shift`. -/
theorem world_size_mismatch_runs :
    (2 : Int) * 2 ≠ 3 ∧
    Scr.main 2 2 16 (-1) 3 67 = MainOutcome.ran_jacobi_cpu 16 16 2 2 0 ∧
    (1 : Int) * 2 ≠ 3 ∧
    Heat.main 0 3 1 2 10000 10001 = (true, HeatEnd.stopped HeatCall.MPI_Allreduce 1) ∧
    Heat.main 2 3 1 2 10000 10001 = (false, HeatEnd.stopped HeatCall.MPI_Cart_shift 0) := by
  decide

theorem length_flatMap_const {α β : Type} (l : List α) (f : α → List β) (c : Nat)
    (h : ∀ a, (f a).length = c) : (l.flatMap f).length = l.length * c := by
  induction l with
  | nil => simp
  | cons a l ih =>
    rw [List.flatMap_cons, List.length_append, ih, h, List.length_cons]
    ring

theorem heat_output_shape (size_x x_domains y_domains xCell yCell : Nat) (temp1_init : TYPE)
    (xTempFinal : List TYPE) :
    (Heat.output_lines size_x x_domains y_domains xCell yCell temp1_init xTempFinal).length
      = y_domains * yCell + 2 ∧
    ∀ line ∈ Heat.output_lines size_x x_domains y_domains xCell yCell temp1_init xTempFinal,
      line.length = size_x + 2 ∨ line.length = x_domains * xCell + 2 := by
  constructor
  · unfold Heat.output_lines
    rw [List.length_append, List.length_append, length_flatMap_const _ _ yCell (by intro a; simp)]
    simp
    omega
  · intro line hl
    simp only [Heat.output_lines, List.mem_append, List.mem_singleton, List.mem_flatMap,
      List.mem_map, List.mem_range] at hl
    rcases hl with (hl | ⟨i, _, j, _, hl⟩) | hl
    · left; rw [hl]; simp
    · right; rw [← hl]
      rw [List.length_append, List.length_append,
        length_flatMap_const _ _ xCell (by intro a; simp)]
      simp
      omega
    · left; rw [hl]; simp

/-- C20 (what the code does): for `x_domains, y_domains >= 1`, `size_x` divisible by
`x_domains` and `size_y` divisible by `y_domains`, the heat-equation output
written to `output.dat` has `size_y + 2` lines of `size_x + 2` values each. -/
theorem heat_output_size (size_x size_y x_domains y_domains : Nat) (temp1_init : TYPE)
    (xTempFinal : List TYPE) (hx : 1 ≤ x_domains) (hy : 1 ≤ y_domains)
    (hdx : x_domains ∣ size_x) (hdy : y_domains ∣ size_y) :
    ∃ lines, Heat.output size_x size_y x_domains y_domains temp1_init xTempFinal = some lines ∧
      lines.length = size_y + 2 ∧ ∀ line ∈ lines, line.length = size_x + 2 := by
  have h := heat_output_shape size_x x_domains y_domains (size_x / x_domains)
    (size_y / y_domains) temp1_init xTempFinal
  have ho : Heat.output size_x size_y x_domains y_domains temp1_init xTempFinal
      = some (Heat.output_lines size_x x_domains y_domains (size_x / x_domains)
          (size_y / y_domains) temp1_init xTempFinal) := by
    unfold Heat.output
    rw [if_neg (by omega)]
  refine ⟨_, ho, ?_, ?_⟩
  · rw [h.1, Nat.mul_div_cancel' hdy]
  · intro line hl
    rcases h.2 line hl with h1 | h1
    · exact h1
    · rw [h1, Nat.mul_div_cancel' hdx]

theorem heat_output_size_witness :
    ∃ lines, Heat.output 128 128 1 2 10 [] = some lines ∧
      lines.length = 128 + 2 ∧ ∀ line ∈ lines, line.length = 128 + 2 :=
  heat_output_size 128 128 1 2 10 [] (by decide) (by decide) (by decide) (by decide)

/-- C20 (counterexample): the sizes the
driver is built with (`size_x = size_y = 128`, `x_domains = 1`,
`y_domains = 2`) give 130 lines, not `128 + 2*2 + 2 = 134`, of 130 values, not
`128 + 2*1 + 2 = 132`; likewise a `4 x 4` domain with
`x_domains = y_domains = 2` gives 6 lines of 6 values, not 10 of 10. -/
theorem heat_output_not_extended :
    (∃ lines, Heat.output 128 128 1 2 10 [] = some lines ∧
      lines.length = 130 ∧ lines.length ≠ 128 + 2 * 2 + 2 ∧
      ∀ line ∈ lines, line.length = 130 ∧ line.length ≠ 128 + 2 * 1 + 2) ∧
    ((Heat.output 4 4 2 2 10 []).map fun lines => lines.map List.length)
      = some [6, 6, 6, 6, 6, 6] := by
  constructor
  · have h := heat_output_shape 128 1 2 (128 / 1) (128 / 2) 10 []
    have ho : Heat.output 128 128 1 2 10 []
        = some (Heat.output_lines 128 1 2 (128 / 1) (128 / 2) 10 []) := by
      unfold Heat.output
      rw [if_neg (by decide)]
    refine ⟨_, ho, ?_, ?_, ?_⟩
    · rw [h.1]
    · rw [h.1]; decide
    · intro line hl
      rcases h.2 line hl with h1 | h1 <;> rw [h1] <;> decide
  · decide

theorem write_checkpoint_step_zero (verbose iteration : Int) (env : OutputEnv) (length : Int) :
    write_checkpoint verbose 0 0 iteration env length = ([], Ended.trapped) := by
  simp [write_checkpoint, modulo_rule]

/-- C30 (evaluation of the code): `step = atoi(pstep)` is used unchecked. For
every configured text that `atoi` maps to 0, among them "0" and "abc", the
modulo rule `iteration % step == 0` of `write_checkpoint` divides by zero at
every iteration, and a run without `--use-scr-need-checkpoint` ends there in
its first pass, before any call into the store for the checkpoint. -/
theorem interval_zero_divides_by_zero (text : List Char) (verbose iteration rank : Int)
    (env : OutputEnv) (length : Int) (renv : RestartEnv) (penv : Int → PassEnv)
    (buf : List TYPE) (len fuel : Nat) (st : TermState) (h : atoi text = 0)
    (hr : renv.have_restart 0 = 0) :
    atoi "0".toList = 0 ∧ atoi "abc".toList = 0 ∧ atoi "".toList = 0 ∧
    modulo_rule iteration (atoi text) = none ∧
    write_checkpoint verbose 0 (atoi text) iteration env length = ([], Ended.trapped) ∧
    Scr.jacobi_cpu verbose 0 (atoi text) rank true renv penv buf len (fuel + 1) iteration st
      = ([ScrCall.SCR_Have_restart], Ended.trapped) := by
  refine ⟨by decide, by decide, by decide, ?_, ?_, ?_⟩
  · simp [h, modulo_rule]
  · rw [h]; exact write_checkpoint_step_zero verbose iteration env length
  · unfold Scr.jacobi_cpu
    rw [try_restart_no_dataset_aux verbose renv fuel iteration buf len hr, h]
    simp only [Bool.true_eq_false, if_false]
    unfold Scr.loop
    rw [write_checkpoint_step_zero]
    simp

theorem interval_zero_divides_by_zero_witness :
    write_checkpoint 0 0 (atoi "abc".toList) 0 ⟨0, true, 9, 0⟩ 9 = ([], Ended.trapped) :=
  (interval_zero_divides_by_zero "abc".toList 0 0 0 ⟨0, true, 9, 0⟩ 9
    ⟨fun _ => 0, fun _ => [], fun _ => true, fun _ _ => true, fun _ => true, fun _ => none,
      fun _ => 0⟩
    (fun _ => ⟨⟨0, true, 9, 0⟩, true, none⟩) [0] 1 0 ⟨none, []⟩ (by decide) rfl).2.2.2.2.1

theorem respawn_last_dead (NB MB d leader : Nat) (junk : RankState) (w : List RankState)
    (r : Nat) (hr : r < w.length) :
    (at_rank (respawn NB MB d leader junk w) r).last_dead
      = if r = d then none
        else if r = leader then some d else (at_rank w r).last_dead := by
  unfold respawn
  simp only []
  rw [at_rank_map _ _ _ (by simpa using hr), at_rank_map_range _ _ _ hr]
  split_ifs <;> rfl

/-- C26 (evaluation of the code): `last_dead` is assigned only in
`MPIX_Comm_replace` on the survivor that is rank 0 of the shrunken
communicator; the respawned process keeps `MPI_PROC_NULL`. In the restore
round after the repair of a rank `d` of a world where no process held
`last_dead` equal to its own rank, the test `rank == last_dead` fails on every
process: each of them, the respawned one at rank `d` included, sends its full
`(NB+2)*(MB+2)` buffer and nobody sends a zero-length payload; what each rank
receives is the whole `bckpt` of its ring successor. -/
theorem restore_round_sends_full (NB MB d leader : Nat) (junk : RankState)
    (w : List RankState) (hd : d < w.length) (hne : leader ≠ d)
    (hw : ∀ r, r < w.length → (at_rank w r).last_dead ≠ some r) :
    (at_rank (respawn NB MB d leader junk w) d).last_dead = none ∧
    restore_send_count NB MB (respawn NB MB d leader junk w) d = (NB + 2) * (MB + 2) ∧
    (∀ s, s < w.length →
      restore_send_count NB MB (respawn NB MB d leader junk w) s = (NB + 2) * (MB + 2)) ∧
    buddy_restore NB MB (respawn NB MB d leader junk w)
      = (List.range (respawn NB MB d leader junk w).length).map fun r =>
          { at_rank (respawn NB MB d leader junk w) r with
            old_matrix := deliver (at_rank (respawn NB MB d leader junk w) r).old_matrix 0
              (payload (at_rank (respawn NB MB d leader junk w)
                ((r + 1) % (respawn NB MB d leader junk w).length)).bckpt 0
                (restore_send_count NB MB (respawn NB MB d leader junk w)
                  ((r + 1) % (respawn NB MB d leader junk w).length))) } := by
  have hall : ∀ s, s < w.length →
      restore_send_count NB MB (respawn NB MB d leader junk w) s = (NB + 2) * (MB + 2) := by
    intro s hs
    unfold restore_send_count
    rw [respawn_last_dead NB MB d leader junk w s hs]
    by_cases h1 : s = d
    · simp [h1]
    · by_cases h2 : s = leader
      · subst h2
        have : ¬ (d = s) := fun h => hne h.symm
        simp [h1, this]
      · simp [h1, h2, hw s hs]
  refine ⟨?_, hall d hd, hall, rfl⟩
  rw [respawn_last_dead NB MB d leader junk w d hd]
  simp

theorem restore_round_sends_full_witness :
    restore_send_count 1 1 (respawn 1 1 1 0 sample_junk sample_world) 1 = (1 + 2) * (1 + 2) :=
  (restore_round_sends_full 1 1 1 0 sample_junk sample_world (by decide) (by decide)
    (by decide)).2.1

theorem halo_rank_border_buffers (NB MB P : Nat) (w : List RankState) (r : Nat) :
    ((split_members w.length (fun x => x / P) r).indexOf r = 0 →
      (halo_rank NB MB P w r).recv_west = (at_rank w r).recv_west) ∧
    ((split_members w.length (fun x => x / P) r).length - 1
        = (split_members w.length (fun x => x / P) r).indexOf r →
      (halo_rank NB MB P w r).recv_east = (at_rank w r).recv_east) := by
  constructor
  · intro h
    unfold halo_rank
    simp only []
    rw [if_neg (by rw [h]; simp)]
  · intro h
    unfold halo_rank
    simp only []
    rw [if_neg (by rw [h]; simp)]

/-- C28 (evaluation of the code): the loop after `MPI_Waitall` copies
`recv_west[i]` and `recv_east[i]` into the two ghost columns on every rank,
whether or not a receive was posted. On a rank without west neighbour
(`ew_rank == 0`) the west ghost column after a halo round is the content of
`recv_west`, and on a rank without east neighbour the east ghost column is
the content of `recv_east`: the border is kept only where the staging buffer
happens to hold the border values. -/
theorem halo_round_overwrites_border (NB MB P : Nat) (w : List RankState) (r i : Nat)
    (hr : r < w.length) (hi : i < MB)
    (hs : (at_rank w r).old_matrix.length = (NB + 2) * (MB + 2)) :
    ((split_members w.length (fun x => x / P) r).indexOf r = 0 →
      rd (at_rank (halo_round NB MB P w) r).old_matrix ((i + 1) * (NB + 2))
        = rd (at_rank w r).recv_west i) ∧
    ((split_members w.length (fun x => x / P) r).length - 1
        = (split_members w.length (fun x => x / P) r).indexOf r →
      rd (at_rank (halo_round NB MB P w) r).old_matrix ((i + 1) * (NB + 2) + NB + 1)
        = rd (at_rank w r).recv_east i) := by
  have hra : at_rank (halo_round NB MB P w) r = halo_rank NB MB P w r := by
    unfold halo_round; exact at_rank_map_range _ _ _ hr
  have hreads := halo_rank_reads NB MB P w r i hi hs
  have hb := halo_rank_border_buffers NB MB P w r
  constructor
  · intro h
    rw [hra, hreads.2.1, hb.1 h]
  · intro h
    rw [hra, hreads.1, hb.2 h]

theorem halo_round_overwrites_border_witness :
    (split_members sample_world.length (fun x => x / 2) 0).indexOf 0 = 0 ∧
      rd (at_rank (halo_round 1 1 2 sample_world) 0).old_matrix ((0 + 1) * (1 + 2))
        = rd (at_rank sample_world 0).recv_west 0 :=
  ⟨by decide, (halo_round_overwrites_border 1 1 2 sample_world 0 0 (by decide) (by decide)
    (by decide)).1 (by decide)⟩

/-- C28 (failing input): the two-rank sample world (`P = 2`, `NB = MB = 1`),
whose staging buffers hold 0. Rank 0 has no west neighbour and its west ghost
cell is 1/2 before the halo round and 0 after it; rank 1 has no east
neighbour and its east ghost cell goes from -1/4 to 0. -/
theorem sample_border_not_pinned :
    (split_members sample_world.length (fun x => x / 2) 0).indexOf 0 = 0 ∧
    rd (at_rank sample_world 0).old_matrix 3 = 1 / 2 ∧
    rd (at_rank (halo_round 1 1 2 sample_world) 0).old_matrix 3 = 0 ∧
    (split_members sample_world.length (fun x => x / 2) 1).length - 1
      = (split_members sample_world.length (fun x => x / 2) 1).indexOf 1 ∧
    rd (at_rank sample_world 1).old_matrix 5 = -1 / 4 ∧
    rd (at_rank (halo_round 1 1 2 sample_world) 1).old_matrix 5 = 0 := by
  decide!

theorem main_loop_steps {W : Type} (pass : W → W) (maxSteps : Int)
    (h1 : maxSteps < 2147483647) :
    ∀ (k : Nat) (fuel : Nat) (step : Int) (w : W), 0 ≤ step → step + k = maxSteps →
      k < fuel →
      Heat.main_loop pass maxSteps fuel step w = some (maxSteps + 1, pass^[k + 1] w) := by
  intro k
  induction k with
  | zero =>
    intro fuel step w h0 hk hf
    obtain ⟨fuel, rfl⟩ : ∃ f, fuel = f + 1 := ⟨fuel - 1, by omega⟩
    have hw : wrap32 (step + 1) = step + 1 := wrap32_id _ (by omega) (by omega)
    unfold Heat.main_loop
    rw [hw, if_pos (by omega)]
    have : step + 1 = maxSteps + 1 := by omega
    rw [this]
    rfl
  | succ k ih =>
    intro fuel step w h0 hk hf
    obtain ⟨fuel, rfl⟩ : ∃ f, fuel = f + 1 := ⟨fuel - 1, by omega⟩
    have hw : wrap32 (step + 1) = step + 1 := wrap32_id _ (by omega) (by omega)
    unfold Heat.main_loop
    rw [hw, if_neg (by push_cast at hk; omega)]
    rw [ih fuel (step + 1) (pass w) (by omega) (by push_cast at hk ⊢; omega) (by omega)]
    rfl

/-- C21 (evaluation of the code): the main loop of the heat-equation driver
increments `step`, runs the pass and leaves only under `step > maxSteps`, so
for `0 <= maxSteps < INT_MAX` it makes exactly `maxSteps + 1` passes (calls of
`computeNext`), one more than `maxSteps`, and leaves with
`step = maxSteps + 1`; with `maxSteps = 10` it makes 11. -/
theorem main_loop_one_step_more (W : Type) (pass : W → W) (w : W) (maxSteps : Int)
    (fuel : Nat) (size_x size_y x_domains y_domains : Nat)
    (dt1 temp1_init temp2_init k0 junk : TYPE)
    (h0 : 0 ≤ maxSteps) (h1 : maxSteps < 2147483647) (hf : maxSteps < fuel) :
    Heat.main_loop pass maxSteps fuel 0 w
      = some (maxSteps + 1, pass^[maxSteps.toNat + 1] w) ∧
    (Heat.run size_x size_y x_domains y_domains maxSteps dt1 temp1_init temp2_init k0 junk
        fuel).map Prod.fst = some (maxSteps + 1) ∧
    Heat.main_loop (fun calls : Nat => calls + 1) maxSteps fuel 0 0
      = some (maxSteps + 1, maxSteps.toNat + 1) ∧
    Heat.loop maxSteps fuel 0 = some (maxSteps + 1) ∧
    Heat.main_loop (fun calls : Nat => calls + 1) 10 11 0 0 = some (11, 11) := by
  have hk : (0 : Int) + (maxSteps.toNat : Int) = maxSteps := by
    rw [Int.toNat_of_nonneg h0]; ring
  have hf2 : maxSteps.toNat < fuel := by omega
  refine ⟨main_loop_steps pass maxSteps h1 _ fuel 0 w (le_refl _) hk hf2, ?_, ?_,
    heat_loop_steps maxSteps h1 _ fuel 0 (le_refl _) hk hf2, by decide⟩
  · unfold Heat.run
    simp only []
    rw [main_loop_steps _ maxSteps h1 _ fuel 0 _ (le_refl _) hk hf2]
    rfl
  rw [main_loop_steps _ maxSteps h1 _ fuel 0 0 (le_refl _) hk hf2]
  congr 2
  generalize maxSteps.toNat + 1 = n
  induction n with
  | zero => rfl
  | succ n ih => rw [Function.iterate_succ_apply', ih]

theorem main_loop_one_step_more_witness :
    Heat.main_loop (fun calls : Nat => calls + 1) 10 11 0 0
      = some ((10 : Int) + 1, (10 : Int).toNat + 1) :=
  (main_loop_one_step_more Nat (fun calls : Nat => calls + 1) 0 10 11 8 8 1 2 (1 / 10) 10 (-10)
    1 0 (by decide) (by decide) (by decide)).2.2.1

theorem mem_span (lo hi x : Int) : x ∈ Heat.span lo hi ↔ lo ≤ x ∧ x ≤ hi := by
  unfold Heat.span
  simp only [List.mem_map, List.mem_range]
  constructor
  · rintro ⟨t, ht, rfl⟩
    omega
  · rintro ⟨h1, h2⟩
    exact ⟨(x - lo).toNat, by omega, by omega⟩

theorem mem_cells (xs ys xe ye i j : Int) :
    (i, j) ∈ Heat.cells xs ys xe ye ↔ xs ≤ i ∧ i ≤ xe ∧ ys ≤ j ∧ j ≤ ye := by
  unfold Heat.cells
  simp only [List.mem_flatMap, List.mem_map, mem_span, Prod.mk.injEq]
  constructor
  · rintro ⟨a, ⟨h1, h2⟩, b, ⟨h3, h4⟩, rfl, rfl⟩
    exact ⟨h1, h2, h3, h4⟩
  · rintro ⟨h1, h2, h3, h4⟩
    exact ⟨i, ⟨h1, h2⟩, j, ⟨h3, h4⟩, rfl, rfl⟩

theorem span_nodup (lo hi : Int) : (Heat.span lo hi).Nodup := by
  unfold Heat.span
  refine (List.nodup_range _).map ?_
  intro a b h
  have : lo + (a : Int) = lo + (b : Int) := h
  omega

theorem span_sorted (lo hi : Int) : (Heat.span lo hi).Pairwise (· < ·) := by
  unfold Heat.span
  refine List.pairwise_map.mpr ((List.pairwise_lt_range _).imp ?_)
  intro a b h
  omega

theorem cells_nodup (xs ys xe ye : Int) : (Heat.cells xs ys xe ye).Nodup := by
  unfold Heat.cells
  rw [List.nodup_flatMap]
  constructor
  · intro i _
    refine (span_nodup ys ye).map ?_
    intro a b h
    exact (Prod.mk.injEq _ _ _ _ ▸ h : i = i ∧ a = b).2
  · refine (span_sorted xs xe).imp ?_
    intro a b hab
    intro c hc1 hc2
    simp only [List.mem_map] at hc1 hc2
    obtain ⟨_, _, rfl⟩ := hc1
    obtain ⟨_, _, h⟩ := hc2
    have : b = a := (Prod.mk.injEq _ _ _ _ ▸ h : b = a ∧ _).1
    omega
theorem heat_put_length (sty : Nat) (x : List TYPE) (i j : Int) (v : TYPE) :
    (Heat.put sty x i j v).length = x.length := by
  unfold Heat.put
  split_ifs <;> simp

theorem heat_get_put_same (sty : Nat) (x : List TYPE) (i j : Int) (v : TYPE)
    (h0 : 0 ≤ Heat.idx sty i j) (h1 : (Heat.idx sty i j).toNat < x.length) :
    Heat.get sty (Heat.put sty x i j v) i j = v := by
  unfold Heat.get Heat.put
  rw [if_neg (by omega), if_neg (by omega)]
  exact rd_set_eq _ _ _ h1

theorem heat_get_put_other (sty : Nat) (x : List TYPE) (i j i2 j2 : Int) (v : TYPE)
    (h : Heat.idx sty i j ≠ Heat.idx sty i2 j2) :
    Heat.get sty (Heat.put sty x i j v) i2 j2 = Heat.get sty x i2 j2 := by
  unfold Heat.get Heat.put
  by_cases h2 : Heat.idx sty i2 j2 < 0
  · rw [if_pos h2, if_pos h2]
  · rw [if_neg h2, if_neg h2]
    by_cases h1 : Heat.idx sty i j < 0
    · rw [if_pos h1]
    · rw [if_neg h1]
      have e1 := Int.toNat_of_nonneg (not_lt.mp h1)
      have e2 := Int.toNat_of_nonneg (not_lt.mp h2)
      exact rd_set_ne _ _ _ _ (fun he => h (by omega))

theorem heat_idx_bounds (stx sty : Nat) (i j : Int) (hi0 : 0 ≤ i) (hi1 : i < stx)
    (hj0 : 0 ≤ j) (hj1 : j < sty) :
    0 ≤ Heat.idx sty i j ∧ (Heat.idx sty i j).toNat < stx * sty := by
  unfold Heat.idx
  have h1 : 0 ≤ i * (sty : Int) := mul_nonneg hi0 (by omega)
  have h2 : (i + 1) * (sty : Int) ≤ (stx : Int) * sty :=
    mul_le_mul_of_nonneg_right (by omega) (by omega)
  have h3 : (i + 1) * (sty : Int) = i * sty + sty := by ring
  have h4 : ((stx * sty : Nat) : Int) = (stx : Int) * sty := by push_cast; ring
  constructor
  · omega
  · omega

theorem heat_idx_inj (sty : Nat) (i j i2 j2 : Int) (hj0 : 0 ≤ j) (hj1 : j < sty)
    (hk0 : 0 ≤ j2) (hk1 : j2 < sty) (h : Heat.idx sty i j = Heat.idx sty i2 j2) :
    i = i2 ∧ j = j2 := by
  unfold Heat.idx at h
  have key : i = i2 := by
    rcases lt_trichotomy i i2 with h1 | h1 | h1
    · have h2 : (i + 1) * (sty : Int) ≤ i2 * sty :=
        mul_le_mul_of_nonneg_right (by omega) (by omega)
      have h3 : (i + 1) * (sty : Int) = i * sty + sty := by ring
      omega
    · exact h1
    · have h2 : (i2 + 1) * (sty : Int) ≤ i * sty :=
        mul_le_mul_of_nonneg_right (by omega) (by omega)
      have h3 : (i2 + 1) * (sty : Int) = i2 * sty + sty := by ring
      omega
  subst key
  exact ⟨rfl, by omega⟩

theorem foldl_put_length (sty : Nat) (val : Int × Int → TYPE) (cells : List (Int × Int))
    (x : List TYPE) :
    (cells.foldl (fun x c => Heat.put sty x c.1 c.2 (val c)) x).length = x.length := by
  induction cells generalizing x with
  | nil => rfl
  | cons c cs ih => rw [List.foldl_cons, ih, heat_put_length]

theorem foldl_put_get (sty : Nat) (val : Int × Int → TYPE) (cells : List (Int × Int))
    (x : List TYPE)
    (hin : ∀ c ∈ cells, 0 ≤ Heat.idx sty c.1 c.2 ∧ (Heat.idx sty c.1 c.2).toNat < x.length)
    (hinj : ∀ c ∈ cells, ∀ c2 ∈ cells, Heat.idx sty c.1 c.2 = Heat.idx sty c2.1 c2.2 → c = c2)
    (c0 : Int × Int) (h0 : c0 ∈ cells) :
    Heat.get sty (cells.foldl (fun x c => Heat.put sty x c.1 c.2 (val c)) x) c0.1 c0.2
      = val c0 := by
  induction cells using List.reverseRecOn with
  | nil => simp at h0
  | append_singleton cs a ih =>
    rw [List.foldl_append, List.foldl_cons, List.foldl_nil]
    by_cases hk : Heat.idx sty a.1 a.2 = Heat.idx sty c0.1 c0.2
    · have hc : a = c0 := hinj a (by simp) c0 h0 hk
      subst hc
      exact heat_get_put_same _ _ _ _ _ (hin a (by simp)).1
        (by rw [foldl_put_length]; exact (hin a (by simp)).2)
    · rw [heat_get_put_other _ _ _ _ _ _ _ hk]
      have hmem : c0 ∈ cs := by
        rcases List.mem_append.mp h0 with h | h
        · exact h
        · simp at h
          subst h
          exact absurd rfl hk
      exact ih (fun c hc => hin c (List.mem_append_left _ hc))
        (fun c hc c2 hc2 => hinj c (List.mem_append_left _ hc) c2 (List.mem_append_left _ hc2))
        hmem

theorem foldl_put_get_other (sty : Nat) (val : Int × Int → TYPE) (cells : List (Int × Int))
    (x : List TYPE) (i j : Int)
    (h : ∀ c ∈ cells, Heat.idx sty c.1 c.2 ≠ Heat.idx sty i j) :
    Heat.get sty (cells.foldl (fun x c => Heat.put sty x c.1 c.2 (val c)) x) i j
      = Heat.get sty x i j := by
  induction cells generalizing x with
  | nil => rfl
  | cons c cs ih =>
    rw [List.foldl_cons, ih _ (fun c2 hc2 => h c2 (List.mem_cons_of_mem _ hc2)),
      heat_get_put_other _ _ _ _ _ _ _ (h c (List.mem_cons_self _ _))]

theorem foldl_sweep (sty : Nat) (x1 : List TYPE) (cells : List (Int × Int))
    (hnd : cells.Nodup)
    (hinj : ∀ c ∈ cells, ∀ c2 ∈ cells, Heat.idx sty c.1 c.2 = Heat.idx sty c2.1 c2.2 → c = c2) :
    ∀ (g : List TYPE) (d : TYPE),
      cells.foldl
        (fun (acc : List TYPE × TYPE) c =>
          (Heat.put sty acc.1 c.1 c.2 (Heat.get sty x1 c.1 c.2),
            acc.2 + (Heat.get sty acc.1 c.1 c.2 - Heat.get sty x1 c.1 c.2)
              * (Heat.get sty acc.1 c.1 c.2 - Heat.get sty x1 c.1 c.2)))
        (g, d)
      = (cells.foldl (fun x c => Heat.put sty x c.1 c.2 (Heat.get sty x1 c.1 c.2)) g,
          d + (cells.map fun c => (Heat.get sty g c.1 c.2 - Heat.get sty x1 c.1 c.2)
            * (Heat.get sty g c.1 c.2 - Heat.get sty x1 c.1 c.2)).sum) := by
  induction cells with
  | nil => intro g d; simp
  | cons c cs ih =>
    intro g d
    have hnd2 := List.nodup_cons.mp hnd
    rw [List.foldl_cons, List.foldl_cons]
    rw [ih hnd2.2 (fun a ha b hb => hinj a (List.mem_cons_of_mem _ ha) b
      (List.mem_cons_of_mem _ hb))]
    congr 1
    rw [List.map_cons, List.sum_cons, add_assoc]
    congr 1
    congr 1
    apply congrArg List.sum
    apply List.map_congr_left
    intro c2 hc2
    have hne : Heat.idx sty c.1 c.2 ≠ Heat.idx sty c2.1 c2.2 := by
      intro he
      have := hinj c (List.mem_cons_self _ _) c2 (List.mem_cons_of_mem _ hc2) he
      subst this
      exact hnd2.1 hc2
    rw [heat_get_put_other _ _ _ _ _ _ _ hne]
theorem computeNext_cells (stx sty : Nat) (a x : List TYPE) (dt hx hy k0 : TYPE)
    (xs ys xe ye : Int) (ha : a.length = stx * sty) (hxl : x.length = stx * sty)
    (h1 : 0 ≤ xs) (h2 : xe < stx) (h3 : 0 ≤ ys) (h4 : ye < sty) :
    (∀ i j, xs ≤ i → i ≤ xe → ys ≤ j → j ≤ ye →
      Heat.get sty (Heat.computeNext sty a x dt hx hy xs ys xe ye k0).1 i j
        = Heat.stencil sty a dt hx hy k0 i j) ∧
    (Heat.computeNext sty a x dt hx hy xs ys xe ye k0).2.2
      = ((Heat.cells xs ys xe ye).map fun c =>
          (Heat.get sty a c.1 c.2
              - Heat.get sty (Heat.computeNext sty a x dt hx hy xs ys xe ye k0).1 c.1 c.2)
            * (Heat.get sty a c.1 c.2
              - Heat.get sty (Heat.computeNext sty a x dt hx hy xs ys xe ye k0).1 c.1 c.2)).sum := by
  have hb : ∀ c ∈ Heat.cells xs ys xe ye,
      0 ≤ c.1 ∧ c.1 < stx ∧ 0 ≤ c.2 ∧ c.2 < sty := by
    intro c hc
    obtain ⟨i, j⟩ := c
    have := (mem_cells xs ys xe ye i j).mp hc
    exact ⟨by omega, by omega, by omega, by omega⟩
  have hin : ∀ (g : List TYPE), g.length = stx * sty → ∀ c ∈ Heat.cells xs ys xe ye,
      0 ≤ Heat.idx sty c.1 c.2 ∧ (Heat.idx sty c.1 c.2).toNat < g.length := by
    intro g hg c hc
    obtain ⟨b1, b2, b3, b4⟩ := hb c hc
    rw [hg]
    exact heat_idx_bounds stx sty c.1 c.2 b1 b2 b3 b4
  have hinj : ∀ c ∈ Heat.cells xs ys xe ye, ∀ c2 ∈ Heat.cells xs ys xe ye,
      Heat.idx sty c.1 c.2 = Heat.idx sty c2.1 c2.2 → c = c2 := by
    intro c hc c2 hc2 he
    obtain ⟨_, _, b3, b4⟩ := hb c hc
    obtain ⟨_, _, d3, d4⟩ := hb c2 hc2
    obtain ⟨e1, e2⟩ := heat_idx_inj sty c.1 c.2 c2.1 c2.2 b3 b4 d3 d4 he
    exact Prod.ext e1 e2
  have hx1 : ∀ c ∈ Heat.cells xs ys xe ye,
      Heat.get sty ((Heat.cells xs ys xe ye).foldl
        (fun x c => Heat.put sty x c.1 c.2 (Heat.stencil sty a dt hx hy k0 c.1 c.2)) x) c.1 c.2
      = Heat.stencil sty a dt hx hy k0 c.1 c.2 := fun c hc =>
    foldl_put_get sty (fun c => Heat.stencil sty a dt hx hy k0 c.1 c.2) _ x (hin x hxl) hinj c hc
  have hcn : Heat.computeNext sty a x dt hx hy xs ys xe ye k0
      = ((Heat.cells xs ys xe ye).foldl
          (fun g c => Heat.put sty g c.1 c.2 (Heat.get sty ((Heat.cells xs ys xe ye).foldl
            (fun x c => Heat.put sty x c.1 c.2 (Heat.stencil sty a dt hx hy k0 c.1 c.2)) x)
            c.1 c.2)) a,
        (Heat.cells xs ys xe ye).foldl
          (fun x c => Heat.put sty x c.1 c.2 (Heat.stencil sty a dt hx hy k0 c.1 c.2)) x,
        0 + ((Heat.cells xs ys xe ye).map fun c =>
          (Heat.get sty a c.1 c.2 - Heat.get sty ((Heat.cells xs ys xe ye).foldl
            (fun x c => Heat.put sty x c.1 c.2 (Heat.stencil sty a dt hx hy k0 c.1 c.2)) x)
            c.1 c.2)
          * (Heat.get sty a c.1 c.2 - Heat.get sty ((Heat.cells xs ys xe ye).foldl
            (fun x c => Heat.put sty x c.1 c.2 (Heat.stencil sty a dt hx hy k0 c.1 c.2)) x)
            c.1 c.2)).sum) := by
    unfold Heat.computeNext
    simp only []
    rw [foldl_sweep sty _ _ (cells_nodup xs ys xe ye) hinj a 0]
  have hnew : ∀ c ∈ Heat.cells xs ys xe ye,
      Heat.get sty (Heat.computeNext sty a x dt hx hy xs ys xe ye k0).1 c.1 c.2
        = Heat.stencil sty a dt hx hy k0 c.1 c.2 := by
    intro c hc
    rw [hcn]
    simp only []
    rw [foldl_put_get sty _ _ a (hin a ha) hinj c hc]
    exact hx1 c hc
  refine ⟨fun i j g1 g2 g3 g4 => hnew (i, j) ((mem_cells xs ys xe ye i j).mpr ⟨g1, g2, g3, g4⟩),
    ?_⟩
  have hsum : (Heat.computeNext sty a x dt hx hy xs ys xe ye k0).2.2
      = ((Heat.cells xs ys xe ye).map fun c =>
          (Heat.get sty a c.1 c.2 - Heat.stencil sty a dt hx hy k0 c.1 c.2)
            * (Heat.get sty a c.1 c.2 - Heat.stencil sty a dt hx hy k0 c.1 c.2)).sum := by
    rw [hcn]
    simp only [zero_add]
    apply congrArg List.sum
    apply List.map_congr_left
    intro c hc
    rw [hx1 c hc]
  rw [hsum]
  apply congrArg List.sum
  apply List.map_congr_left
  intro c hc
  rw [hnew c hc]

/-- C23: for arrays of `size_total_x * size_total_y` cells and bounds inside
them, `computeNext` leaves in every cell `(i, j)` with `xs <= i <= xe` and
`ys <= j <= ye` the value
`wx*(a[i-1][j] + a[i+1][j] + a[i][j]*dx) + wy*(a[i][j-1] + a[i][j+1] + a[i][j]*dy)`
computed from the array `a = x0` as it was before the call, with
`dx = -2 + hx^2/(2*k*dt)`, `dy = -2 + hy^2/(2*k*dt)`, `wx = k*dt/hx^2`,
`wy = k*dt/hy^2`, and stores in `*diff` the sum over those cells (each taken
once) of the squared difference between `a[i][j]` and the new `x0[i][j]`. -/
theorem computeNext_jacobi_update (stx sty : Nat) (a x : List TYPE) (dt hx hy k0 : TYPE)
    (xs ys xe ye : Int) (ha : a.length = stx * sty) (hxl : x.length = stx * sty)
    (h1 : 0 ≤ xs) (h2 : xe < stx) (h3 : 0 ≤ ys) (h4 : ye < sty) :
    (∀ i j, xs ≤ i → i ≤ xe → ys ≤ j → j ≤ ye →
      Heat.get sty (Heat.computeNext sty a x dt hx hy xs ys xe ye k0).1 i j
        = k0 * dt / (hx * hx) * (Heat.get sty a (i - 1) j + Heat.get sty a (i + 1) j
            + Heat.get sty a i j * (-2 + hx * hx / (2 * k0 * dt)))
          + k0 * dt / (hy * hy) * (Heat.get sty a i (j - 1) + Heat.get sty a i (j + 1)
            + Heat.get sty a i j * (-2 + hy * hy / (2 * k0 * dt)))) ∧
    (Heat.computeNext sty a x dt hx hy xs ys xe ye k0).2.2
      = ((Heat.cells xs ys xe ye).map fun c =>
          (Heat.get sty a c.1 c.2
              - Heat.get sty (Heat.computeNext sty a x dt hx hy xs ys xe ye k0).1 c.1 c.2)
            * (Heat.get sty a c.1 c.2
              - Heat.get sty (Heat.computeNext sty a x dt hx hy xs ys xe ye k0).1 c.1 c.2)).sum ∧
    (∀ i j, (i, j) ∈ Heat.cells xs ys xe ye ↔ xs ≤ i ∧ i ≤ xe ∧ ys ≤ j ∧ j ≤ ye) ∧
    (Heat.cells xs ys xe ye).Nodup := by
  have h := computeNext_cells stx sty a x dt hx hy k0 xs ys xe ye ha hxl h1 h2 h3 h4
  exact ⟨fun i j g1 g2 g3 g4 => h.1 i j g1 g2 g3 g4, h.2, mem_cells xs ys xe ye,
    cells_nodup xs ys xe ye⟩

theorem computeNext_jacobi_update_witness :
    (Heat.computeNext 3 [0, 0, 0, 0, 1, 0, 0, 0, 0] (List.replicate 9 7) 1 1 1 1 1 1 1 1).2.2
      = ((Heat.cells 1 1 1 1).map fun c =>
          (Heat.get 3 [0, 0, 0, 0, 1, 0, 0, 0, 0] c.1 c.2
              - Heat.get 3 (Heat.computeNext 3 [0, 0, 0, 0, 1, 0, 0, 0, 0] (List.replicate 9 7)
                  1 1 1 1 1 1 1 1).1 c.1 c.2)
            * (Heat.get 3 [0, 0, 0, 0, 1, 0, 0, 0, 0] c.1 c.2
              - Heat.get 3 (Heat.computeNext 3 [0, 0, 0, 0, 1, 0, 0, 0, 0] (List.replicate 9 7)
                  1 1 1 1 1 1 1 1).1 c.1 c.2)).sum :=
  (computeNext_jacobi_update 3 3 [0, 0, 0, 0, 1, 0, 0, 0, 0] (List.replicate 9 7) 1 1 1 1
    1 1 1 1 (by decide) (by decide) (by decide) (by decide) (by decide) (by decide)).2.1

theorem stencil_convex (n s w e c dt hx hy k0 m M : TYPE) (hk : 0 < k0) (hdt : 0 < dt)
    (hx0 : 0 < hx) (hy0 : 0 < hy)
    (hstab : dt ≤ 1 / 4 * (Heat.min hx hy * Heat.min hx hy) / k0)
    (hm : m ≤ n ∧ m ≤ s ∧ m ≤ w ∧ m ≤ e ∧ m ≤ c)
    (hM : n ≤ M ∧ s ≤ M ∧ w ≤ M ∧ e ≤ M ∧ c ≤ M) :
    m ≤ k0 * dt / (hx * hx) * (n + s + c * (-2 + hx * hx / (2 * k0 * dt)))
        + k0 * dt / (hy * hy) * (w + e + c * (-2 + hy * hy / (2 * k0 * dt))) ∧
    k0 * dt / (hx * hx) * (n + s + c * (-2 + hx * hx / (2 * k0 * dt)))
        + k0 * dt / (hy * hy) * (w + e + c * (-2 + hy * hy / (2 * k0 * dt))) ≤ M := by
  have hkd : 0 < k0 * dt := mul_pos hk hdt
  have hxx : 0 < hx * hx := mul_pos hx0 hx0
  have hyy : 0 < hy * hy := mul_pos hy0 hy0
  have hmin0 : 0 < Heat.min hx hy := by unfold Heat.min; split_ifs <;> assumption
  have hminx : Heat.min hx hy ≤ hx := by
    unfold Heat.min; split_ifs with h
    · exact le_refl _
    · exact le_of_lt (not_le.mp h)
  have hminy : Heat.min hx hy ≤ hy := by
    unfold Heat.min; split_ifs with h
    · exact h
    · exact le_refl _
  have hkdt : k0 * dt ≤ 1 / 4 * (Heat.min hx hy * Heat.min hx hy) := by
    have := (le_div_iff₀ hk).mp hstab
    linarith
  have hmx : Heat.min hx hy * Heat.min hx hy ≤ hx * hx :=
    mul_le_mul hminx hminx (le_of_lt hmin0) (le_of_lt hx0)
  have hmy : Heat.min hx hy * Heat.min hx hy ≤ hy * hy :=
    mul_le_mul hminy hminy (le_of_lt hmin0) (le_of_lt hy0)
  have hwx0 : 0 ≤ k0 * dt / (hx * hx) := le_of_lt (div_pos hkd hxx)
  have hwy0 : 0 ≤ k0 * dt / (hy * hy) := le_of_lt (div_pos hkd hyy)
  have hwx1 : k0 * dt / (hx * hx) ≤ 1 / 4 := by
    rw [div_le_iff₀ hxx]; linarith
  have hwy1 : k0 * dt / (hy * hy) ≤ 1 / 4 := by
    rw [div_le_iff₀ hyy]; linarith
  have ex : k0 * dt / (hx * hx) * (hx * hx / (2 * k0 * dt)) = 1 / 2 := by
    field_simp
    ring
  have ey : k0 * dt / (hy * hy) * (hy * hy / (2 * k0 * dt)) = 1 / 2 := by
    field_simp
    ring
  have hval : k0 * dt / (hx * hx) * (n + s + c * (-2 + hx * hx / (2 * k0 * dt)))
        + k0 * dt / (hy * hy) * (w + e + c * (-2 + hy * hy / (2 * k0 * dt)))
      = k0 * dt / (hx * hx) * (n + s) + k0 * dt / (hy * hy) * (w + e)
        + (1 - 2 * (k0 * dt / (hx * hx)) - 2 * (k0 * dt / (hy * hy))) * c := by
    have e1 : k0 * dt / (hx * hx) * (n + s + c * (-2 + hx * hx / (2 * k0 * dt)))
        = k0 * dt / (hx * hx) * (n + s) - 2 * (k0 * dt / (hx * hx)) * c
          + c * (k0 * dt / (hx * hx) * (hx * hx / (2 * k0 * dt))) := by ring
    have e2 : k0 * dt / (hy * hy) * (w + e + c * (-2 + hy * hy / (2 * k0 * dt)))
        = k0 * dt / (hy * hy) * (w + e) - 2 * (k0 * dt / (hy * hy)) * c
          + c * (k0 * dt / (hy * hy) * (hy * hy / (2 * k0 * dt))) := by ring
    rw [e1, e2, ex, ey]
    ring
  rw [hval]
  generalize k0 * dt / (hx * hx) = wx at *
  generalize k0 * dt / (hy * hy) = wy at *
  obtain ⟨m1, m2, m3, m4, m5⟩ := hm
  obtain ⟨M1, M2, M3, M4, M5⟩ := hM
  have hc0 : 0 ≤ 1 - 2 * wx - 2 * wy := by linarith
  have p1 := mul_nonneg hwx0 (sub_nonneg.mpr m1)
  have p2 := mul_nonneg hwx0 (sub_nonneg.mpr m2)
  have p3 := mul_nonneg hwy0 (sub_nonneg.mpr m3)
  have p4 := mul_nonneg hwy0 (sub_nonneg.mpr m4)
  have p5 := mul_nonneg hc0 (sub_nonneg.mpr m5)
  have q1 := mul_nonneg hwx0 (sub_nonneg.mpr M1)
  have q2 := mul_nonneg hwx0 (sub_nonneg.mpr M2)
  have q3 := mul_nonneg hwy0 (sub_nonneg.mpr M3)
  have q4 := mul_nonneg hwy0 (sub_nonneg.mpr M4)
  have q5 := mul_nonneg hc0 (sub_nonneg.mpr M5)
  constructor
  · linarith
  · linarith

/-- C24 (what the code does): in exact arithmetic, for `k > 0`, `dt > 0`,
`hx > 0`, `hy > 0` with `dt <= (1/4)*min(hx,hy)^2/k`, every value
`computeNext` writes lies between any lower and any upper bound of the five
values of the array before the call it is computed from (the cell and its
four neighbours), hence between their minimum and their maximum. -/
theorem computeNext_maximum_principle (stx sty : Nat) (a x : List TYPE) (dt hx hy k0 : TYPE)
    (xs ys xe ye : Int) (ha : a.length = stx * sty) (hxl : x.length = stx * sty)
    (h1 : 0 ≤ xs) (h2 : xe < stx) (h3 : 0 ≤ ys) (h4 : ye < sty)
    (hk : 0 < k0) (hdt : 0 < dt) (hx0 : 0 < hx) (hy0 : 0 < hy)
    (hstab : dt ≤ 1 / 4 * (Heat.min hx hy * Heat.min hx hy) / k0) :
    ∀ i j, xs ≤ i → i ≤ xe → ys ≤ j → j ≤ ye → ∀ m M : TYPE,
      (m ≤ Heat.get sty a (i - 1) j ∧ m ≤ Heat.get sty a (i + 1) j ∧
        m ≤ Heat.get sty a i (j - 1) ∧ m ≤ Heat.get sty a i (j + 1) ∧
        m ≤ Heat.get sty a i j) →
      (Heat.get sty a (i - 1) j ≤ M ∧ Heat.get sty a (i + 1) j ≤ M ∧
        Heat.get sty a i (j - 1) ≤ M ∧ Heat.get sty a i (j + 1) ≤ M ∧
        Heat.get sty a i j ≤ M) →
      m ≤ Heat.get sty (Heat.computeNext sty a x dt hx hy xs ys xe ye k0).1 i j ∧
        Heat.get sty (Heat.computeNext sty a x dt hx hy xs ys xe ye k0).1 i j ≤ M := by
  intro i j g1 g2 g3 g4 m M hm hM
  rw [(computeNext_cells stx sty a x dt hx hy k0 xs ys xe ye ha hxl h1 h2 h3 h4).1 i j
    g1 g2 g3 g4]
  exact stencil_convex _ _ _ _ _ dt hx hy k0 m M hk hdt hx0 hy0 hstab hm hM

theorem computeNext_maximum_principle_witness :
    (0 : TYPE) ≤ Heat.get 3 (Heat.computeNext 3 [0, 0, 0, 0, 1, 0, 0, 0, 0]
        (List.replicate 9 7) (1 / 4) 1 1 1 1 1 1 1).1 1 1 ∧
      Heat.get 3 (Heat.computeNext 3 [0, 0, 0, 0, 1, 0, 0, 0, 0]
        (List.replicate 9 7) (1 / 4) 1 1 1 1 1 1 1).1 1 1 ≤ 1 :=
  computeNext_maximum_principle 3 3 [0, 0, 0, 0, 1, 0, 0, 0, 0] (List.replicate 9 7) (1 / 4)
    1 1 1 1 1 1 1 (by decide) (by decide) (by decide) (by decide) (by decide) (by decide)
    (by norm_num) (by norm_num) (by norm_num) (by norm_num)
    (by norm_num [Heat.min]) 1 1 (by decide) (by decide) (by decide) (by decide) 0 1
    (by decide) (by decide)

/-- C24 (counterexample): `hx = -2`, `hy = 1`, `k = 1`, `dt = 1` satisfy
`k > 0`, `dt > 0`, `hx, hy != 0` and `dt <= (1/4)*min(hx,hy)^2/k` (the bound
is 1). On a `3 x 3` array that is 0 except for 1 in the middle cell,
`computeNext` writes -3/2 into the middle cell, below the minimum 0 of the
five values it is computed from. -/
theorem negative_step_breaks_maximum_principle :
    (0 : TYPE) < 1 ∧ (-2 : TYPE) ≠ 0 ∧ (1 : TYPE) ≠ 0 ∧
    (1 : TYPE) ≤ 1 / 4 * (Heat.min (-2) 1 * Heat.min (-2) 1) / 1 ∧
    Heat.get 3 (Heat.computeNext 3 [0, 0, 0, 0, 1, 0, 0, 0, 0] (List.replicate 9 7) 1 (-2) 1
      1 1 1 1 1).1 1 1 = -3 / 2 ∧
    Heat.get 3 [0, 0, 0, 0, 1, 0, 0, 0, 0] 0 1 = 0 ∧
    Heat.get 3 [0, 0, 0, 0, 1, 0, 0, 0, 0] 2 1 = 0 ∧
    Heat.get 3 [0, 0, 0, 0, 1, 0, 0, 0, 0] 1 0 = 0 ∧
    Heat.get 3 [0, 0, 0, 0, 1, 0, 0, 0, 0] 1 2 = 0 ∧
    Heat.get 3 [0, 0, 0, 0, 1, 0, 0, 0, 0] 1 1 = 1 := by
  decide!

/-- C22 (counterexample): the small scenario (grid `8 x 8`, so
`hx = hy = 1/10`, process grid `1 x 2`, `temp1_init = 10`, `temp2_init = -10`,
`dt1 = 1/10`, `k = 1`, `maxSteps = 10`). The stability bound is
`dt2 = 1/400`; `main` finds `dt1 >= dt2` and keeps `dt1`. After the
first step the interior cell `x0[2][2]` of rank 0 already holds 390, and when
the loop is left it holds 21686086571855944390; the cell `x0[2][8]` of rank 1
holds 190 after the first step. With the step `1/400` the first step leaves 0
and -5 in these two cells. -/
theorem small_heat_run_leaves_range :
    (1 / 4 * (Heat.min (1 / 10) (1 / 10) * Heat.min (1 / 10) (1 / 10)) / 1 : TYPE) = 1 / 400 ∧
    Heat.time_step (1 / 10) (1 / 10) (1 / 10) 1 = 1 / 10 ∧
    (Heat.run 8 8 1 2 0 (1 / 10) 10 (-10) 1 7 1).map
        (fun r => (r.1, Heat.get 14 (r.2.getD 0 []) 2 2, Heat.get 14 (r.2.getD 1 []) 2 8))
      = some (1, 390, 190) ∧
    (Heat.run 8 8 1 2 10 (1 / 10) 10 (-10) 1 7 11).map
        (fun r => (r.1, Heat.get 14 (r.2.getD 0 []) 2 2))
      = some (11, 21686086571855944390) ∧
    (Heat.run 8 8 1 2 0 (1 / 400) 10 (-10) 1 7 1).map
        (fun r => (r.1, Heat.get 14 (r.2.getD 0 []) 2 2, Heat.get 14 (r.2.getD 1 []) 2 8))
      = some (1, 0, -5) := by
  decide!

theorem geti_set_eq (a : List Int) (k : Nat) (v : Int) (h : k < a.length) :
    Heat.geti (a.set k v) k = v := by
  simp [Heat.geti, List.getD, List.getElem?_set_self h]

theorem geti_set_ne (a : List Int) (k k2 : Nat) (v : Int) (h : k ≠ k2) :
    Heat.geti (a.set k v) k2 = Heat.geti a k2 := by
  simp [Heat.geti, List.getD, List.getElem?_set_ne h]

theorem pair_set_ok (D : Nat → Prop) (F : Nat → Int) (c : Int) (s e : List Int) (k : Nat)
    (v : Int) (h : ∀ q, D q → Heat.geti s q = F q ∧ Heat.geti e q = F q + c - 1)
    (hs : k < s.length) (he : k < e.length) (hv : v = F k) :
    ∀ q, (D q ∨ q = k) →
      Heat.geti (s.set k v) q = F q ∧
      Heat.geti (e.set k (Heat.geti (s.set k v) k + c - 1)) q = F q + c - 1 := by
  intro q hq
  by_cases hqk : q = k
  · subst hqk
    rw [geti_set_eq _ _ _ hs, geti_set_eq _ _ _ he, hv]
    exact ⟨rfl, rfl⟩
  · have hne : k ≠ q := fun h2 => hqk h2.symm
    rw [geti_set_ne _ _ _ _ hne, geti_set_ne _ _ _ _ hne]
    rcases hq with hq | hq
    · exact h q hq
    · exact absurd hq hqk

theorem y_fold (yCell : Int) (F : Nat → Int) (base : Nat) (kf : Nat → Nat)
    (val : Heat.Map → Nat → Int) (hk : ∀ j, kf j = base + j) :
    ∀ (cnt : Nat) (m : Heat.Map),
      (∀ m2 j, j < cnt →
        (∀ q, q < base + j → Heat.geti m2.ys q = F q ∧ Heat.geti m2.ye q = F q + yCell - 1) →
        val m2 j = F (base + j)) →
      base + cnt ≤ m.ys.length → base + cnt ≤ m.ye.length →
      (∀ q, q < base → Heat.geti m.ys q = F q ∧ Heat.geti m.ye q = F q + yCell - 1) →
      (∀ q, q < base + cnt →
        Heat.geti ((List.range cnt).foldl (fun m j => Heat.set_y m (kf j) (val m j) yCell)
            m).ys q = F q ∧
        Heat.geti ((List.range cnt).foldl (fun m j => Heat.set_y m (kf j) (val m j) yCell)
            m).ye q = F q + yCell - 1) ∧
      ((List.range cnt).foldl (fun m j => Heat.set_y m (kf j) (val m j) yCell) m).ys.length
        = m.ys.length ∧
      ((List.range cnt).foldl (fun m j => Heat.set_y m (kf j) (val m j) yCell) m).ye.length
        = m.ye.length ∧
      ((List.range cnt).foldl (fun m j => Heat.set_y m (kf j) (val m j) yCell) m).xs = m.xs ∧
      ((List.range cnt).foldl (fun m j => Heat.set_y m (kf j) (val m j) yCell) m).xe = m.xe := by
  intro cnt
  induction cnt with
  | zero =>
    intro m _ _ _ h0
    exact ⟨fun q hq => h0 q (by omega), rfl, rfl, rfl, rfl⟩
  | succ n ih =>
    intro m hval hl1 hl2 h0
    obtain ⟨a1, a2, a3, a4, a5⟩ := ih m (fun m2 j hj => hval m2 j (by omega)) (by omega)
      (by omega) h0
    rw [List.range_succ, List.foldl_append, List.foldl_cons, List.foldl_nil]
    generalize (List.range n).foldl (fun m j => Heat.set_y m (kf j) (val m j) yCell) m = m1
      at a1 a2 a3 a4 a5
    have hv := hval m1 n (by omega) a1
    have key := pair_set_ok (fun q => q < base + n) F yCell m1.ys m1.ye (base + n)
      (val m1 n) a1 (by omega) (by omega) hv
    refine ⟨?_, ?_, ?_, a4, a5⟩
    · intro q hq
      have := key q (by omega)
      simpa [Heat.set_y, hk] using this
    · simp [Heat.set_y, a2]
    · simp [Heat.set_y, a3]
theorem div_row (xd i j : Nat) (hj : j < xd) : (i * xd + j) / xd = i := by
  have hpos : 0 < xd := by omega
  rw [Nat.add_comm, Nat.add_mul_div_right _ _ hpos, Nat.div_eq_of_lt hj, Nat.zero_add]

theorem mod_row (xd i j : Nat) (hj : j < xd) : (i * xd + j) % xd = j := by
  rw [Nat.add_comm, Nat.add_mul_mod_self_right, Nat.mod_eq_of_lt hj]

theorem y_rows (yCell : Int) (xd : Nat) (hxd : 1 ≤ xd) :
    ∀ (cnt : Nat) (m : Heat.Map),
      (cnt + 1) * xd ≤ m.ys.length → (cnt + 1) * xd ≤ m.ye.length →
      (∀ q, q < xd → Heat.geti m.ys q = 2 + ((q / xd : Nat) : Int) * (yCell + 2) ∧
        Heat.geti m.ye q = 2 + ((q / xd : Nat) : Int) * (yCell + 2) + yCell - 1) →
      (∀ q, q < (cnt + 1) * xd →
        Heat.geti ((List.range cnt).foldl
          (fun m t => (List.range xd).foldl
            (fun m j => Heat.set_y m ((t + 1) * xd + j)
              (Heat.geti m.ys ((t + 1 - 1) * xd + j) + yCell + 2) yCell) m) m).ys q
          = 2 + ((q / xd : Nat) : Int) * (yCell + 2) ∧
        Heat.geti ((List.range cnt).foldl
          (fun m t => (List.range xd).foldl
            (fun m j => Heat.set_y m ((t + 1) * xd + j)
              (Heat.geti m.ys ((t + 1 - 1) * xd + j) + yCell + 2) yCell) m) m).ye q
          = 2 + ((q / xd : Nat) : Int) * (yCell + 2) + yCell - 1) ∧
      ((List.range cnt).foldl
          (fun m t => (List.range xd).foldl
            (fun m j => Heat.set_y m ((t + 1) * xd + j)
              (Heat.geti m.ys ((t + 1 - 1) * xd + j) + yCell + 2) yCell) m) m).ys.length
        = m.ys.length ∧
      ((List.range cnt).foldl
          (fun m t => (List.range xd).foldl
            (fun m j => Heat.set_y m ((t + 1) * xd + j)
              (Heat.geti m.ys ((t + 1 - 1) * xd + j) + yCell + 2) yCell) m) m).ye.length
        = m.ye.length ∧
      ((List.range cnt).foldl
          (fun m t => (List.range xd).foldl
            (fun m j => Heat.set_y m ((t + 1) * xd + j)
              (Heat.geti m.ys ((t + 1 - 1) * xd + j) + yCell + 2) yCell) m) m).xs = m.xs ∧
      ((List.range cnt).foldl
          (fun m t => (List.range xd).foldl
            (fun m j => Heat.set_y m ((t + 1) * xd + j)
              (Heat.geti m.ys ((t + 1 - 1) * xd + j) + yCell + 2) yCell) m) m).xe = m.xe := by
  intro cnt
  induction cnt with
  | zero =>
    intro m _ _ h0
    exact ⟨fun q hq => h0 q (by simpa using hq), rfl, rfl, rfl, rfl⟩
  | succ n ih =>
    intro m hl1 hl2 h0
    have e1 : (n + 1 + 1) * xd = (n + 1) * xd + xd := by ring
    obtain ⟨a1, a2, a3, a4, a5⟩ := ih m (by omega) (by omega) h0
    rw [List.range_succ, List.foldl_append, List.foldl_cons, List.foldl_nil]
    generalize (List.range n).foldl
      (fun m t => (List.range xd).foldl
        (fun m j => Heat.set_y m ((t + 1) * xd + j)
          (Heat.geti m.ys ((t + 1 - 1) * xd + j) + yCell + 2) yCell) m) m = m1
      at a1 a2 a3 a4 a5
    obtain ⟨b1, b2, b3, b4, b5⟩ := y_fold yCell
      (fun q => 2 + ((q / xd : Nat) : Int) * (yCell + 2)) ((n + 1) * xd)
      (fun j => (n + 1) * xd + j)
      (fun m j => Heat.geti m.ys ((n + 1 - 1) * xd + j) + yCell + 2) (fun _ => rfl) xd m1
      (by
        intro m2 j hj hq
        have e2 : (n + 1) * xd = n * xd + xd := by ring
        have h1 : Heat.geti m2.ys (n * xd + j)
            = 2 + (((n * xd + j) / xd : Nat) : Int) * (yCell + 2) :=
          (hq (n * xd + j) (by omega)).1
        show Heat.geti m2.ys ((n + 1 - 1) * xd + j) + yCell + 2
          = 2 + ((((n + 1) * xd + j) / xd : Nat) : Int) * (yCell + 2)
        rw [Nat.add_sub_cancel, h1, div_row xd n j hj, div_row xd (n + 1) j hj]
        push_cast
        ring)
      (by omega) (by omega) a1
    refine ⟨fun q hq => b1 q (by omega), by rw [b2, a2], by rw [b3, a3], by rw [b4, a4],
      by rw [b5, a5]⟩
theorem x_fold (xCell : Int) (F : Nat → Int) (D0 : Nat → Prop) (kf : Nat → Nat)
    (val : Heat.Map → Nat → Int) :
    ∀ (cnt : Nat) (m : Heat.Map),
      (∀ m2 u, u < cnt →
        (∀ q, (D0 q ∨ ∃ u2, u2 < u ∧ q = kf u2) →
          Heat.geti m2.xs q = F q ∧ Heat.geti m2.xe q = F q + xCell - 1) →
        val m2 u = F (kf u)) →
      (∀ u, u < cnt → kf u < m.xs.length ∧ kf u < m.xe.length) →
      (∀ q, D0 q → Heat.geti m.xs q = F q ∧ Heat.geti m.xe q = F q + xCell - 1) →
      (∀ q, (D0 q ∨ ∃ u2, u2 < cnt ∧ q = kf u2) →
        Heat.geti ((List.range cnt).foldl (fun m u => Heat.set_x m (kf u) (val m u) xCell)
            m).xs q = F q ∧
        Heat.geti ((List.range cnt).foldl (fun m u => Heat.set_x m (kf u) (val m u) xCell)
            m).xe q = F q + xCell - 1) ∧
      ((List.range cnt).foldl (fun m u => Heat.set_x m (kf u) (val m u) xCell) m).xs.length
        = m.xs.length ∧
      ((List.range cnt).foldl (fun m u => Heat.set_x m (kf u) (val m u) xCell) m).xe.length
        = m.xe.length ∧
      ((List.range cnt).foldl (fun m u => Heat.set_x m (kf u) (val m u) xCell) m).ys = m.ys ∧
      ((List.range cnt).foldl (fun m u => Heat.set_x m (kf u) (val m u) xCell) m).ye = m.ye := by
  intro cnt
  induction cnt with
  | zero =>
    intro m _ _ h0
    refine ⟨fun q hq => h0 q ?_, rfl, rfl, rfl, rfl⟩
    rcases hq with hq | ⟨u2, hu2, _⟩
    · exact hq
    · omega
  | succ n ih =>
    intro m hval hl h0
    obtain ⟨a1, a2, a3, a4, a5⟩ := ih m (fun m2 u hu => hval m2 u (by omega))
      (fun u hu => hl u (by omega)) h0
    rw [List.range_succ, List.foldl_append, List.foldl_cons, List.foldl_nil]
    generalize (List.range n).foldl (fun m u => Heat.set_x m (kf u) (val m u) xCell) m = m1
      at a1 a2 a3 a4 a5
    have hv := hval m1 n (by omega) a1
    have key := pair_set_ok (fun q => D0 q ∨ ∃ u2, u2 < n ∧ q = kf u2) F xCell m1.xs m1.xe
      (kf n) (val m1 n) a1 (by rw [a2]; exact (hl n (by omega)).1)
      (by rw [a3]; exact (hl n (by omega)).2) hv
    refine ⟨?_, ?_, ?_, a4, a5⟩
    · intro q hq
      have hq2 : (D0 q ∨ ∃ u2, u2 < n ∧ q = kf u2) ∨ q = kf n := by
        rcases hq with hq | ⟨u2, hu2, hq⟩
        · exact Or.inl (Or.inl hq)
        · by_cases h : u2 = n
          · subst h; exact Or.inr hq
          · exact Or.inl (Or.inr ⟨u2, by omega, hq⟩)
      have := key q hq2
      simpa [Heat.set_x] using this
    · simp [Heat.set_x, a2]
    · simp [Heat.set_x, a3]

theorem x_rows (xCell : Int) (xd yd : Nat) (hxd : 1 ≤ xd) :
    ∀ (cnt : Nat) (m : Heat.Map), cnt ≤ yd →
      yd * xd ≤ m.xs.length → yd * xd ≤ m.xe.length →
      (∀ q, (∃ i, i < yd ∧ q = i * xd) →
        Heat.geti m.xs q = 2 + ((q % xd : Nat) : Int) * (xCell + 2) ∧
        Heat.geti m.xe q = 2 + ((q % xd : Nat) : Int) * (xCell + 2) + xCell - 1) →
      (∀ q, ((∃ i, i < yd ∧ q = i * xd) ∨ q < cnt * xd) →
        Heat.geti ((List.range cnt).foldl
          (fun m t => (List.range (xd - 1)).foldl
            (fun m u => Heat.set_x m ((t + 1 - 1) * xd + (u + 1))
              (Heat.geti m.xs ((t + 1 - 1) * xd + (u + 1 - 1)) + xCell + 2) xCell) m) m).xs q
          = 2 + ((q % xd : Nat) : Int) * (xCell + 2) ∧
        Heat.geti ((List.range cnt).foldl
          (fun m t => (List.range (xd - 1)).foldl
            (fun m u => Heat.set_x m ((t + 1 - 1) * xd + (u + 1))
              (Heat.geti m.xs ((t + 1 - 1) * xd + (u + 1 - 1)) + xCell + 2) xCell) m) m).xe q
          = 2 + ((q % xd : Nat) : Int) * (xCell + 2) + xCell - 1) ∧
      ((List.range cnt).foldl
          (fun m t => (List.range (xd - 1)).foldl
            (fun m u => Heat.set_x m ((t + 1 - 1) * xd + (u + 1))
              (Heat.geti m.xs ((t + 1 - 1) * xd + (u + 1 - 1)) + xCell + 2) xCell) m) m).xs.length
        = m.xs.length ∧
      ((List.range cnt).foldl
          (fun m t => (List.range (xd - 1)).foldl
            (fun m u => Heat.set_x m ((t + 1 - 1) * xd + (u + 1))
              (Heat.geti m.xs ((t + 1 - 1) * xd + (u + 1 - 1)) + xCell + 2) xCell) m) m).xe.length
        = m.xe.length ∧
      ((List.range cnt).foldl
          (fun m t => (List.range (xd - 1)).foldl
            (fun m u => Heat.set_x m ((t + 1 - 1) * xd + (u + 1))
              (Heat.geti m.xs ((t + 1 - 1) * xd + (u + 1 - 1)) + xCell + 2) xCell) m) m).ys
        = m.ys ∧
      ((List.range cnt).foldl
          (fun m t => (List.range (xd - 1)).foldl
            (fun m u => Heat.set_x m ((t + 1 - 1) * xd + (u + 1))
              (Heat.geti m.xs ((t + 1 - 1) * xd + (u + 1 - 1)) + xCell + 2) xCell) m) m).ye
        = m.ye := by
  intro cnt
  induction cnt with
  | zero =>
    intro m _ _ _ h0
    refine ⟨fun q hq => h0 q ?_, rfl, rfl, rfl, rfl⟩
    rcases hq with hq | hq
    · exact hq
    · simp at hq
  | succ n ih =>
    intro m hc hl1 hl2 h0
    have e1 : (n + 1) * xd = n * xd + xd := by ring
    have e3 : (n + 1) * xd ≤ yd * xd := Nat.mul_le_mul_right xd hc
    obtain ⟨a1, a2, a3, a4, a5⟩ := ih m (by omega) hl1 hl2 h0
    rw [List.range_succ, List.foldl_append, List.foldl_cons, List.foldl_nil]
    generalize (List.range n).foldl
      (fun m t => (List.range (xd - 1)).foldl
        (fun m u => Heat.set_x m ((t + 1 - 1) * xd + (u + 1))
          (Heat.geti m.xs ((t + 1 - 1) * xd + (u + 1 - 1)) + xCell + 2) xCell) m) m = m1
      at a1 a2 a3 a4 a5
    obtain ⟨b1, b2, b3, b4, b5⟩ := x_fold xCell
      (fun q => 2 + ((q % xd : Nat) : Int) * (xCell + 2))
      (fun q => (∃ i, i < yd ∧ q = i * xd) ∨ q < n * xd)
      (fun u => (n + 1 - 1) * xd + (u + 1))
      (fun m u => Heat.geti m.xs ((n + 1 - 1) * xd + (u + 1 - 1)) + xCell + 2) (xd - 1) m1
      (by
        intro m2 u hu hq
        have h1 : Heat.geti m2.xs (n * xd + u)
            = 2 + (((n * xd + u) % xd : Nat) : Int) * (xCell + 2) := by
          refine (hq (n * xd + u) ?_).1
          rcases Nat.eq_zero_or_pos u with h | h
          · subst h
            exact Or.inl (Or.inl ⟨n, by omega, by simp⟩)
          · refine Or.inr ⟨u - 1, by omega, ?_⟩
            show n * xd + u = (n + 1 - 1) * xd + (u - 1 + 1)
            have e4 : u - 1 + 1 = u := by omega
            rw [e4, Nat.add_sub_cancel]
        show Heat.geti m2.xs ((n + 1 - 1) * xd + (u + 1 - 1)) + xCell + 2
          = 2 + ((((n + 1 - 1) * xd + (u + 1)) % xd : Nat) : Int) * (xCell + 2)
        rw [Nat.add_sub_cancel, Nat.add_sub_cancel, h1, mod_row xd n u (by omega),
          mod_row xd n (u + 1) (by omega)]
        push_cast
        ring)
      (by
        intro u hu
        show (n + 1 - 1) * xd + (u + 1) < m1.xs.length ∧ (n + 1 - 1) * xd + (u + 1) < m1.xe.length
        rw [Nat.add_sub_cancel, a2, a3]
        constructor <;> omega)
      a1
    refine ⟨?_, by rw [b2, a2], by rw [b3, a3], by rw [b4, a4], by rw [b5, a5]⟩
    intro q hq
    apply b1 q
    rcases hq with hq | hq
    · exact Or.inl (Or.inl hq)
    · by_cases h1 : q < n * xd
      · exact Or.inl (Or.inr h1)
      · by_cases h2 : q = n * xd
        · exact Or.inl (Or.inl ⟨n, by omega, h2⟩)
        · refine Or.inr ⟨q - n * xd - 1, by omega, ?_⟩
          show q = (n + 1 - 1) * xd + (q - n * xd - 1 + 1)
          rw [Nat.add_sub_cancel]
          omega
theorem processToMap_values (m : Heat.Map) (xCell yCell : Int) (xd yd : Nat) (hxd : 1 ≤ xd)
    (hyd : 1 ≤ yd) (l1 : xd * yd ≤ m.xs.length) (l2 : xd * yd ≤ m.ys.length)
    (l3 : xd * yd ≤ m.xe.length) (l4 : xd * yd ≤ m.ye.length) :
    ∀ q, q < yd * xd →
      Heat.geti (Heat.processToMap m xCell yCell xd yd).xs q
        = 2 + ((q % xd : Nat) : Int) * (xCell + 2) ∧
      Heat.geti (Heat.processToMap m xCell yCell xd yd).xe q
        = 2 + ((q % xd : Nat) : Int) * (xCell + 2) + xCell - 1 ∧
      Heat.geti (Heat.processToMap m xCell yCell xd yd).ys q
        = 2 + ((q / xd : Nat) : Int) * (yCell + 2) ∧
      Heat.geti (Heat.processToMap m xCell yCell xd yd).ye q
        = 2 + ((q / xd : Nat) : Int) * (yCell + 2) + yCell - 1 := by
  have ec : xd * yd = yd * xd := Nat.mul_comm _ _
  have e1 : (yd - 1 + 1) * xd = yd * xd := by
    have : yd - 1 + 1 = yd := by omega
    rw [this]
  have hxy : xd ≤ yd * xd := Nat.le_mul_of_pos_left xd (by omega)
  -- the first loop
  obtain ⟨a1, a2, a3, a4, a5⟩ := y_fold yCell
    (fun q => 2 + ((q / xd : Nat) : Int) * (yCell + 2)) 0 (fun j => j) (fun _ _ => 2)
    (fun j => (Nat.zero_add j).symm) xd m
    (by
      intro m2 j hj _
      show (2 : Int) = 2 + (((0 + j) / xd : Nat) : Int) * (yCell + 2)
      rw [Nat.zero_add, Nat.div_eq_of_lt hj]
      simp)
    (by omega) (by omega) (fun q hq => absurd hq (Nat.not_lt_zero q))
  generalize hm1 : (List.range xd).foldl (fun m j => Heat.set_y m j 2 yCell) m = m1
    at a1 a2 a3 a4 a5
  -- the second loop nest
  obtain ⟨b1, b2, b3, b4, b5⟩ := y_rows yCell xd hxd (yd - 1) m1 (by rw [e1, a2]; omega)
    (by rw [e1, a3]; omega) (fun q hq => a1 q (by omega))
  generalize hm2 : (List.range (yd - 1)).foldl
    (fun m t => (List.range xd).foldl
      (fun m j => Heat.set_y m ((t + 1) * xd + j)
        (Heat.geti m.ys ((t + 1 - 1) * xd + j) + yCell + 2) yCell) m) m1 = m2
    at b1 b2 b3 b4 b5
  -- the third loop
  obtain ⟨c1, c2, c3, c4, c5⟩ := x_fold xCell
    (fun q => 2 + ((q % xd : Nat) : Int) * (xCell + 2)) (fun _ => False)
    (fun i => i * xd) (fun _ _ => 2) yd m2
    (by
      intro m2 u _ _
      show (2 : Int) = 2 + (((u * xd) % xd : Nat) : Int) * (xCell + 2)
      rw [Nat.mul_mod_left]
      simp)
    (by
      intro u hu
      have h1 : (u + 1) * xd ≤ yd * xd := Nat.mul_le_mul_right xd hu
      have h2 : (u + 1) * xd = u * xd + xd := by ring
      show u * xd < m2.xs.length ∧ u * xd < m2.xe.length
      rw [b4, b5, a4, a5]
      constructor <;> omega)
    (fun q hq => absurd hq id)
  generalize hm3 : (List.range yd).foldl (fun m i => Heat.set_x m (i * xd) 2 xCell) m2 = m3
    at c1 c2 c3 c4 c5
  -- the fourth loop nest
  obtain ⟨d1, d2, d3, d4, d5⟩ := x_rows xCell xd yd hxd yd m3 (le_refl _)
    (by rw [c2, b4, a4]; omega) (by rw [c3, b5, a5]; omega)
    (fun q hq => c1 q (Or.inr hq))
  have hp : Heat.processToMap m xCell yCell xd yd
      = (List.range yd).foldl
          (fun m t => (List.range (xd - 1)).foldl
            (fun m u => Heat.set_x m ((t + 1 - 1) * xd + (u + 1))
              (Heat.geti m.xs ((t + 1 - 1) * xd + (u + 1 - 1)) + xCell + 2) xCell) m) m3 := by
    unfold Heat.processToMap
    simp only []
    rw [hm1, hm2, hm3]
  rw [hp]
  intro q hq
  refine ⟨(d1 q (Or.inr hq)).1, (d1 q (Or.inr hq)).2, ?_, ?_⟩
  · rw [d4, c4]; exact (b1 q (by rw [e1]; exact hq)).1
  · rw [d5, c5]; exact (b1 q (by rw [e1]; exact hq)).2

/-- C25: for `xCell, yCell >= 1` and arrays with room for
`x_domains*y_domains` ranks, `processToMap` leaves for every rank
`r = i*x_domains + j` (`i < y_domains`, `j < x_domains`):
`xs[r] = 2 + j*(xCell+2)`, `xe[r] = xs[r] + xCell - 1`,
`ys[r] = 2 + i*(yCell+2)`, `ye[r] = ys[r] + yCell - 1`. The rectangles of two
distinct ranks are disjoint, and the rectangle of `r` with its ghost ring
(`xs[r]-1 .. xe[r]+1` by `ys[r]-1 .. ye[r]+1`) lies inside the array of
`x_domains*xCell + 2*x_domains + 2` by `y_domains*yCell + 2*y_domains + 2`
cells. -/
theorem processToMap_geometry (m : Heat.Map) (xCell yCell : Int)
    (x_domains y_domains i j : Nat) (hxC : 1 ≤ xCell) (hyC : 1 ≤ yCell)
    (hi : i < y_domains) (hj : j < x_domains)
    (l1 : x_domains * y_domains ≤ m.xs.length) (l2 : x_domains * y_domains ≤ m.ys.length)
    (l3 : x_domains * y_domains ≤ m.xe.length) (l4 : x_domains * y_domains ≤ m.ye.length) :
    Heat.geti (Heat.processToMap m xCell yCell x_domains y_domains).xs (i * x_domains + j)
      = 2 + (j : Int) * (xCell + 2) ∧
    Heat.geti (Heat.processToMap m xCell yCell x_domains y_domains).xe (i * x_domains + j)
      = Heat.geti (Heat.processToMap m xCell yCell x_domains y_domains).xs
          (i * x_domains + j) + xCell - 1 ∧
    Heat.geti (Heat.processToMap m xCell yCell x_domains y_domains).ys (i * x_domains + j)
      = 2 + (i : Int) * (yCell + 2) ∧
    Heat.geti (Heat.processToMap m xCell yCell x_domains y_domains).ye (i * x_domains + j)
      = Heat.geti (Heat.processToMap m xCell yCell x_domains y_domains).ys
          (i * x_domains + j) + yCell - 1 ∧
    (∀ i2 j2 : Nat, i2 < y_domains → j2 < x_domains → (i2 ≠ i ∨ j2 ≠ j) →
      Heat.geti (Heat.processToMap m xCell yCell x_domains y_domains).xe (i * x_domains + j)
          < Heat.geti (Heat.processToMap m xCell yCell x_domains y_domains).xs
              (i2 * x_domains + j2) ∨
      Heat.geti (Heat.processToMap m xCell yCell x_domains y_domains).xe (i2 * x_domains + j2)
          < Heat.geti (Heat.processToMap m xCell yCell x_domains y_domains).xs
              (i * x_domains + j) ∨
      Heat.geti (Heat.processToMap m xCell yCell x_domains y_domains).ye (i * x_domains + j)
          < Heat.geti (Heat.processToMap m xCell yCell x_domains y_domains).ys
              (i2 * x_domains + j2) ∨
      Heat.geti (Heat.processToMap m xCell yCell x_domains y_domains).ye (i2 * x_domains + j2)
          < Heat.geti (Heat.processToMap m xCell yCell x_domains y_domains).ys
              (i * x_domains + j)) ∧
    0 ≤ Heat.geti (Heat.processToMap m xCell yCell x_domains y_domains).xs
        (i * x_domains + j) - 1 ∧
    Heat.geti (Heat.processToMap m xCell yCell x_domains y_domains).xe (i * x_domains + j) + 1
      < (x_domains : Int) * xCell + 2 * x_domains + 2 ∧
    0 ≤ Heat.geti (Heat.processToMap m xCell yCell x_domains y_domains).ys
        (i * x_domains + j) - 1 ∧
    Heat.geti (Heat.processToMap m xCell yCell x_domains y_domains).ye (i * x_domains + j) + 1
      < (y_domains : Int) * yCell + 2 * y_domains + 2 := by
  have hv := processToMap_values m xCell yCell x_domains y_domains (by omega) (by omega)
    l1 l2 l3 l4
  have hcell : ∀ i2 j2 : Nat, i2 < y_domains → j2 < x_domains →
      Heat.geti (Heat.processToMap m xCell yCell x_domains y_domains).xs (i2 * x_domains + j2)
        = 2 + (j2 : Int) * (xCell + 2) ∧
      Heat.geti (Heat.processToMap m xCell yCell x_domains y_domains).xe (i2 * x_domains + j2)
        = 2 + (j2 : Int) * (xCell + 2) + xCell - 1 ∧
      Heat.geti (Heat.processToMap m xCell yCell x_domains y_domains).ys (i2 * x_domains + j2)
        = 2 + (i2 : Int) * (yCell + 2) ∧
      Heat.geti (Heat.processToMap m xCell yCell x_domains y_domains).ye (i2 * x_domains + j2)
        = 2 + (i2 : Int) * (yCell + 2) + yCell - 1 := by
    intro i2 j2 h1 h2
    have hlt : i2 * x_domains + j2 < y_domains * x_domains := by
      have h3 : (i2 + 1) * x_domains ≤ y_domains * x_domains := Nat.mul_le_mul_right _ h1
      have h4 : (i2 + 1) * x_domains = i2 * x_domains + x_domains := by ring
      omega
    have := hv (i2 * x_domains + j2) hlt
    rw [mod_row x_domains i2 j2 h2, div_row x_domains i2 j2 h2] at this
    exact this
  have step : ∀ (a b : Nat) (c : Int), a < b → 1 ≤ c →
      (a : Int) * (c + 2) + (c + 2) ≤ (b : Int) * (c + 2) := by
    intro a b c hab hc
    have h1 : ((a : Int) + 1) * (c + 2) ≤ (b : Int) * (c + 2) :=
      mul_le_mul_of_nonneg_right (by exact_mod_cast hab) (by omega)
    have h2 : ((a : Int) + 1) * (c + 2) = (a : Int) * (c + 2) + (c + 2) := by ring
    omega
  have nonneg : ∀ (a : Nat) (c : Int), 1 ≤ c → 0 ≤ (a : Int) * (c + 2) := by
    intro a c hc
    exact mul_nonneg (by omega) (by omega)
  obtain ⟨v1, v2, v3, v4⟩ := hcell i j hi hj
  have hxs := nonneg j xCell hxC
  have hys := nonneg i yCell hyC
  have hxe := step j x_domains xCell hj hxC
  have hye := step i y_domains yCell hi hyC
  have ex : (x_domains : Int) * (xCell + 2) = (x_domains : Int) * xCell + 2 * x_domains := by
    ring
  have ey : (y_domains : Int) * (yCell + 2) = (y_domains : Int) * yCell + 2 * y_domains := by
    ring
  refine ⟨v1, by rw [v2, v1], v3, by rw [v4, v3], ?_, by rw [v1]; omega, by rw [v2]; omega,
    by rw [v3]; omega, by rw [v4]; omega⟩
  intro i2 j2 h1 h2 hne
  obtain ⟨w1, w2, w3, w4⟩ := hcell i2 j2 h1 h2
  rw [v1, v2, v3, v4, w1, w2, w3, w4]
  rcases hne with hne | hne
  · rcases Nat.lt_or_gt_of_ne hne with h | h
    · have := step i2 i yCell h hyC
      right; right; right; omega
    · have := step i i2 yCell h hyC
      right; right; left; omega
  · rcases Nat.lt_or_gt_of_ne hne with h | h
    · have := step j2 j xCell h hxC
      right; left; omega
    · have := step j j2 xCell h hxC
      left; omega

theorem processToMap_geometry_witness :
    Heat.geti (Heat.processToMap
        ⟨List.replicate 6 0, List.replicate 6 0, List.replicate 6 0, List.replicate 6 0⟩
        3 5 2 3).xs (2 * 2 + 1) = 2 + ((1 : Nat) : Int) * (3 + 2) :=
  (processToMap_geometry
    ⟨List.replicate 6 0, List.replicate 6 0, List.replicate 6 0, List.replicate 6 0⟩
    3 5 2 3 2 1 (by decide) (by decide) (by decide) (by decide) (by decide) (by decide)
    (by decide) (by decide)).1

theorem cell_rc (NB r c : Nat) (hc : c < NB + 2) :
    tile_row NB (r * (NB + 2) + c) = r ∧ tile_col NB (r * (NB + 2) + c) = c :=
  ⟨div_row (NB + 2) r c hc, mod_row (NB + 2) r c hc⟩

theorem cell_in_tile (NB MB r c : Nat) (hr : r ≤ MB + 1) (hc : c < NB + 2) :
    r * (NB + 2) + c < (NB + 2) * (MB + 2) := by
  have h1 : (r + 1) * (NB + 2) ≤ (MB + 2) * (NB + 2) := Nat.mul_le_mul_right _ (by omega)
  have h2 : (r + 1) * (NB + 2) = r * (NB + 2) + (NB + 2) := by ring
  have h3 : (NB + 2) * (MB + 2) = (MB + 2) * (NB + 2) := Nat.mul_comm _ _
  omega

theorem halo_written_cases (NB MB k : Nat) (hk : k ∈ halo_written NB MB) :
    ∃ r c, k = r * (NB + 2) + c ∧ c < NB + 2 ∧ r ≤ MB + 1 ∧
      (((r = 0 ∨ r = MB + 1) ∧ 1 ≤ c ∧ c ≤ NB) ∨ ((c = 0 ∨ c = NB + 1) ∧ 1 ≤ r ∧ r ≤ MB)) := by
  unfold halo_written RECV_NORTH RECV_SOUTH at hk
  simp only [List.mem_append, List.mem_map, List.mem_range, List.mem_flatMap, List.mem_cons,
    List.mem_singleton, List.not_mem_nil, or_false] at hk
  rcases hk with (⟨t, ht, rfl⟩ | ⟨t, ht, rfl⟩) | ⟨i, hi, rfl | rfl⟩
  · exact ⟨0, 1 + t, by ring, by omega, by omega, Or.inl ⟨Or.inl rfl, by omega, by omega⟩⟩
  · exact ⟨MB + 1, 1 + t, by ring, by omega, by omega, Or.inl ⟨Or.inr rfl, by omega, by omega⟩⟩
  · exact ⟨i + 1, 0, by ring, by omega, by omega, Or.inr ⟨Or.inl rfl, by omega, by omega⟩⟩
  · exact ⟨i + 1, NB + 1, by ring, by omega, by omega, Or.inr ⟨Or.inr rfl, by omega, by omega⟩⟩

theorem halo_read_cases (NB MB k : Nat) (hNB : 1 ≤ NB) (hMB : 1 ≤ MB)
    (hk : k ∈ halo_read NB MB) :
    ∃ r c, k = r * (NB + 2) + c ∧ 1 ≤ r ∧ r ≤ MB ∧ 1 ≤ c ∧ c ≤ NB := by
  unfold halo_read SEND_NORTH SEND_SOUTH at hk
  simp only [List.mem_append, List.mem_map, List.mem_range, List.mem_flatMap, List.mem_cons,
    List.mem_singleton, List.not_mem_nil, or_false] at hk
  rcases hk with (⟨t, ht, rfl⟩ | ⟨t, ht, rfl⟩) | ⟨i, hi, rfl | rfl⟩
  · exact ⟨1, 1 + t, by ring, by omega, by omega, by omega, by omega⟩
  · exact ⟨MB, 1 + t, by ring, by omega, by omega, by omega, by omega⟩
  · exact ⟨i + 1, 1, by ring, by omega, by omega, by omega, by omega⟩
  · exact ⟨i + 1, NB, by ring, by omega, by omega, by omega, by omega⟩

theorem halo_rank_frame (NB MB P : Nat) (w : List RankState) (r k : Nat)
    (hs : (at_rank w r).old_matrix.length = (NB + 2) * (MB + 2))
    (hk : k ∉ halo_written NB MB) :
    rd (halo_rank NB MB P w r).old_matrix k = rd (at_rank w r).old_matrix k := by
  have hk1 : ∀ t, t < NB → k ≠ RECV_NORTH NB + t := by
    intro t ht he
    apply hk
    unfold halo_written
    simp only [List.mem_append, List.mem_map, List.mem_range]
    exact Or.inl (Or.inl ⟨t, ht, he.symm⟩)
  have hk2 : ∀ t, t < NB → k ≠ RECV_SOUTH NB MB + t := by
    intro t ht he
    apply hk
    unfold halo_written
    simp only [List.mem_append, List.mem_map, List.mem_range]
    exact Or.inl (Or.inr ⟨t, ht, he.symm⟩)
  have hk3 : ∀ i, i < MB → k ≠ (i + 1) * (NB + 2) ∧ k ≠ (i + 1) * (NB + 2) + NB + 1 := by
    intro i hi
    constructor <;>
    · intro he
      apply hk
      unfold halo_written
      simp only [List.mem_append, List.mem_flatMap, List.mem_range, List.mem_cons,
        List.mem_singleton]
      exact Or.inr ⟨i, hi, by simp [he]⟩
  have e1 : (NB + 2) * (MB + 2) = (NB + 2) * (MB + 1) + (NB + 2) := by ring
  have hout : ∀ (buf msg : List TYPE) (off : Nat), off ≤ buf.length → msg.length ≤ NB →
      (∀ t, t < NB → k ≠ off + t) → rd (deliver buf off msg) k = rd buf k := by
    intro buf msg off h1 h2 h3
    apply rd_deliver_outside _ _ _ _ h1
    by_contra hc
    push_neg at hc
    exact h3 (k - off) (by omega) (by omega)
  have hn : ∀ (msg : List TYPE), msg.length ≤ NB →
      (deliver (at_rank w r).old_matrix (RECV_NORTH NB) msg).length = (NB + 2) * (MB + 2) := by
    intro msg hmsg
    rw [deliver_length _ _ _ (by unfold RECV_NORTH; omega), hs]
  unfold halo_rank
  simp only []
  rw [unpack_rd_inner NB _ _ _ k MB hk3]
  split_ifs
  · rw [hout _ _ _ (by rw [hn _ (payload_length_le _ _ _)]; unfold RECV_SOUTH; omega)
      (payload_length_le _ _ _) hk2]
    exact hout _ _ _ (by rw [hs]; unfold RECV_NORTH; omega) (payload_length_le _ _ _) hk1
  · exact hout _ _ _ (by rw [hs]; unfold RECV_SOUTH; omega) (payload_length_le _ _ _) hk2
  · exact hout _ _ _ (by rw [hs]; unfold RECV_NORTH; omega) (payload_length_le _ _ _) hk1
  · rfl
theorem payload_as_reads (buf : List TYPE) (off count : Nat) (h : off + count ≤ buf.length) :
    payload buf off count = (List.range count).map fun t => rd buf (off + t) := by
  apply List.ext_getElem
  · simp [payload]; omega
  · intro n h1 h2
    have hn : n < count := by simpa using h2
    have hb : off + n < buf.length := by omega
    simp [payload, rd, List.getD, List.getElem?_eq_getElem hb]

theorem interior_not_written (NB MB k : Nat) (hk : interior_cell NB MB k) :
    k ∉ halo_written NB MB := by
  intro hw
  obtain ⟨r, c, rfl, hc, -, hg⟩ := halo_written_cases NB MB k hw
  obtain ⟨h1, h2, h3, h4⟩ := hk
  rw [(cell_rc NB r c hc).1] at h1 h2
  rw [(cell_rc NB r c hc).2] at h3 h4
  omega

/-- C27: for `NB, MB >= 1` every index of `old_matrix` a halo round can assign
(the receives at `RECV_NORTH` and `RECV_SOUTH` and the unpacking loop) lies in
`[0, (NB+2)*(MB+2))` and is a cell of the ghost ring other than a corner;
every index read for the sends and by the packing loop is an interior cell
(and the messages are the values at these indices); a cell outside the
assigned indices keeps its value in the round, so every interior cell of
`old_matrix` is unchanged. -/
theorem halo_round_writes_ghost_cells (NB MB P : Nat) (hNB : 1 ≤ NB) (hMB : 1 ≤ MB) :
    (∀ k, k ∈ halo_written NB MB → k < (NB + 2) * (MB + 2) ∧ ghost_cell NB MB k) ∧
    (∀ k, k ∈ halo_read NB MB → interior_cell NB MB k) ∧
    (∀ om : List TYPE, om.length = (NB + 2) * (MB + 2) →
      payload om (SEND_NORTH NB) NB = (List.range NB).map (fun t => rd om (SEND_NORTH NB + t)) ∧
      payload om (SEND_SOUTH NB MB) NB
        = (List.range NB).map (fun t => rd om (SEND_SOUTH NB MB + t)) ∧
      pack_west NB MB om = (List.range MB).map (fun i => rd om ((i + 1) * (NB + 2) + 1)) ∧
      pack_east NB MB om = (List.range MB).map (fun i => rd om ((i + 1) * (NB + 2) + NB + 0))) ∧
    (∀ (w : List RankState) (r k : Nat), r < w.length →
      (at_rank w r).old_matrix.length = (NB + 2) * (MB + 2) → k ∉ halo_written NB MB →
      rd (at_rank (halo_round NB MB P w) r).old_matrix k = rd (at_rank w r).old_matrix k) ∧
    (∀ (w : List RankState) (r k : Nat), r < w.length →
      (at_rank w r).old_matrix.length = (NB + 2) * (MB + 2) → interior_cell NB MB k →
      rd (at_rank (halo_round NB MB P w) r).old_matrix k = rd (at_rank w r).old_matrix k) := by
  have frame : ∀ (w : List RankState) (r k : Nat), r < w.length →
      (at_rank w r).old_matrix.length = (NB + 2) * (MB + 2) → k ∉ halo_written NB MB →
      rd (at_rank (halo_round NB MB P w) r).old_matrix k = rd (at_rank w r).old_matrix k := by
    intro w r k hr hs hk
    unfold halo_round
    rw [at_rank_map_range _ _ _ hr]
    exact halo_rank_frame NB MB P w r k hs hk
  refine ⟨?_, ?_, ?_, frame, ?_⟩
  · intro k hk
    obtain ⟨r, c, rfl, hc, hr, hg⟩ := halo_written_cases NB MB k hk
    refine ⟨cell_in_tile NB MB r c hr hc, ?_⟩
    unfold ghost_cell
    rw [(cell_rc NB r c hc).1, (cell_rc NB r c hc).2]
    exact hg
  · intro k hk
    obtain ⟨r, c, rfl, h1, h2, h3, h4⟩ := halo_read_cases NB MB k hNB hMB hk
    unfold interior_cell
    rw [(cell_rc NB r c (by omega)).1, (cell_rc NB r c (by omega)).2]
    exact ⟨h1, h2, h3, h4⟩
  · intro om hom
    have e1 : (NB + 2) * (MB + 2) = (NB + 2) * MB + (NB + 2) + (NB + 2) := by ring
    have e2 : (NB + 2) * 1 = NB + 2 := by ring
    have e3 : NB + 2 ≤ (NB + 2) * MB := Nat.le_mul_of_pos_right _ (by omega)
    refine ⟨payload_as_reads _ _ _ (by unfold SEND_NORTH; omega),
      payload_as_reads _ _ _ (by unfold SEND_SOUTH; omega), rfl, rfl⟩
  · intro w r k hr hs hk
    exact frame w r k hr hs (interior_not_written NB MB k hk)

theorem halo_round_writes_ghost_cells_witness :
    (1 ≤ 1 ∧ 1 ≤ 1 ∧ 3 ∈ halo_written 1 1) ∧ 3 < (1 + 2) * (1 + 2) ∧ ghost_cell 1 1 3 :=
  ⟨⟨by decide, by decide, by decide⟩,
    (halo_round_writes_ghost_cells 1 1 2 (by decide) (by decide)).1 3 (by decide)⟩

theorem agree_set (S : Nat → Prop) (l1 l2 : List TYPE) (p : Nat) (v : TYPE)
    (hl : l1.length = l2.length) (h : ∀ k, S k → rd l1 k = rd l2 k) :
    (l1.set p v).length = (l2.set p v).length ∧
    ∀ k, (S k ∨ k = p) → rd (l1.set p v) k = rd (l2.set p v) k := by
  refine ⟨by simp [hl], ?_⟩
  intro k hk
  by_cases hp : p < l1.length
  · by_cases hkp : k = p
    · subst hkp
      rw [rd_set_eq _ _ _ hp, rd_set_eq _ _ _ (hl ▸ hp)]
    · rw [rd_set_ne _ _ _ _ (Ne.symm hkp), rd_set_ne _ _ _ _ (Ne.symm hkp)]
      rcases hk with hk | hk
      · exact h k hk
      · exact absurd hk hkp
  · have h1 : l1.set p v = l1 := List.set_eq_of_length_le (by omega)
    have h2 : l2.set p v = l2 := List.set_eq_of_length_le (by omega)
    rw [h1, h2]
    rcases hk with hk | hk
    · exact h k hk
    · subst hk
      simp [rd, List.getD, List.getElem?_eq_none (Nat.le_of_not_lt hp),
        List.getElem?_eq_none (hl ▸ Nat.le_of_not_lt hp)]

theorem agree_fold (f g : Nat → Nat) (v u : Nat → TYPE) (L : List Nat) :
    ∀ (S : Nat → Prop) (l1 l2 : List TYPE), l1.length = l2.length →
      (∀ k, S k → rd l1 k = rd l2 k) →
      (L.foldl (fun m i => (m.set (f i) (v i)).set (g i) (u i)) l1).length
        = (L.foldl (fun m i => (m.set (f i) (v i)).set (g i) (u i)) l2).length ∧
      ∀ k, (S k ∨ ∃ i, i ∈ L ∧ (k = f i ∨ k = g i)) →
        rd (L.foldl (fun m i => (m.set (f i) (v i)).set (g i) (u i)) l1) k
          = rd (L.foldl (fun m i => (m.set (f i) (v i)).set (g i) (u i)) l2) k := by
  induction L with
  | nil =>
    intro S l1 l2 hl h
    refine ⟨hl, ?_⟩
    intro k hk
    rcases hk with hk | ⟨i, hi, -⟩
    · exact h k hk
    · exact absurd hi (List.not_mem_nil i)
  | cons a L ih =>
    intro S l1 l2 hl h
    have s1 := agree_set S l1 l2 (f a) (v a) hl h
    have s2 := agree_set (fun k => S k ∨ k = f a) _ _ (g a) (u a) s1.1 s1.2
    have s3 := ih (fun k => (S k ∨ k = f a) ∨ k = g a) _ _ s2.1 s2.2
    simp only [List.foldl_cons]
    refine ⟨s3.1, ?_⟩
    intro k hk
    apply s3.2
    rcases hk with hk | ⟨i, hi, hk⟩
    · exact Or.inl (Or.inl (Or.inl hk))
    · rcases List.mem_cons.mp hi with rfl | hi
      · rcases hk with hk | hk
        · exact Or.inl (Or.inl (Or.inr hk))
        · exact Or.inl (Or.inr hk)
      · exact Or.inr ⟨i, hi, hk⟩

theorem cell_split (NB k : Nat) : k = tile_row NB k * (NB + 2) + tile_col NB k := by
  unfold tile_row tile_col
  have := Nat.div_add_mod k (NB + 2)
  rw [Nat.mul_comm] at this
  exact this.symm

theorem replicate_ghosts_agree (NB MB : Nat) (om nm1 nm2 : List TYPE)
    (hl : nm1.length = nm2.length) :
    (replicate_ghosts NB MB nm1 om).length = (replicate_ghosts NB MB nm2 om).length ∧
    ∀ k, ghost_cell NB MB k →
      rd (replicate_ghosts NB MB nm1 om) k = rd (replicate_ghosts NB MB nm2 om) k := by
  have a1 := agree_fold (fun i => (i + 1) * (NB + 2)) (fun i => (i + 1) * (NB + 2) + NB + 1)
    (fun i => rd om ((i + 1) * (NB + 2))) (fun i => rd om ((i + 1) * (NB + 2) + NB + 1))
    (List.range MB) (fun _ => False) nm1 nm2 hl (fun k hk => absurd hk id)
  have a2 := agree_fold (fun i => i + 1) (fun i => (NB + 2) * (MB + 1) + i + 1)
    (fun i => rd om (i + 1)) (fun i => rd om ((NB + 2) * (MB + 1) + i + 1))
    (List.range NB) _ _ _ a1.1 a1.2
  unfold replicate_ghosts
  refine ⟨a2.1, ?_⟩
  intro k hk
  apply a2.2
  have hsplit := cell_split NB k
  unfold ghost_cell at hk
  generalize tile_row NB k = r at hk hsplit
  generalize tile_col NB k = c at hk hsplit
  rcases hk with ⟨hr | hr, h1, h2⟩ | ⟨hc | hc, h1, h2⟩
  · right
    refine ⟨c - 1, List.mem_range.mpr (by omega), Or.inl ?_⟩
    subst hr
    show k = c - 1 + 1
    omega
  · right
    refine ⟨c - 1, List.mem_range.mpr (by omega), Or.inr ?_⟩
    subst hr
    show k = (NB + 2) * (MB + 1) + (c - 1) + 1
    have : (MB + 1) * (NB + 2) = (NB + 2) * (MB + 1) := Nat.mul_comm _ _
    omega
  · left; right
    refine ⟨r - 1, List.mem_range.mpr (by omega), Or.inl ?_⟩
    subst hc
    show k = (r - 1 + 1) * (NB + 2)
    have : r - 1 + 1 = r := by omega
    rw [this]
    omega
  · left; right
    refine ⟨r - 1, List.mem_range.mpr (by omega), Or.inr ?_⟩
    subst hc
    show k = (r - 1 + 1) * (NB + 2) + NB + 1
    have : r - 1 + 1 = r := by omega
    rw [this]
    omega
theorem sor_cell_agree (NB MB j i : Nat) (hj : j < MB) (hi : i < NB) (om : List TYPE)
    (a1 a2 : List TYPE × TYPE) (hl : a1.1.length = a2.1.length) (hn : a1.2 = a2.2)
    (h : ∀ k, settled NB MB j i k → rd a1.1 k = rd a2.1 k) :
    (SOR1_cell om NB j a1 i).1.length = (SOR1_cell om NB j a2 i).1.length ∧
    (SOR1_cell om NB j a1 i).2 = (SOR1_cell om NB j a2 i).2 ∧
    ∀ k, settled NB MB j (i + 1) k →
      rd (SOR1_cell om NB j a1 i).1 k = rd (SOR1_cell om NB j a2 i).1 k := by
  have e0 : (j + 1) * (NB + 2) = j * (NB + 2) + (NB + 2) := by ring
  have e1 : 1 + i + (j + 1) * (NB + 2) - 1 = (j + 1) * (NB + 2) + i := by omega
  have e2 : 1 + i + (j + 1) * (NB + 2) - (NB + 2) = j * (NB + 2) + (i + 1) := by omega
  have e3 : 1 + i + (j + 1) * (NB + 2) = (j + 1) * (NB + 2) + (i + 1) := by omega
  have hA : settled NB MB j i ((j + 1) * (NB + 2) + i) := by
    unfold settled ghost_cell interior_cell
    rw [(cell_rc NB (j + 1) i (by omega)).1, (cell_rc NB (j + 1) i (by omega)).2]
    omega
  have hB : settled NB MB j i (j * (NB + 2) + (i + 1)) := by
    unfold settled ghost_cell interior_cell
    rw [(cell_rc NB j (i + 1) (by omega)).1, (cell_rc NB j (i + 1) (by omega)).2]
    omega
  have hv1 := h _ hA
  have hv2 := h _ hB
  unfold SOR1_cell
  simp only []
  rw [e1, e2, hv1, hv2, hn]
  have s := agree_set (settled NB MB j i) a1.1 a2.1 (1 + i + (j + 1) * (NB + 2))
    ((1 - 2 / (1 + M_PI / (NB : TYPE))) * rd om (1 + i + (j + 1) * (NB + 2)) +
      2 / (1 + M_PI / (NB : TYPE)) / 4 *
        (rd a2.1 ((j + 1) * (NB + 2) + i) + rd om (1 + i + (j + 1) * (NB + 2) + 1) +
          rd a2.1 (j * (NB + 2) + (i + 1)) + rd om (1 + i + (j + 1) * (NB + 2) + (NB + 2))))
    hl h
  refine ⟨s.1, rfl, ?_⟩
  intro k hk
  apply s.2
  have hsplit := cell_split NB k
  unfold settled at hk ⊢
  unfold ghost_cell interior_cell at hk ⊢
  by_cases hpos : tile_row NB k = j + 1 ∧ tile_col NB k = i + 1
  · right
    rw [hpos.1, hpos.2] at hsplit
    omega
  · left
    omega
theorem sor_row_agree (NB MB j : Nat) (hj : j < MB) (om : List TYPE) (n : Nat) :
    n ≤ NB → ∀ (a1 a2 : List TYPE × TYPE), a1.1.length = a2.1.length → a1.2 = a2.2 →
      (∀ k, settled NB MB j 0 k → rd a1.1 k = rd a2.1 k) →
      ((List.range n).foldl (SOR1_cell om NB j) a1).1.length
        = ((List.range n).foldl (SOR1_cell om NB j) a2).1.length ∧
      ((List.range n).foldl (SOR1_cell om NB j) a1).2
        = ((List.range n).foldl (SOR1_cell om NB j) a2).2 ∧
      ∀ k, settled NB MB j n k →
        rd ((List.range n).foldl (SOR1_cell om NB j) a1).1 k
          = rd ((List.range n).foldl (SOR1_cell om NB j) a2).1 k := by
  induction n with
  | zero =>
    intro _ a1 a2 hl hn h
    exact ⟨hl, hn, h⟩
  | succ n ih =>
    intro hle a1 a2 hl hn h
    obtain ⟨i1, i2, i3⟩ := ih (by omega) a1 a2 hl hn h
    rw [List.range_succ, List.foldl_append, List.foldl_append]
    exact sor_cell_agree NB MB j n hj (by omega) om _ _ i1 i2 i3

theorem settled_next_row (NB MB j k : Nat) (h : settled NB MB (j + 1) 0 k) :
    settled NB MB j NB k := by
  unfold settled at h ⊢
  unfold ghost_cell interior_cell at h ⊢
  omega

theorem sor_sweep_agree (NB MB : Nat) (om : List TYPE) (m : Nat) :
    m ≤ MB → ∀ (a1 a2 : List TYPE × TYPE), a1.1.length = a2.1.length → a1.2 = a2.2 →
      (∀ k, settled NB MB 0 0 k → rd a1.1 k = rd a2.1 k) →
      ((List.range m).foldl (fun acc j => (List.range NB).foldl (SOR1_cell om NB j) acc)
          a1).1.length
        = ((List.range m).foldl (fun acc j => (List.range NB).foldl (SOR1_cell om NB j) acc)
          a2).1.length ∧
      ((List.range m).foldl (fun acc j => (List.range NB).foldl (SOR1_cell om NB j) acc) a1).2
        = ((List.range m).foldl (fun acc j => (List.range NB).foldl (SOR1_cell om NB j) acc)
          a2).2 ∧
      ∀ k, settled NB MB m 0 k →
        rd ((List.range m).foldl (fun acc j => (List.range NB).foldl (SOR1_cell om NB j) acc)
            a1).1 k
          = rd ((List.range m).foldl
            (fun acc j => (List.range NB).foldl (SOR1_cell om NB j) acc) a2).1 k := by
  induction m with
  | zero =>
    intro _ a1 a2 hl hn h
    exact ⟨hl, hn, h⟩
  | succ m ih =>
    intro hle a1 a2 hl hn h
    obtain ⟨i1, i2, i3⟩ := ih (by omega) a1 a2 hl hn h
    rw [List.range_succ, List.foldl_append, List.foldl_append]
    simp only [List.foldl_cons, List.foldl_nil]
    obtain ⟨r1, r2, r3⟩ := sor_row_agree NB MB m (by omega) om NB (le_refl _) _ _ i1 i2 i3
    exact ⟨r1, r2, fun k hk => r3 k (settled_next_row NB MB m k hk)⟩

theorem sor_agree (NB MB : Nat) (om nm1 nm2 : List TYPE) (hl : nm1.length = nm2.length) :
    (SOR1 (replicate_ghosts NB MB nm1 om) om NB MB).2
      = (SOR1 (replicate_ghosts NB MB nm2 om) om NB MB).2 ∧
    ∀ k, interior_cell NB MB k →
      rd (SOR1 (replicate_ghosts NB MB nm1 om) om NB MB).1 k
        = rd (SOR1 (replicate_ghosts NB MB nm2 om) om NB MB).1 k := by
  obtain ⟨g1, g2⟩ := replicate_ghosts_agree NB MB om nm1 nm2 hl
  have start : ∀ k, settled NB MB 0 0 k →
      rd (replicate_ghosts NB MB nm1 om) k = rd (replicate_ghosts NB MB nm2 om) k := by
    intro k hk
    apply g2
    unfold settled at hk
    unfold interior_cell at hk
    unfold ghost_cell at hk ⊢
    omega
  obtain ⟨-, s2, s3⟩ := sor_sweep_agree NB MB om MB (le_refl _)
    (replicate_ghosts NB MB nm1 om, 0) (replicate_ghosts NB MB nm2 om, 0) g1 rfl start
  unfold SOR1
  refine ⟨s2, ?_⟩
  intro k hk
  apply s3
  unfold settled
  unfold interior_cell at hk ⊢
  omega

/-- C29: the ghost replication under `do_sor` followed by
`SOR1(new_matrix, old_matrix, NB, MB)` gives a norm and interior values of
`new_matrix` that depend on `old_matrix` only: two contents of `new_matrix`
of the size of the tile give the same returned norm and the same value in
every interior cell, and so do two processes that enter `do_sor` with the
same `old_matrix`. -/
theorem sor_pass_ignores_new_matrix (NB MB : Nat) (om nm1 nm2 : List TYPE)
    (h1 : nm1.length = (NB + 2) * (MB + 2)) (h2 : nm2.length = (NB + 2) * (MB + 2)) :
    (SOR1 (replicate_ghosts NB MB nm1 om) om NB MB).2
      = (SOR1 (replicate_ghosts NB MB nm2 om) om NB MB).2 ∧
    (∀ k, interior_cell NB MB k →
      rd (SOR1 (replicate_ghosts NB MB nm1 om) om NB MB).1 k
        = rd (SOR1 (replicate_ghosts NB MB nm2 om) om NB MB).1 k) ∧
    (∀ me1 me2 : RankState, me1.old_matrix = om → me2.old_matrix = om →
      me1.new_matrix = nm1 → me2.new_matrix = nm2 →
      (do_sor NB MB me1).2 = (do_sor NB MB me2).2 ∧
      ∀ k, interior_cell NB MB k →
        rd (do_sor NB MB me1).1.old_matrix k = rd (do_sor NB MB me2).1.old_matrix k) := by
  have hs := sor_agree NB MB om nm1 nm2 (by rw [h1, h2])
  refine ⟨hs.1, hs.2, ?_⟩
  intro me1 me2 o1 o2 n1 n2
  unfold do_sor
  simp only []
  rw [o1, o2, n1, n2]
  exact hs

theorem sor_pass_ignores_new_matrix_witness :
    (SOR1 (replicate_ghosts 1 1 [0, 0, 0, 0, 0, 0, 0, 0, 0] [1, 2, 3, 4, 5, 6, 7, 8, 9])
        [1, 2, 3, 4, 5, 6, 7, 8, 9] 1 1).2
      = (SOR1 (replicate_ghosts 1 1 [9, 8, 7, 6, 5, 4, 3, 2, 1] [1, 2, 3, 4, 5, 6, 7, 8, 9])
        [1, 2, 3, 4, 5, 6, 7, 8, 9] 1 1).2 :=
  (sor_pass_ignores_new_matrix 1 1 [1, 2, 3, 4, 5, 6, 7, 8, 9] [0, 0, 0, 0, 0, 0, 0, 0, 0]
    [9, 8, 7, 6, 5, 4, 3, 2, 1] (by decide) (by decide)).1

theorem foldl_inv {σ β : Type} (P : σ → Prop) (step : σ → β → σ)
    (hstep : ∀ s b, P s → P (step s b)) (L : List β) :
    ∀ s, P s → P (L.foldl step s) := by
  induction L with
  | nil => intro s hs; exact hs
  | cons b L ih => intro s hs; exact ih _ (hstep s b hs)

theorem rd_bounded (lo hi : TYPE) (x : List TYPE) (k : Nat) (h0 : lo ≤ 0) (h1 : 0 ≤ hi)
    (hx : ∀ v ∈ x, lo ≤ v ∧ v ≤ hi) : lo ≤ rd x k ∧ rd x k ≤ hi := by
  unfold rd
  by_cases hk : k < x.length
  · rw [List.getD_eq_getElem _ _ hk]
    exact hx _ (List.getElem_mem hk)
  · rw [List.getD_eq_default _ _ (by omega)]
    exact ⟨h0, h1⟩

theorem get_bounded (lo hi : TYPE) (sty : Nat) (x : List TYPE) (i j : Int)
    (h0 : lo ≤ 0) (h1 : 0 ≤ hi) (hx : ∀ v ∈ x, lo ≤ v ∧ v ≤ hi) :
    lo ≤ Heat.get sty x i j ∧ Heat.get sty x i j ≤ hi := by
  unfold Heat.get
  split_ifs
  · exact ⟨h0, h1⟩
  · exact rd_bounded lo hi x _ h0 h1 hx

theorem put_within (n : Nat) (lo hi : TYPE) (sty : Nat) (x : List TYPE) (i j : Int) (u : TYPE)
    (hu : lo ≤ u ∧ u ≤ hi) (hx : Heat.within n lo hi x) :
    Heat.within n lo hi (Heat.put sty x i j u) := by
  refine ⟨by rw [heat_put_length]; exact hx.1, ?_⟩
  intro v hv
  unfold Heat.put at hv
  split_ifs at hv
  · exact hx.2 v hv
  · rcases List.mem_or_eq_of_mem_set hv with h | h
    · exact hx.2 v h
    · rw [h]; exact hu

theorem stencil_bounded (lo hi : TYPE) (sty : Nat) (x0 : List TYPE)
    (dt hx hy k0 : TYPE) (i j : Int) (h0 : lo ≤ 0) (h1 : 0 ≤ hi)
    (hk : 0 < k0) (hdt : 0 < dt) (hx0 : 0 < hx) (hy0 : 0 < hy)
    (hstab : dt ≤ 1 / 4 * (Heat.min hx hy * Heat.min hx hy) / k0)
    (hw : ∀ v ∈ x0, lo ≤ v ∧ v ≤ hi) :
    lo ≤ Heat.stencil sty x0 dt hx hy k0 i j ∧ Heat.stencil sty x0 dt hx hy k0 i j ≤ hi := by
  have g := fun a b => get_bounded lo hi sty x0 a b h0 h1 hw
  unfold Heat.stencil
  exact stencil_convex _ _ _ _ _ dt hx hy k0 lo hi hk hdt hx0 hy0 hstab
    ⟨(g _ _).1, (g _ _).1, (g _ _).1, (g _ _).1, (g _ _).1⟩
    ⟨(g _ _).2, (g _ _).2, (g _ _).2, (g _ _).2, (g _ _).2⟩

theorem computeNext_within (n : Nat) (lo hi : TYPE) (sty : Nat) (x0 x : List TYPE)
    (dt hx hy k0 : TYPE) (xs ys xe ye : Int) (h0 : lo ≤ 0) (h1 : 0 ≤ hi)
    (hk : 0 < k0) (hdt : 0 < dt) (hx0 : 0 < hx) (hy0 : 0 < hy)
    (hstab : dt ≤ 1 / 4 * (Heat.min hx hy * Heat.min hx hy) / k0)
    (ha : Heat.within n lo hi x0) (hb : Heat.within n lo hi x) :
    Heat.within n lo hi (Heat.computeNext sty x0 x dt hx hy xs ys xe ye k0).1 := by
  unfold Heat.computeNext
  simp only []
  have hx1 : Heat.within n lo hi ((Heat.cells xs ys xe ye).foldl
      (fun x c => Heat.put sty x c.1 c.2 (Heat.stencil sty x0 dt hx hy k0 c.1 c.2)) x) :=
    foldl_inv (Heat.within n lo hi) _
      (fun s c hs => put_within n lo hi sty s c.1 c.2 _
        (stencil_bounded lo hi sty x0 dt hx hy k0 c.1 c.2 h0 h1 hk hdt hx0 hy0 hstab ha.2) hs)
      _ x hb
  exact foldl_inv (fun acc : List TYPE × TYPE => Heat.within n lo hi acc.1) _
    (fun s c hs => put_within n lo hi sty s.1 c.1 c.2 _
      (get_bounded lo hi sty _ c.1 c.2 h0 h1 hx1.2) hs)
    _ (x0, 0) ha

theorem row_bounded (lo hi : TYPE) (sty : Nat) (x : List TYPE) (i j : Int) (count : Nat)
    (h0 : lo ≤ 0) (h1 : 0 ≤ hi) (hx : ∀ v ∈ x, lo ≤ v ∧ v ≤ hi) :
    ∀ v ∈ Heat.row sty x i j count, lo ≤ v ∧ v ≤ hi := by
  intro v hv
  unfold Heat.row at hv
  obtain ⟨t, -, rfl⟩ := List.mem_map.mp hv
  exact get_bounded lo hi sty x _ _ h0 h1 hx

theorem column_bounded (lo hi : TYPE) (sty : Nat) (x : List TYPE) (i j : Int) (count : Nat)
    (h0 : lo ≤ 0) (h1 : 0 ≤ hi) (hx : ∀ v ∈ x, lo ≤ v ∧ v ≤ hi) :
    ∀ v ∈ Heat.column sty x i j count, lo ≤ v ∧ v ≤ hi := by
  intro v hv
  unfold Heat.column at hv
  obtain ⟨t, -, rfl⟩ := List.mem_map.mp hv
  exact get_bounded lo hi sty x _ _ h0 h1 hx

theorem recv_row_within (n : Nat) (lo hi : TYPE) (sty : Nat) (x : List TYPE) (i j : Int)
    (count : Nat) (msg : List TYPE) (h0 : lo ≤ 0) (h1 : 0 ≤ hi)
    (hx : Heat.within n lo hi x) (hm : ∀ v ∈ msg, lo ≤ v ∧ v ≤ hi) :
    Heat.within n lo hi (Heat.recv_row sty x i j count msg) := by
  unfold Heat.recv_row
  exact foldl_inv (Heat.within n lo hi) _
    (fun s t hs => put_within n lo hi sty s _ _ _ (rd_bounded lo hi msg t h0 h1 hm) hs) _ x hx

theorem recv_column_within (n : Nat) (lo hi : TYPE) (sty : Nat) (x : List TYPE) (i j : Int)
    (count : Nat) (msg : List TYPE) (h0 : lo ≤ 0) (h1 : 0 ≤ hi)
    (hx : Heat.within n lo hi x) (hm : ∀ v ∈ msg, lo ≤ v ∧ v ≤ hi) :
    Heat.within n lo hi (Heat.recv_column sty x i j count msg) := by
  unfold Heat.recv_column
  exact foldl_inv (Heat.within n lo hi) _
    (fun s t hs => put_within n lo hi sty s _ _ _ (rd_bounded lo hi msg t h0 h1 hm) hs) _ x hx

theorem getD_bounded (lo hi : TYPE) (n : Nat) (w : List (List TYPE)) (s : Nat)
    (hw : ∀ a ∈ w, Heat.within n lo hi a) : ∀ v ∈ w.getD s [], lo ≤ v ∧ v ≤ hi := by
  by_cases hs : s < w.length
  · rw [List.getD_eq_getElem _ _ hs]
    exact (hw _ (List.getElem_mem hs)).2
  · rw [List.getD_eq_default _ _ (by omega)]
    intro v hv
    exact absurd hv (List.not_mem_nil v)

theorem sendrecv_within (n N : Nat) (lo hi : TYPE) (w : List (List TYPE))
    (source : Nat → Option Nat) (send : Nat → List TYPE → List TYPE)
    (recv : Nat → List TYPE → List TYPE → List TYPE)
    (hsend : ∀ s x, (∀ v ∈ x, lo ≤ v ∧ v ≤ hi) → ∀ v ∈ send s x, lo ≤ v ∧ v ≤ hi)
    (hrecv : ∀ r x msg, Heat.within n lo hi x → (∀ v ∈ msg, lo ≤ v ∧ v ≤ hi) →
      Heat.within n lo hi (recv r x msg))
    (hw : w.length = N ∧ ∀ a ∈ w, Heat.within n lo hi a) :
    (Heat.sendrecv w source send recv).length = N ∧
      ∀ a ∈ Heat.sendrecv w source send recv, Heat.within n lo hi a := by
  unfold Heat.sendrecv
  refine ⟨by simp [hw.1], ?_⟩
  intro a ha
  obtain ⟨r, hr, rfl⟩ := List.mem_map.mp ha
  have hr2 : r < w.length := List.mem_range.mp hr
  have hme : Heat.within n lo hi (w.getD r []) := by
    rw [List.getD_eq_getElem _ _ hr2]
    exact hw.2 _ (List.getElem_mem hr2)
  cases source r with
  | none => exact hme
  | some s => exact hrecv r _ _ hme (hsend s _ (getD_bounded lo hi n w s hw.2))

theorem updateBoundaries_within (n N : Nat) (lo hi : TYPE) (sty xd yd : Nat) (m : Heat.Map)
    (xCell yCell : Nat) (w : List (List TYPE)) (h0 : lo ≤ 0) (h1 : 0 ≤ hi)
    (hw : w.length = N ∧ ∀ a ∈ w, Heat.within n lo hi a) :
    (Heat.updateBoundaries sty xd yd m xCell yCell w).length = N ∧
      ∀ a ∈ Heat.updateBoundaries sty xd yd m xCell yCell w, Heat.within n lo hi a := by
  unfold Heat.updateBoundaries
  simp only []
  apply sendrecv_within n N lo hi _ _ _ _
    (fun s x hx => column_bounded lo hi sty x _ _ _ h0 h1 hx)
    (fun r x msg hx hm => recv_column_within n lo hi sty x _ _ _ msg h0 h1 hx hm)
  apply sendrecv_within n N lo hi _ _ _ _
    (fun s x hx => column_bounded lo hi sty x _ _ _ h0 h1 hx)
    (fun r x msg hx hm => recv_column_within n lo hi sty x _ _ _ msg h0 h1 hx hm)
  apply sendrecv_within n N lo hi _ _ _ _
    (fun s x hx => row_bounded lo hi sty x _ _ _ h0 h1 hx)
    (fun r x msg hx hm => recv_row_within n lo hi sty x _ _ _ msg h0 h1 hx hm)
  exact sendrecv_within n N lo hi _ _ _ _
    (fun s x hx => row_bounded lo hi sty x _ _ _ h0 h1 hx)
    (fun r x msg hx hm => recv_row_within n lo hi sty x _ _ _ msg h0 h1 hx hm) hw

theorem pass_within (n N : Nat) (lo hi : TYPE) (sty xd yd : Nat) (m : Heat.Map)
    (xCell yCell : Nat) (dt hx hy k0 : TYPE) (w : List (List TYPE)) (h0 : lo ≤ 0)
    (h1 : 0 ≤ hi) (hk : 0 < k0) (hdt : 0 < dt) (hx0 : 0 < hx) (hy0 : 0 < hy)
    (hstab : dt ≤ 1 / 4 * (Heat.min hx hy * Heat.min hx hy) / k0)
    (hw : w.length = N ∧ ∀ a ∈ w, Heat.within n lo hi a) :
    (Heat.pass sty xd yd m xCell yCell dt hx hy k0 w).length = N ∧
      ∀ a ∈ Heat.pass sty xd yd m xCell yCell dt hx hy k0 w, Heat.within n lo hi a := by
  unfold Heat.pass
  apply updateBoundaries_within n N lo hi sty xd yd m xCell yCell _ h0 h1
  refine ⟨by simp [hw.1], ?_⟩
  intro a ha
  obtain ⟨r, hr, rfl⟩ := List.mem_map.mp ha
  have hr2 : r < w.length := List.mem_range.mp hr
  have hme : Heat.within n lo hi (w.getD r []) := by
    rw [List.getD_eq_getElem _ _ hr2]
    exact hw.2 _ (List.getElem_mem hr2)
  exact computeNext_within n lo hi sty _ _ dt hx hy k0 _ _ _ _ h0 h1 hk hdt hx0 hy0 hstab
    hme hme

theorem passes_within (n N : Nat) (lo hi : TYPE) (sty xd yd : Nat) (m : Heat.Map)
    (xCell yCell : Nat) (dt hx hy k0 : TYPE) (h0 : lo ≤ 0)
    (h1 : 0 ≤ hi) (hk : 0 < k0) (hdt : 0 < dt) (hx0 : 0 < hx) (hy0 : 0 < hy)
    (hstab : dt ≤ 1 / 4 * (Heat.min hx hy * Heat.min hx hy) / k0) (k : Nat) :
    ∀ w : List (List TYPE), (w.length = N ∧ ∀ a ∈ w, Heat.within n lo hi a) →
      ((Heat.pass sty xd yd m xCell yCell dt hx hy k0)^[k] w).length = N ∧
        ∀ a ∈ (Heat.pass sty xd yd m xCell yCell dt hx hy k0)^[k] w,
          Heat.within n lo hi a := by
  induction k with
  | zero => intro w hw; exact hw
  | succ k ih =>
    intro w hw
    rw [Function.iterate_succ_apply]
    exact ih _ (pass_within n N lo hi sty xd yd m xCell yCell dt hx hy k0 w h0 h1 hk hdt
      hx0 hy0 hstab hw)
theorem put_target (n : Nat) (lo hi : TYPE) (sty : Nat) (x : List TYPE) (a b i j : Int)
    (u : TYPE) (hu : lo ≤ u ∧ u ≤ hi) (hl : x.length = n)
    (h0 : 0 ≤ Heat.idx sty i j) (h1 : (Heat.idx sty i j).toNat < n)
    (h : (lo ≤ Heat.get sty x i j ∧ Heat.get sty x i j ≤ hi) ∨
      Heat.idx sty a b = Heat.idx sty i j) :
    (Heat.put sty x a b u).length = n ∧
      lo ≤ Heat.get sty (Heat.put sty x a b u) i j ∧
      Heat.get sty (Heat.put sty x a b u) i j ≤ hi := by
  refine ⟨by rw [heat_put_length]; exact hl, ?_⟩
  by_cases he : Heat.idx sty a b = Heat.idx sty i j
  · have e : Heat.get sty (Heat.put sty x a b u) i j = u := by
      unfold Heat.get Heat.put
      rw [he, if_neg (by omega), if_neg (by omega)]
      exact rd_set_eq _ _ _ (by omega)
    rw [e]; exact hu
  · rw [heat_get_put_other sty x a b i j u he]
    rcases h with h | h
    · exact h
    · exact absurd h he

theorem fold_target {β : Type} (n : Nat) (lo hi : TYPE) (sty : Nat) (i j : Int)
    (step : List TYPE → β → List TYPE) (hit : β → Prop)
    (hkeep : ∀ x b, x.length = n →
      (step x b).length = n ∧
        ((lo ≤ Heat.get sty x i j ∧ Heat.get sty x i j ≤ hi) →
          lo ≤ Heat.get sty (step x b) i j ∧ Heat.get sty (step x b) i j ≤ hi))
    (hhit : ∀ x b, x.length = n → hit b →
      lo ≤ Heat.get sty (step x b) i j ∧ Heat.get sty (step x b) i j ≤ hi)
    (L : List β) :
    ∀ x, x.length = n →
      ((lo ≤ Heat.get sty x i j ∧ Heat.get sty x i j ≤ hi) ∨ ∃ b ∈ L, hit b) →
      (L.foldl step x).length = n ∧
        lo ≤ Heat.get sty (L.foldl step x) i j ∧ Heat.get sty (L.foldl step x) i j ≤ hi := by
  induction L with
  | nil =>
    intro x hl h
    rcases h with h | ⟨b, hb, -⟩
    · exact ⟨hl, h⟩
    · exact absurd hb (List.not_mem_nil b)
  | cons c L ih =>
    intro x hl h
    rw [List.foldl_cons]
    apply ih _ (hkeep x c hl).1
    rcases h with h | ⟨b, hb, hbh⟩
    · exact Or.inl ((hkeep x c hl).2 h)
    · rcases List.mem_cons.mp hb with rfl | hb
      · exact Or.inl (hhit x b hl hbh)
      · exact Or.inr ⟨b, hb, hbh⟩

theorem fold2_target {β : Type} (n : Nat) (lo hi : TYPE) (sty : Nat) (i j : Int)
    (a1 b1 a2 b2 : β → Int) (u : TYPE) (hu : lo ≤ u ∧ u ≤ hi)
    (h0 : 0 ≤ Heat.idx sty i j) (h1 : (Heat.idx sty i j).toNat < n) (L : List β)
    (x : List TYPE) (hl : x.length = n)
    (h : (lo ≤ Heat.get sty x i j ∧ Heat.get sty x i j ≤ hi) ∨
      ∃ b ∈ L, Heat.idx sty (a1 b) (b1 b) = Heat.idx sty i j ∨
        Heat.idx sty (a2 b) (b2 b) = Heat.idx sty i j) :
    (L.foldl (fun x b => Heat.put sty (Heat.put sty x (a1 b) (b1 b) u) (a2 b) (b2 b) u)
        x).length = n ∧
      lo ≤ Heat.get sty (L.foldl
        (fun x b => Heat.put sty (Heat.put sty x (a1 b) (b1 b) u) (a2 b) (b2 b) u) x) i j ∧
      Heat.get sty (L.foldl
        (fun x b => Heat.put sty (Heat.put sty x (a1 b) (b1 b) u) (a2 b) (b2 b) u) x) i j
        ≤ hi := by
  apply fold_target n lo hi sty i j _
    (fun b => Heat.idx sty (a1 b) (b1 b) = Heat.idx sty i j ∨
      Heat.idx sty (a2 b) (b2 b) = Heat.idx sty i j) _ _ L x hl h
  · intro x b hl
    have p1 := fun hh => put_target n lo hi sty x (a1 b) (b1 b) i j u hu hl h0 h1 (Or.inl hh)
    refine ⟨by rw [heat_put_length, heat_put_length]; exact hl, ?_⟩
    intro hh
    exact (put_target n lo hi sty _ (a2 b) (b2 b) i j u hu (p1 hh).1 h0 h1
      (Or.inl (p1 hh).2)).2
  · intro x b hl hb
    rcases hb with hb | hb
    · have p1 := put_target n lo hi sty x (a1 b) (b1 b) i j u hu hl h0 h1 (Or.inr hb)
      exact (put_target n lo hi sty _ (a2 b) (b2 b) i j u hu p1.1 h0 h1 (Or.inl p1.2)).2
    · exact (put_target n lo hi sty _ (a2 b) (b2 b) i j u hu
        (by rw [heat_put_length]; exact hl) h0 h1 (Or.inr hb)).2

theorem fold1_target (n : Nat) (lo hi : TYPE) (sty : Nat) (i j : Int)
    (u : TYPE) (hu : lo ≤ u ∧ u ≤ hi)
    (h0 : 0 ≤ Heat.idx sty i j) (h1 : (Heat.idx sty i j).toNat < n) (L : List (Int × Int))
    (x : List TYPE) (hl : x.length = n)
    (h : (lo ≤ Heat.get sty x i j ∧ Heat.get sty x i j ≤ hi) ∨ (i, j) ∈ L) :
    (L.foldl (fun x c => Heat.put sty x c.1 c.2 u) x).length = n ∧
      lo ≤ Heat.get sty (L.foldl (fun x c => Heat.put sty x c.1 c.2 u) x) i j ∧
      Heat.get sty (L.foldl (fun x c => Heat.put sty x c.1 c.2 u) x) i j ≤ hi := by
  apply fold_target n lo hi sty i j _ (fun c => c = (i, j)) _ _ L x hl
  · rcases h with h | h
    · exact Or.inl h
    · exact Or.inr ⟨(i, j), h, rfl⟩
  · intro x c hl
    refine ⟨by rw [heat_put_length]; exact hl, ?_⟩
    intro hh
    exact (put_target n lo hi sty x c.1 c.2 i j u hu hl h0 h1 (Or.inl hh)).2
  · intro x c hl hc
    rw [hc]
    exact (put_target n lo hi sty x i j i j u hu hl h0 h1 (Or.inr rfl)).2
theorem fold2_length {β : Type} (n : Nat) (sty : Nat) (a1 b1 a2 b2 : β → Int) (u : TYPE)
    (L : List β) (x : List TYPE) (hl : x.length = n) :
    (L.foldl (fun x b => Heat.put sty (Heat.put sty x (a1 b) (b1 b) u) (a2 b) (b2 b) u)
      x).length = n :=
  foldl_inv (fun x : List TYPE => x.length = n) _
    (fun s b hs => by simp only [heat_put_length]; exact hs) L x hl

theorem initValues_target (lo hi : TYPE) (stx sty : Nat) (x0 : List TYPE) (t1 t2 : TYPE)
    (i j : Int) (ht1 : lo ≤ t1 ∧ t1 ≤ hi) (ht2 : lo ≤ t2 ∧ t2 ≤ hi)
    (hl : x0.length = stx * sty) (hi0 : 0 ≤ i) (hi1 : i < stx) (hj0 : 0 ≤ j) (hj1 : j < sty) :
    (Heat.initValues x0 stx sty t1 t2).length = stx * sty ∧
      lo ≤ Heat.get sty (Heat.initValues x0 stx sty t1 t2) i j ∧
      Heat.get sty (Heat.initValues x0 stx sty t1 t2) i j ≤ hi := by
  obtain ⟨b0, b1⟩ := heat_idx_bounds stx sty i j hi0 hi1 hj0 hj1
  unfold Heat.initValues
  simp only []
  by_cases c1 : j = 0 ∨ j = (sty : Int) - 1
  · have s1 := fold2_target (stx * sty) lo hi sty i j (fun a => a) (fun _ => 0) (fun a => a)
      (fun _ => (sty : Int) - 1) t1 ht1 b0 b1 (Heat.span 0 ((stx : Int) - 1)) x0 hl
      (Or.inr ⟨i, (mem_span _ _ _).mpr ⟨hi0, by omega⟩, by
        rcases c1 with h | h
        · left; rw [h]
        · right; rw [h]⟩)
    have s2 := fold2_target (stx * sty) lo hi sty i j (fun _ => 0) (fun a => a)
      (fun _ => (stx : Int) - 1) (fun a => a) t1 ht1 b0 b1 (Heat.span 0 ((sty : Int) - 1)) _
      s1.1 (Or.inl s1.2)
    have s3 := fold2_target (stx * sty) lo hi sty i j (fun a => a) (fun _ => 1) (fun a => a)
      (fun _ => (sty : Int) - 2) t1 ht1 b0 b1 (Heat.span 0 ((stx : Int) - 2)) _
      s2.1 (Or.inl s2.2)
    have s4 := fold2_target (stx * sty) lo hi sty i j (fun _ => 1) (fun a => a)
      (fun _ => (stx : Int) - 2) (fun a => a) t1 ht1 b0 b1 (Heat.span 1 ((sty : Int) - 2)) _
      s3.1 (Or.inl s3.2)
    exact fold1_target (stx * sty) lo hi sty i j t2 ht2 b0 b1 _ _ s4.1 (Or.inl s4.2)
  have s1 := fold2_length (stx * sty) sty (fun a => a) (fun _ => 0) (fun a => a)
    (fun _ => (sty : Int) - 1) t1 (Heat.span 0 ((stx : Int) - 1)) x0 hl
  by_cases c2 : i = 0 ∨ i = (stx : Int) - 1
  · have s2 := fold2_target (stx * sty) lo hi sty i j (fun _ => 0) (fun a => a)
      (fun _ => (stx : Int) - 1) (fun a => a) t1 ht1 b0 b1 (Heat.span 0 ((sty : Int) - 1)) _
      s1 (Or.inr ⟨j, (mem_span _ _ _).mpr ⟨hj0, by omega⟩, by
        rcases c2 with h | h
        · left; rw [h]
        · right; rw [h]⟩)
    have s3 := fold2_target (stx * sty) lo hi sty i j (fun a => a) (fun _ => 1) (fun a => a)
      (fun _ => (sty : Int) - 2) t1 ht1 b0 b1 (Heat.span 0 ((stx : Int) - 2)) _
      s2.1 (Or.inl s2.2)
    have s4 := fold2_target (stx * sty) lo hi sty i j (fun _ => 1) (fun a => a)
      (fun _ => (stx : Int) - 2) (fun a => a) t1 ht1 b0 b1 (Heat.span 1 ((sty : Int) - 2)) _
      s3.1 (Or.inl s3.2)
    exact fold1_target (stx * sty) lo hi sty i j t2 ht2 b0 b1 _ _ s4.1 (Or.inl s4.2)
  have s2 := fold2_length (stx * sty) sty (fun _ => 0) (fun a => a)
    (fun _ => (stx : Int) - 1) (fun a => a) t1 (Heat.span 0 ((sty : Int) - 1)) _ s1
  by_cases c3 : j = 1 ∨ j = (sty : Int) - 2
  · have s3 := fold2_target (stx * sty) lo hi sty i j (fun a => a) (fun _ => 1) (fun a => a)
      (fun _ => (sty : Int) - 2) t1 ht1 b0 b1 (Heat.span 0 ((stx : Int) - 2)) _
      s2 (Or.inr ⟨i, (mem_span _ _ _).mpr ⟨hi0, by omega⟩, by
        rcases c3 with h | h
        · left; rw [h]
        · right; rw [h]⟩)
    have s4 := fold2_target (stx * sty) lo hi sty i j (fun _ => 1) (fun a => a)
      (fun _ => (stx : Int) - 2) (fun a => a) t1 ht1 b0 b1 (Heat.span 1 ((sty : Int) - 2)) _
      s3.1 (Or.inl s3.2)
    exact fold1_target (stx * sty) lo hi sty i j t2 ht2 b0 b1 _ _ s4.1 (Or.inl s4.2)
  have s3 := fold2_length (stx * sty) sty (fun a => a) (fun _ => 1) (fun a => a)
    (fun _ => (sty : Int) - 2) t1 (Heat.span 0 ((stx : Int) - 2)) _ s2
  by_cases c4 : i = 1 ∨ i = (stx : Int) - 2
  · have s4 := fold2_target (stx * sty) lo hi sty i j (fun _ => 1) (fun a => a)
      (fun _ => (stx : Int) - 2) (fun a => a) t1 ht1 b0 b1 (Heat.span 1 ((sty : Int) - 2)) _
      s3 (Or.inr ⟨j, (mem_span _ _ _).mpr ⟨by omega, by omega⟩, by
        rcases c4 with h | h
        · left; rw [h]
        · right; rw [h]⟩)
    exact fold1_target (stx * sty) lo hi sty i j t2 ht2 b0 b1 _ _ s4.1 (Or.inl s4.2)
  have s4 := fold2_length (stx * sty) sty (fun _ => 1) (fun a => a)
    (fun _ => (stx : Int) - 2) (fun a => a) t1 (Heat.span 1 ((sty : Int) - 2)) _ s3
  exact fold1_target (stx * sty) lo hi sty i j t2 ht2 b0 b1 _ _ s4
    (Or.inr ((mem_cells _ _ _ _ _ _).mpr ⟨by omega, by omega, by omega, by omega⟩))

theorem initValues_within (lo hi : TYPE) (stx sty : Nat) (x0 : List TYPE) (t1 t2 : TYPE)
    (ht1 : lo ≤ t1 ∧ t1 ≤ hi) (ht2 : lo ≤ t2 ∧ t2 ≤ hi) (hl : x0.length = stx * sty) :
    Heat.within (stx * sty) lo hi (Heat.initValues x0 stx sty t1 t2) := by
  have hlen : (Heat.initValues x0 stx sty t1 t2).length = stx * sty := by
    unfold Heat.initValues
    simp only []
    rw [foldl_put_length]
    exact fold2_length (stx * sty) sty (fun _ => 1) (fun a => a)
      (fun _ => (stx : Int) - 2) (fun a => a) t1 _ _
      (fold2_length (stx * sty) sty (fun a => a) (fun _ => 1) (fun a => a)
        (fun _ => (sty : Int) - 2) t1 _ _
        (fold2_length (stx * sty) sty (fun _ => 0) (fun a => a)
          (fun _ => (stx : Int) - 1) (fun a => a) t1 _ _
          (fold2_length (stx * sty) sty (fun a => a) (fun _ => 0) (fun a => a)
            (fun _ => (sty : Int) - 1) t1 _ x0 hl)))
  refine ⟨hlen, ?_⟩
  intro v hv
  obtain ⟨p, hp, rfl⟩ := List.getElem_of_mem hv
  rw [hlen] at hp
  have hsty : 0 < sty := by
    rcases Nat.eq_zero_or_pos sty with h | h
    · rw [h] at hp; simp at hp
    · exact h
  have hdiv : p / sty < stx := Nat.div_lt_of_lt_mul (by rw [Nat.mul_comm]; exact hp)
  have hmod : p % sty < sty := Nat.mod_lt _ hsty
  have ht := initValues_target lo hi stx sty x0 t1 t2 ((p / sty : Nat) : Int)
    ((p % sty : Nat) : Int) ht1 ht2 hl (Int.ofNat_nonneg _) (by exact_mod_cast hdiv)
    (Int.ofNat_nonneg _) (by exact_mod_cast hmod)
  have hidx : Heat.idx sty ((p / sty : Nat) : Int) ((p % sty : Nat) : Int) = (p : Int) := by
    unfold Heat.idx
    have := Nat.div_add_mod p sty
    have h2 : sty * (p / sty) = p / sty * sty := Nat.mul_comm _ _
    rw [h2] at this
    exact_mod_cast this
  have hget : Heat.get sty (Heat.initValues x0 stx sty t1 t2) ((p / sty : Nat) : Int)
      ((p % sty : Nat) : Int) = (Heat.initValues x0 stx sty t1 t2)[p] := by
    unfold Heat.get
    rw [hidx, if_neg (by omega)]
    unfold rd
    rw [Int.toNat_ofNat, List.getD_eq_getElem]
  rw [← hget]
  exact ht.2
theorem run_within (size_x size_y xd yd : Nat) (maxSteps : Int)
    (dt1 t1 t2 k0 junk lo hi : TYPE) (fuel : Nat) (h0 : lo ≤ 0) (h1 : 0 ≤ hi)
    (ht1 : lo ≤ t1 ∧ t1 ≤ hi) (ht2 : lo ≤ t2 ∧ t2 ≤ hi) (hk : 0 < k0) (hdt : 0 < dt1)
    (hstab : dt1 ≤ 1 / 4 * (Heat.min (1 / ((size_x + 2 : Nat) : TYPE))
        (1 / ((size_y + 2 : Nat) : TYPE)) * Heat.min (1 / ((size_x + 2 : Nat) : TYPE))
        (1 / ((size_y + 2 : Nat) : TYPE))) / k0)
    (hm0 : 0 ≤ maxSteps) (hm1 : maxSteps < 2147483647) (hf : maxSteps < fuel) :
    ∃ w, Heat.run size_x size_y xd yd maxSteps dt1 t1 t2 k0 junk fuel
        = some (maxSteps + 1, w) ∧
      w.length = xd * yd ∧
      ∀ a ∈ w, Heat.within ((size_x + 2 * xd + 2) * (size_y + 2 * yd + 2)) lo hi a := by
  have hts : ∀ a b c : TYPE, Heat.time_step dt1 a b c = dt1 := by
    intro a b c
    unfold Heat.time_step
    split_ifs <;> rfl
  have hk2 : (0 : Int) + (maxSteps.toNat : Int) = maxSteps := by
    rw [Int.toNat_of_nonneg hm0]; ring
  have hx0 : (0 : TYPE) < 1 / ((size_x + 2 : Nat) : TYPE) := by positivity
  have hy0 : (0 : TYPE) < 1 / ((size_y + 2 : Nat) : TYPE) := by positivity
  unfold Heat.run
  simp only []
  rw [main_loop_steps _ maxSteps hm1 maxSteps.toNat fuel 0 _ (le_refl _) hk2 (by omega), hts]
  refine ⟨_, rfl, ?_⟩
  apply passes_within _ (xd * yd) lo hi _ _ _ _ _ _ dt1 _ _ k0 h0 h1 hk hdt hx0 hy0 hstab
  apply updateBoundaries_within _ (xd * yd) lo hi _ _ _ _ _ _ _ h0 h1
  refine ⟨List.length_replicate _ _, ?_⟩
  intro a ha
  rw [List.eq_of_mem_replicate ha]
  exact initValues_within lo hi _ _ _ t1 t2 ht1 ht2 (List.length_replicate _ _)

/-- C22 (what the code does): the small scenario (grid `8 x 8`, so
`hx = hy = 1/10`, process grid `1 x 2`, `temp1_init = 10`, `temp2_init = -10`,
`k = 1`) run with a time step `0 < dt1 <= 1/400`, the stability bound
`(1/4)*min(hx,hy)^2/k`, for any `maxSteps` and any content of the allocated
memory. The interior rectangles are rows 2..9 by columns 2..5 on rank 0 and
rows 2..9 by columns 8..11 on rank 1. The run leaves its loop after
`maxSteps + 1` steps, and then every cell of the `12 x 14` array of each of
the two ranks, so every interior cell of its subdomain, holds a value in
`[-10, 10]`. -/
theorem small_heat_run_stable_step (dt1 junk : TYPE) (maxSteps : Int) (fuel : Nat)
    (hdt : 0 < dt1) (hst : dt1 ≤ 1 / 400) (hm0 : 0 ≤ maxSteps)
    (hm1 : maxSteps < 2147483647) (hf : maxSteps < fuel) :
    Heat.processToMap ⟨[0, 0], [0, 0], [0, 0], [0, 0]⟩ 8 4 1 2
      = ⟨[2, 2], [2, 8], [9, 9], [5, 11]⟩ ∧
    ∃ w, Heat.run 8 8 1 2 maxSteps dt1 10 (-10) 1 junk fuel = some (maxSteps + 1, w) ∧
      w.length = 2 ∧
      ∀ r, r < 2 → (w.getD r []).length = 12 * 14 ∧
        ∀ i j : Int, 0 ≤ i → i < 12 → 0 ≤ j → j < 14 →
          -10 ≤ Heat.get 14 (w.getD r []) i j ∧ Heat.get 14 (w.getD r []) i j ≤ 10 := by
  refine ⟨by decide, ?_⟩
  obtain ⟨w, hw1, hw2, hw3⟩ := run_within 8 8 1 2 maxSteps dt1 10 (-10) 1 junk (-10) 10 fuel
    (by norm_num) (by norm_num) (by norm_num) (by norm_num) (by norm_num) hdt
    (by norm_num [Heat.min]; linarith) hm0 hm1 hf
  refine ⟨w, hw1, hw2, ?_⟩
  intro r hr
  have hmem : w.getD r [] ∈ w := by
    rw [List.getD_eq_getElem _ _ (by omega)]
    exact List.getElem_mem _
  refine ⟨(hw3 _ hmem).1, ?_⟩
  intro i j _ _ _ _
  exact get_bounded (-10) 10 14 _ i j (by norm_num) (by norm_num) (hw3 _ hmem).2

theorem small_heat_run_stable_step_witness :
    (0 : TYPE) < 1 / 400 ∧ (1 / 400 : TYPE) ≤ 1 / 400 ∧
    ∃ w, Heat.run 8 8 1 2 10 (1 / 400) 10 (-10) 1 7 11 = some ((10 : Int) + 1, w) ∧
      w.length = 2 :=
  ⟨by norm_num, le_refl _,
    (small_heat_run_stable_step (1 / 400) 7 10 11 (by norm_num) (le_refl _) (by decide)
      (by decide) (by decide)).2.imp fun _ h => ⟨h.1, h.2.1⟩⟩

end Hpcac
